import Mathlib

/-! # github-repo-stats: watcher, registration and request validation

A shallow embedding of `pkg/services/githubrepo` (watcher.go, github_repo.go),
`pkg/db/postgres/repository.go` and `pkg/httpserver/handlers.go`.

The service talks to two outside parties, the GitHub HTTP API and the postgres
store.  Both are made explicit:

* `Env` holds what the outside decides: the reply to the n-th HTTP request, whether
  the n-th store statement fails, whether the n-th backoff wait is cut short by
  cancellation, the identifiers `uuid.New()` hands out, the clock.
* `State` holds what the run changes: the two tables, the registration queue, the
  call counters and the chronological list of calls made (`trace`).

Every function takes a state and returns its Go results together with the new
state.  The two unbounded `for` loops take a fuel argument; when the fuel runs out
the result is `none` and the state reached so far is still returned.  A send on the
full channel `newRepo` blocks; the calls that can reach it return `none` then.

The trace records a commit page request by the values its URL is built from.  The
text of the URL, with the cursor printed by `Time.Format`, is `CommitsRequest.url`.
-/

namespace GithubRepoStats

/-! ## Time -/

/-- An instant (`time.Time`), in nanoseconds from the zero instant
0001-01-01T00:00:00Z, so `IsZero` is `= 0`.  The Location a `time.Time` carries is
not part of it; `Time.Format`, the one place that reads it, takes it as an argument. -/
abbrev Time := Int

/-- A `time.Duration`: nanoseconds in an int64. -/
abbrev Duration := Int

/-- Two's-complement wrap of an integer into the int64 range. -/
def wrapInt64 (x : Int) : Int := (x + 2 ^ 63) % 2 ^ 64 - 2 ^ 63

/-- The constant `time.Minute`. -/
def Minute : Duration := 60 * 1000000000

/-- watcher.go:21, `defaultBackoffDuration = 1 * time.Minute`. -/
def defaultBackoffDuration : Duration := 1 * Minute

/-- watcher.go:19. -/
def githubCommitsMaxRecordsPerPage : Nat := 100

/-- watcher.go:18. -/
def githubAPIURL : String := "https://api.github.com"

/-- watcher.go:24, the layout `ISODateFormat`.  Its last rune is a plain `Z`, not a
zone element of the layout (those are `Z07:00`, `Z0700`, ...), so `Format` copies it. -/
def ISODateFormat : String := "2006-01-02T15:04:05Z"

/-- The decimal digits of a number, filled with zeros on the left up to `width`. -/
def zeroPad (width n : Nat) : String :=
  String.mk (List.replicate (width - (Nat.toDigits 10 n).length) '0' ++ Nat.toDigits 10 n)

/-- The text of `%d` for a number that is not negative. -/
def fmtInt (n : Nat) : String := String.mk (Nat.toDigits 10 n)

/-- Year, month and day of a day number, day 0 being 0001-01-01 (the proleptic
Gregorian calendar of package `time`). -/
def civilDate (days : Int) : Int × Nat × Nat :=
  let z := days + 306
  let era := z / 146097
  let doe := (z % 146097).toNat
  let yoe := (doe - doe / 1460 + doe / 36524 - doe / 146096) / 365
  let doy := doe - (365 * yoe + yoe / 4 - yoe / 100)
  let mp := (5 * doy + 2) / 153
  let d := doy - (153 * mp + 2) / 5 + 1
  let m := if mp < 10 then mp + 3 else mp - 9
  let y := (yoe : Int) + era * 400 + (if m ≤ 2 then 1 else 0)
  (y, m, d)

/-- The call `t.Format(ISODateFormat)` for a value of instant `t` that carries a
Location `offset` seconds east of UTC: the wall clock of that Location, second by
second, followed by the `Z` of the layout.  Nothing converts the value to UTC. -/
def Time.Format (t : Time) (offset : Int) : String :=
  let abs := t / 1000000000 + offset
  let (y, m, d) := civilDate (abs / 86400)
  let secs := (abs % 86400).toNat
  (if y < 0 then "-" ++ zeroPad 4 (-y).toNat else zeroPad 4 y.toNat) ++ "-" ++ zeroPad 2 m
    ++ "-" ++ zeroPad 2 d ++ "T" ++ zeroPad 2 (secs / 3600) ++ ":"
    ++ zeroPad 2 (secs % 3600 / 60) ++ ":" ++ zeroPad 2 (secs % 60) ++ "Z"

/-! ## Errors -/

/-- Go error values.  `wrapped msg inner` is `fmt.Errorf(msg + ": %w", inner)`. -/
inductive Err where
  | ErrRateLimitReached
  | ErrRecordNotFound
  | ctxErr
  | other (msg : String)
  | wrapped (msg : String) (inner : Err)
deriving DecidableEq, Repr

/-- The call `errors.Is(err, target)` for a sentinel target: walk the `%w` chain. -/
def Err.Is : Err → Err → Bool
  | .wrapped _ inner, target => inner.Is target
  | e, target => decide (e = target)

/-- Result of a service routine: a value, a Go error, or a run-time panic
(nil pointer dereference). -/
inductive Res (α : Type) where
  | ok (a : α)
  | err (e : Err)
  | crash
deriving DecidableEq, Repr

/-! ## Records -/

/-- watcher.go:28, the part of the metadata reply that is kept. -/
structure GithubRepositoryResponse where
  Description : String
  URL : String
  Language : String
  ForksCount : Int
  StarsCount : Int
  OpenIssuesCount : Int
  SubscribersCount : Int
deriving DecidableEq, Repr

/-- watcher.go:39. -/
structure GithubCommitAuthor where
  Name : String
  Email : String
  Date : Time
deriving DecidableEq, Repr

/-- watcher.go:46. -/
structure GithubCommitDetails where
  Message : String
  Author : GithubCommitAuthor
deriving DecidableEq, Repr

/-- watcher.go:52.  The decoded slice holds pointers; they are taken non-nil. -/
structure GithubCommitResponse where
  SHA : String
  Commit : GithubCommitDetails
  URL : String
deriving DecidableEq, Repr

/-- pkg/repository/github.go:6. -/
structure GithubRepository where
  ID : String
  RepositoryName : String
  Description : Option String
  URL : Option String
  Language : Option String
  ForksCount : Int
  StarsCount : Int
  OpenIssuesCount : Int
  WatchersCount : Int
  CommitLastPulledTime : Option Time
  CreatedAt : Time
  UpdatedAt : Option Time
deriving DecidableEq, Repr

/-- pkg/repository/github.go:22. -/
structure GithubCommit where
  ID : String
  RepositoryID : String
  CommitHash : String
  Message : String
  AuthorName : String
  AuthorEmail : String
  Date : Time
  URL : String
deriving DecidableEq, Repr

/-- pkg/repository/github.go:34. -/
structure CommitStats where
  AuthorName : String
  CommitCount : Int
deriving DecidableEq, Repr

/-! ## The outside world -/

/-- The values `processUntrackedCommits` builds the URL of a commit page request
from (watcher.go:304-307): the repository name, the page number, the page size and
the pointer `since`, as the instant it points to.  They are not the URL:
`CommitsRequest.url` is the text built from them, `sentURL` and `rawQuery` what of
that text goes to the server. -/
structure CommitsRequest where
  repoName : String
  page : Nat
  perPage : Nat
  since : Option Time
deriving DecidableEq, Repr

/-- watcher.go:304-307, the URL of a commit page request.  The name is put in as it
is, and `since` as `since.Format(ISODateFormat)`; `offset` is the offset east of UTC,
in seconds, of the Location the `since` value carries. -/
def CommitsRequest.url (req : CommitsRequest) (offset : Int) : String :=
  let url := githubAPIURL ++ "/repos/" ++ req.repoName ++ "/commits?page=" ++ fmtInt req.page
    ++ "&per_page=" ++ fmtInt req.perPage
  match req.since with
  | some since => url ++ "&since=" ++ Time.Format since offset
  | none => url

/-- What `http.NewRequestWithContext` keeps of a URL text for the request it sends:
`url.Parse` cuts the text at the first `#`, and the fragment is not sent. -/
def sentURL (url : String) : String :=
  String.mk (url.data.takeWhile fun c => c != '#')

/-- The query that is sent (`RawQuery`): what follows the first `?` of `sentURL`. -/
def rawQuery (url : String) : String :=
  String.mk (((sentURL url).data.dropWhile fun c => c != '?').drop 1)

/-- Outcome of `httpClient.Do` followed by the JSON decoding of the body:
`doErr` when `Do` fails, else the status code, the status text and the decoded
body (or the decoder's error). -/
inductive HttpReply (β : Type) where
  | doErr (e : Err)
  | resp (statusCode : Nat) (status : String) (body : Except Err β)

/-- One call that leaves the service, in the order made. -/
inductive Event where
  | fetchRepoData (repositoryName : String)
  | fetchCommits (req : CommitsRequest)
  | backoff (d : Duration)
  | GetRepositories
  | GetRepositoryByName (name : String)
  | CreateRepository (repoID repoName : String)
  | UpdateRepository (repo : GithubRepository)
  | UpdateCommitLastSyncTime (repoID : String) (syncTime : Time)
  | SaveCommit (commit : GithubCommit)
  | GetCommitsByRepository (repoID : String) (limit offset : Int)
  | GetLeaderBoard (limit : Int)
  | newRepoSend (repoName : String)
deriving DecidableEq, Repr

/-- Everything the outside decides.  `newRequestErr` is the failure of
`http.NewRequestWithContext` for the URL of a repository name; `leaderBoardRows`
is what the aggregation query of `GetLeaderBoard` yields; `unicodeToLower` is the
per-rune mapping of `strings.ToLower`. -/
structure Env where
  commitSinceDate : Time
  newRequestErr : String → Option Err
  repoReply : Nat → String → HttpReply GithubRepositoryResponse
  commitsReply : Nat → CommitsRequest → HttpReply (List GithubCommitResponse)
  storeErr : Nat → Option Err
  ctxDone : Nat → Bool
  uuid : Nat → String
  now : Nat → Time
  leaderBoardRows : Nat → Int → List CommitStats
  unicodeToLower : Char → Char

/-- What a run changes. `repository` and `commits` are the two tables, `newRepo`
the buffered channel of the service, `trace` the calls made so far. -/
structure State where
  httpCalls : Nat
  storeCalls : Nat
  waits : Nat
  uuids : Nat
  repository : List GithubRepository
  commits : List GithubCommit
  newRepo : List String
  trace : List Event
deriving DecidableEq, Repr

/-- Count one store statement and record it. -/
def State.storeCall (s : State) (ev : Event) : State :=
  { s with storeCalls := s.storeCalls + 1, trace := s.trace ++ [ev] }

/-- Count one HTTP request and record it. -/
def State.httpCall (s : State) (ev : Event) : State :=
  { s with httpCalls := s.httpCalls + 1, trace := s.trace ++ [ev] }

/-- Take the next identifier of `uuid.New().String()`. -/
def State.newUUID (s : State) : State :=
  { s with uuids := s.uuids + 1 }

/-! ## pkg/db/postgres/repository.go

A statement that fails (`storeErr`) leaves the tables as they were. -/

/-- repository.go:27.  The SELECT reads id, name and the high-water mark only. -/
def Repository.GetRepositories (env : Env) (s : State) : Except Err (List GithubRepository) × State :=
  let s1 := s.storeCall Event.GetRepositories
  match env.storeErr s.storeCalls with
  | some e => (.error e, s1)
  | none =>
    (.ok (s.repository.map fun r =>
      { ID := r.ID, RepositoryName := r.RepositoryName, Description := none, URL := none,
        Language := none, ForksCount := 0, StarsCount := 0, OpenIssuesCount := 0,
        WatchersCount := 0, CommitLastPulledTime := r.CommitLastPulledTime,
        CreatedAt := 0, UpdatedAt := none }), s1)

/-- repository.go:63.  No row is `sql.ErrNoRows`, returned as `ErrRecordNotFound`. -/
def Repository.GetRepositoryByName (env : Env) (s : State) (name : String) :
    Except Err GithubRepository × State :=
  let s1 := s.storeCall (Event.GetRepositoryByName name)
  match env.storeErr s.storeCalls with
  | some e => (.error e, s1)
  | none =>
    match s.repository.find? (fun r => r.RepositoryName == name) with
    | none => (.error Err.ErrRecordNotFound, s1)
    | some r => (.ok r, s1)

/-- repository.go:95.  Returns the fresh id also when the INSERT fails.  The
columns the INSERT leaves out are taken empty, `created_at` as the clock. -/
def Repository.CreateRepository (env : Env) (s : State) (repoName : String) :
    (String × Option Err) × State :=
  let repoID := env.uuid s.uuids
  let s0 := s.newUUID
  let s1 := s0.storeCall (Event.CreateRepository repoID repoName)
  match env.storeErr s0.storeCalls with
  | some e => ((repoID, some (Err.wrapped "could not insert repository" e)), s1)
  | none =>
    ((repoID, none),
      { s1 with repository := s1.repository ++
          [{ ID := repoID, RepositoryName := repoName, Description := none, URL := none,
             Language := none, ForksCount := 0, StarsCount := 0, OpenIssuesCount := 0,
             WatchersCount := 0, CommitLastPulledTime := none,
             CreatedAt := env.now s0.storeCalls, UpdatedAt := none }] })

/-- repository.go:110.  Overwrites the metadata columns of the rows with that id. -/
def Repository.UpdateRepository (env : Env) (s : State) (repo : GithubRepository) :
    Option Err × State :=
  let s1 := s.storeCall (Event.UpdateRepository repo)
  match env.storeErr s.storeCalls with
  | some e => (some (Err.wrapped "could not update repository" e), s1)
  | none =>
    (none, { s1 with repository := s1.repository.map fun r =>
      if r.ID = repo.ID then
        { r with Description := repo.Description, URL := repo.URL, Language := repo.Language,
                 ForksCount := repo.ForksCount, StarsCount := repo.StarsCount,
                 OpenIssuesCount := repo.OpenIssuesCount, WatchersCount := repo.WatchersCount,
                 UpdatedAt := some (env.now s.storeCalls) }
      else r })

/-- repository.go:143.  `UPDATE repository SET commit_last_pulled_time = $1 WHERE id = $2`:
an unconditional overwrite. -/
def Repository.UpdateCommitLastSyncTime (env : Env) (s : State) (repoID : String) (syncTime : Time) :
    Option Err × State :=
  let s1 := s.storeCall (Event.UpdateCommitLastSyncTime repoID syncTime)
  match env.storeErr s.storeCalls with
  | some e => (some (Err.wrapped "could not update repository" e), s1)
  | none =>
    (none, { s1 with repository := s1.repository.map fun r =>
      if r.ID = repoID then { r with CommitLastPulledTime := some syncTime } else r })

/-- repository.go:162.  `ON CONFLICT (commit_hash, repository_id) DO NOTHING`. -/
def Repository.SaveCommit (env : Env) (s : State) (commit : GithubCommit) : Option Err × State :=
  let s1 := s.storeCall (Event.SaveCommit commit)
  match env.storeErr s.storeCalls with
  | some e => (some (Err.wrapped "could not insert repository" e), s1)
  | none =>
    if s1.commits.any (fun c => c.CommitHash == commit.CommitHash
        && c.RepositoryID == commit.RepositoryID) then (none, s1)
    else (none, { s1 with commits := s1.commits ++ [commit] })

/-- repository.go:184.  Rows of one repository, newest first, `LIMIT`/`OFFSET`
applied; the SELECT leaves id and repository id out.  A negative `LIMIT` or
`OFFSET` is refused by the database. -/
def Repository.GetCommitsByRepository (env : Env) (s : State) (repoID : String) (limit offset : Int) :
    Except Err (List GithubCommit) × State :=
  let s1 := s.storeCall (Event.GetCommitsByRepository repoID limit offset)
  match env.storeErr s.storeCalls with
  | some e => (.error e, s1)
  | none =>
    if limit < 0 ∨ offset < 0 then (.error (Err.other "LIMIT/OFFSET must not be negative"), s1)
    else
      let rows := (s.commits.filter fun c => c.RepositoryID == repoID).mergeSort
        (fun a b => decide (b.Date ≤ a.Date))
      (.ok (((rows.drop offset.toNat).take limit.toNat).map fun c =>
        { c with ID := "", RepositoryID := "" }), s1)

/-- repository.go:226.  The rows of the aggregation query are the database's. -/
def Repository.GetLeaderBoard (env : Env) (s : State) (limit : Int) :
    Except Err (List CommitStats) × State :=
  let s1 := s.storeCall (Event.GetLeaderBoard limit)
  match env.storeErr s.storeCalls with
  | some e => (.error e, s1)
  | none => (.ok (env.leaderBoardRows s.storeCalls limit), s1)

/-! ## pkg/services/githubrepo/watcher.go -/

/-- watcher.go:224.  403 is the rate limit, any other status but 200 a failure. -/
def fetchRepoData (env : Env) (s : State) (repositoryName : String) :
    Except Err GithubRepositoryResponse × State :=
  match env.newRequestErr repositoryName with
  | some e => (.error (Err.wrapped "error fetching from github" e), s)
  | none =>
    let s1 := s.httpCall (Event.fetchRepoData repositoryName)
    match env.repoReply s.httpCalls repositoryName with
    | .doErr e => (.error e, s1)
    | .resp statusCode status body =>
      if statusCode = 403 then (.error Err.ErrRateLimitReached, s1)
      else if statusCode ≠ 200 then
        (.error (Err.other ("failed to fetch commits: " ++ status)), s1)
      else
        match body with
        | .error e => (.error e, s1)
        | .ok repo => (.ok repo, s1)

/-- The `select` of a backoff wait (watcher.go:185, 283): record the wait and ask
the environment whether `ctx.Done()` wins over the timer. -/
def State.backoffWait (s : State) (d : Duration) : State :=
  { s with waits := s.waits + 1, trace := s.trace ++ [Event.backoff d] }

/-- The `for` loop of `fetchRepoWithRetry` (watcher.go:174-198); `backoffDuration`
is the loop variable. -/
def fetchRepoWithRetryLoop (env : Env) (repoName : String) :
    Nat → State → Duration → Option (Except Err GithubRepositoryResponse) × State
  | 0, s, _ => (none, s)
  | fuel + 1, s, backoffDuration =>
    match fetchRepoData env s repoName with
    | (.error err, s1) =>
      if err.Is Err.ErrRateLimitReached then
        let backoffDuration := wrapInt64 (backoffDuration * 2)
        let s2 := s1.backoffWait backoffDuration
        if env.ctxDone s1.waits then (some (.error Err.ctxErr), s2)
        else fetchRepoWithRetryLoop env repoName fuel s2 backoffDuration
      else (some (.error (Err.wrapped "error fetching repo metadata" err)), s1)
    | (.ok ghRepo, s1) => (some (.ok ghRepo), s1)

/-- watcher.go:167. -/
def fetchRepoWithRetry (env : Env) (fuel : Nat) (s : State) (repoName : String) :
    Option (Except Err GithubRepositoryResponse) × State :=
  fetchRepoWithRetryLoop env repoName fuel s defaultBackoffDuration

/-- watcher.go:203.  The in-memory record `gr` is updated from the reply and then
written with `UpdateRepository`; the updated record is returned with the result. -/
def updateRepoInformation (env : Env) (fuel : Nat) (s : State) (gr : GithubRepository) :
    Option (Res Unit) × GithubRepository × State :=
  match fetchRepoWithRetry env fuel s gr.RepositoryName with
  | (none, s1) => (none, gr, s1)
  | (some (.error err), s1) =>
    (some (.err (Err.wrapped "error fetching commits with retry mechanism" err)), gr, s1)
  | (some (.ok ghRepo), s1) =>
    let gr1 : GithubRepository :=
      { gr with Description := some ghRepo.Description, URL := some ghRepo.URL,
                Language := some ghRepo.Language, ForksCount := ghRepo.ForksCount,
                StarsCount := ghRepo.StarsCount, OpenIssuesCount := ghRepo.OpenIssuesCount,
                WatchersCount := ghRepo.SubscribersCount }
    match Repository.UpdateRepository env s1 gr1 with
    | (some err, s2) =>
      (some (.err (Err.wrapped ("failed to update repo (" ++ gr1.ID ++ ")") err)), gr1, s2)
    | (none, s2) => (some (.ok ()), gr1, s2)

/-- The record `processUntrackedCommits` builds for one commit (watcher.go:340-348). -/
def toGithubCommit (id repoID : String) (commit : GithubCommitResponse) : GithubCommit :=
  { ID := id, RepositoryID := repoID, CommitHash := commit.SHA,
    Message := commit.Commit.Message, AuthorName := commit.Commit.Author.Name,
    AuthorEmail := commit.Commit.Author.Email, Date := commit.Commit.Author.Date,
    URL := commit.URL }

/-- The `for _, commit := range commits` loop of watcher.go:339-352: one insert a
commit, in response order, stopping at the first insert that fails. -/
def saveCommitsLoop (env : Env) (repoID : String) :
    List GithubCommitResponse → State → Option Err × State
  | [], s => (none, s)
  | commit :: rest, s =>
    let id := env.uuid s.uuids
    match Repository.SaveCommit env s.newUUID (toGithubCommit id repoID commit) with
    | (some err, s1) => (some (Err.wrapped "failed to save new commit" err), s1)
    | (none, s1) => saveCommitsLoop env repoID rest s1

/-- watcher.go:302.  Returns the number of commits of the page, or the error. -/
def processUntrackedCommits (env : Env) (s : State) (repoID repoName : String) (page : Nat)
    (since : Option Time) : Except Err Nat × State :=
  match env.newRequestErr repoName with
  | some e => (.error (Err.wrapped "error fetching from github" e), s)
  | none =>
    let req : CommitsRequest :=
      { repoName := repoName, page := page, perPage := githubCommitsMaxRecordsPerPage,
        since := since }
    let s1 := s.httpCall (Event.fetchCommits req)
    match env.commitsReply s.httpCalls req with
    | .doErr e => (.error e, s1)
    | .resp statusCode status body =>
      if statusCode = 403 then (.error Err.ErrRateLimitReached, s1)
      else if statusCode ≠ 200 then
        (.error (Err.other ("failed to fetch commits: " ++ status)), s1)
      else
        match body with
        | .error e => (.error e, s1)
        | .ok commits =>
          match saveCommitsLoop env repoID commits s1 with
          | (some err, s2) => (.error err, s2)
          | (none, s2) =>
            match commits.getLast? with
            | some last =>
              let lastSyncTime := last.Commit.Author.Date
              match Repository.UpdateCommitLastSyncTime env s2 repoID lastSyncTime with
              | (some err, s3) =>
                (.error (Err.wrapped "failed to update last sync time" err), s3)
              | (none, s3) => (.ok commits.length, s3)
            | none => (.ok commits.length, s2)

/-- The starting cursor of `trackCommits` (watcher.go:258-268): the configured date
when it is not the zero instant, overridden by the repository's high-water mark. -/
def trackCommitsSince (env : Env) (repo : GithubRepository) : Option Time :=
  let since : Option Time := if env.commitSinceDate ≠ 0 then some env.commitSinceDate else none
  match repo.CommitLastPulledTime with
  | some t => some t
  | none => since

/-- The `for` loop of `trackCommits` (watcher.go:270-299); `page` and
`backoffDuration` are the loop variables.  In the rate-limit branch the log call
evaluates `since.Format(ISODateFormat)` (watcher.go:279) on the pointer `since`,
which panics when the pointer is nil. -/
def trackCommitsLoop (env : Env) (repo : GithubRepository) (since : Option Time) :
    Nat → State → Nat → Duration → Option (Res Unit) × State
  | 0, s, _, _ => (none, s)
  | fuel + 1, s, page, backoffDuration =>
    match processUntrackedCommits env s repo.ID repo.RepositoryName page since with
    | (.error err, s1) =>
      if err.Is Err.ErrRateLimitReached then
        let backoffDuration := wrapInt64 (backoffDuration * 2)
        match since with
        | none => (some .crash, s1)
        | some _ =>
          let s2 := s1.backoffWait backoffDuration
          if env.ctxDone s1.waits then (some (.err Err.ctxErr), s2)
          else trackCommitsLoop env repo since fuel s2 page backoffDuration
      else (some (.err (Err.wrapped "error fetching commits" err)), s1)
    | (.ok numberProcessed, s1) =>
      if numberProcessed < githubCommitsMaxRecordsPerPage then (some (.ok ()), s1)
      else trackCommitsLoop env repo since fuel s1 (page + 1) backoffDuration

/-- watcher.go:255. -/
def trackCommits (env : Env) (fuel : Nat) (s : State) (repo : GithubRepository) :
    Option (Res Unit) × State :=
  trackCommitsLoop env repo (trackCommitsSince env repo) fuel s 1 defaultBackoffDuration

/-- watcher.go:124. -/
def trackRepo (env : Env) (fuel : Nat) (s : State) (repo : GithubRepository) :
    Option (Res Unit) × State :=
  match updateRepoInformation env fuel s repo with
  | (none, _, s1) => (none, s1)
  | (some .crash, _, s1) => (some .crash, s1)
  | (some (.err err), _, s1) =>
    (some (.err (Err.wrapped "failed tracking repo metadata" err)), s1)
  | (some (.ok _), repo1, s1) =>
    match trackCommits env fuel s1 repo1 with
    | (none, s2) => (none, s2)
    | (some .crash, s2) => (some .crash, s2)
    | (some (.err err), s2) => (some (.err (Err.wrapped "failed tracking commits" err)), s2)
    | (some (.ok _), s2) => (some (.ok ()), s2)

/-- The `for _, repo := range repos` loop of `trackAllRepos` (watcher.go:154-162):
an error of one repository is logged and the loop goes on; a panic ends it. -/
def trackAllReposLoop (env : Env) (fuel : Nat) :
    List GithubRepository → State → Option (Res Unit) × State
  | [], s => (some (.ok ()), s)
  | repo :: rest, s =>
    match trackRepo env fuel s repo with
    | (none, s1) => (none, s1)
    | (some .crash, s1) => (some .crash, s1)
    | (some _, s1) => trackAllReposLoop env fuel rest s1

/-- watcher.go:138. -/
def trackAllRepos (env : Env) (fuel : Nat) (s : State) : Option (Res Unit) × State :=
  match Repository.GetRepositories env s with
  | (.error _, s1) => (some (.ok ()), s1)
  | (.ok repos, s1) => trackAllReposLoop env fuel repos s1

/-! ## pkg/services/githubrepo/github_repo.go -/

/-- github_repo.go:30, `newRepo: make(chan string, 100)`: the size of the buffer. -/
def newRepoCapacity : Nat := 100

/-- The send `s.newRepo <- repoName` (github_repo.go:52).  `s.newRepo` holds the names
sent and not yet received.  With room in the buffer the name is appended; with a
full buffer the send blocks, which is `none`: the sender goes on only when a
receiver has taken a name, and no receiver is part of the call. -/
def State.sendNewRepo (s : State) (repoName : String) : Option State :=
  if s.newRepo.length < newRepoCapacity then
    some { s with newRepo := s.newRepo ++ [repoName],
                  trace := s.trace ++ [Event.newRepoSend repoName] }
  else none

/-- github_repo.go:38.  Returns the Go pair, identifier and error; `none` when the
call does not return because it is blocked in the send on `newRepo`. -/
def getRepositoryID (env : Env) (s : State) (repoName : String) :
    Option (String × Option Err) × State :=
  let githubRepoID := ""
  match Repository.GetRepositoryByName env s repoName with
  | (.error err, s1) =>
    if err.Is Err.ErrRecordNotFound then
      match Repository.CreateRepository env s1 repoName with
      | ((_, some _rpErr), s2) =>
        (some (githubRepoID, some (Err.wrapped "error creating repository" err)), s2)
      | ((returnID, none), s2) =>
        match s2.sendNewRepo repoName with
        | none => (none, s2)
        | some s3 => (some (returnID, none), s3)
    else
      (some (githubRepoID,
        some (Err.wrapped ("failed to get repository (" ++ repoName ++ ") with error") err)), s1)
  | (.ok githubRepo, s1) => (some (githubRepo.ID, none), s1)

/-- github_repo.go:65.  `none` when `getRepositoryID` does not return. -/
def Service.GetCommits (env : Env) (s : State) (repoName : String) (limit offset : Int) :
    Option (Except Err (List GithubCommit)) × State :=
  match getRepositoryID env s repoName with
  | (none, s1) => (none, s1)
  | (some (_, some err), s1) =>
    (some (.error (Err.wrapped "error retrieving repository id" err)), s1)
  | (some (githubRepoID, none), s1) =>
    match Repository.GetCommitsByRepository env s1 githubRepoID limit offset with
    | (.error err, s2) =>
      (some (.error (Err.wrapped
        ("failed to get commits for repository (" ++ githubRepoID ++ ") with error") err)), s2)
    | (.ok commits, s2) => (some (.ok commits), s2)

/-- github_repo.go:79. -/
def Service.GetLeaderBoard (env : Env) (s : State) (count : Int) :
    Except Err (List CommitStats) × State :=
  match Repository.GetLeaderBoard env s count with
  | (.error err, s1) => (.error (Err.wrapped "failed to get commits stats" err), s1)
  | (.ok stats, s1) => (.ok stats, s1)

/-! ## pkg/httpserver/handlers.go -/

/-- The call `strings.Split(s, "/")` on the runes of `s`: the pieces between the
slashes, one more than there are slashes. -/
def splitSlash : List Char → List (List Char)
  | [] => [[]]
  | c :: cs =>
    if c = '/' then [] :: splitSlash cs
    else
      match splitSlash cs with
      | [] => [[c]]
      | p :: ps => (c :: p) :: ps

/-- handlers.go:22.  `none` is the nil error. -/
def ValidateRepoName (repoName : String) : Option Err :=
  match splitSlash repoName.data with
  | [owner, name] =>
    if owner = [] ∨ name = [] then
      some (Err.other "both owner and repository name must be non-empty")
    else none
  | _ => some (Err.other "repository name must be in the format \x27owner/name\x27")

/-- The text of `err.Error()`. -/
def Err.Error : Err → String
  | .ErrRateLimitReached => "rate limit error"
  | .ErrRecordNotFound => "sql: no rows in result set"
  | .ctxErr => "context canceled"
  | .other msg => msg
  | .wrapped msg inner => msg ++ ": " ++ inner.Error

/-- The runes `unicode.IsSpace` accepts. -/
def isSpace (c : Char) : Bool :=
  let n := c.toNat
  (9 ≤ n && n ≤ 13) || n == 32 || n == 0x85 || n == 0xA0 || n == 0x1680
    || (0x2000 ≤ n && n ≤ 0x200A) || n == 0x2028 || n == 0x2029 || n == 0x202F
    || n == 0x205F || n == 0x3000

/-- The call `strings.TrimSpace`. -/
def TrimSpace (s : String) : String :=
  String.mk ((s.data.dropWhile isSpace).reverse.dropWhile isSpace).reverse

/-- The call `strings.ToLower`, rune by rune. -/
def ToLower (env : Env) (s : String) : String :=
  String.mk (s.data.map env.unicodeToLower)

/-- Value of a run of decimal digits, `none` at the first rune that is no digit. -/
def digitsValue (acc : Nat) : List Char → Option Nat
  | [] => some acc
  | c :: cs =>
    if 48 ≤ c.toNat ∧ c.toNat ≤ 57 then digitsValue (acc * 10 + (c.toNat - 48)) cs else none

/-- The call `strconv.Atoi`: an optional sign, at least one digit, a value in the
int64 range; `none` stands for a non-nil error. -/
def Atoi (s : String) : Option Int :=
  let signed (neg : Bool) (ds : List Char) : Option Int :=
    match ds with
    | [] => none
    | _ =>
      (digitsValue 0 ds).bind fun n =>
        if neg then (if n ≤ 2 ^ 63 then some (-(n : Int)) else none)
        else (if n < 2 ^ 63 then some (n : Int) else none)
  match s.data with
  | '-' :: ds => signed true ds
  | '+' :: ds => signed false ds
  | ds => signed false ds

/-- What a handler writes: the helpers of package `response` by name, and for
`response.JSON` the status code and the value encoded. -/
inductive Response where
  | InvalidRequest (msg : String)
  | InternalError
  | JSONMessage (status : Nat) (message : String)
  | JSONCommits (status : Nat) (commits : List GithubCommit)
  | JSONLeaderBoard (status : Nat) (leaderBoard : List CommitStats)
deriving DecidableEq, Repr

/-- handlers.go:37.  The three arguments are the values of the query parameters
`repoName`, `limit` and `offset` (empty when absent).  `none` when the handler
writes nothing because the service call does not return. -/
def Server.GetCommits (env : Env) (s : State) (repoNameParam limitStr offsetStr : String) :
    Option Response × State :=
  let repoName := ToLower env (TrimSpace repoNameParam)
  if repoName = "" then (some (Response.InvalidRequest "repoName is missing"), s)
  else
    match ValidateRepoName repoName with
    | some err => (some (Response.InvalidRequest err.Error), s)
    | none =>
      let limit : Int :=
        match Atoi limitStr with
        | some n => if n ≤ 0 then 5 else n
        | none => 5
      let offset : Int :=
        match Atoi offsetStr with
        | some n => n
        | none => 0
      match Service.GetCommits env s repoName limit offset with
      | (none, s1) => (none, s1)
      | (some (.error _), s1) => (some Response.InternalError, s1)
      | (some (.ok commits), s1) =>
        if commits.length = 0 then
          (some (Response.JSONMessage 202
            (repoName ++ " is now being tracked. Please check back later")), s1)
        else (some (Response.JSONCommits 200 commits), s1)

/-- handlers.go:89.  The argument is the value of the query parameter `limit`. -/
def Server.GetLeaderBoard (env : Env) (s : State) (countStr : String) : Response × State :=
  let count : Int :=
    match Atoi countStr with
    | some n => if n ≤ 0 then 5 else n
    | none => 5
  match Service.GetLeaderBoard env s count with
  | (.error _, s1) => (Response.InternalError, s1)
  | (.ok leaderBoard, s1) =>
    if leaderBoard.length = 0 then
      (Response.JSONMessage 202 "no repositories are currently being tracked", s1)
    else (Response.JSONLeaderBoard 200 leaderBoard, s1)

/-! ## Reading a trace -/

/-- The events a run added to the trace it started from. -/
def State.eventsAfter (s' s : State) : List Event := s'.trace.drop s.trace.length

/-- The backoff waits among some events, in order. -/
def backoffsOf : List Event → List Duration
  | [] => []
  | Event.backoff d :: evs => d :: backoffsOf evs
  | _ :: evs => backoffsOf evs

/-- The commit page requests among some events, in order. -/
def requestsOf : List Event → List CommitsRequest
  | [] => []
  | Event.fetchCommits req :: evs => req :: requestsOf evs
  | _ :: evs => requestsOf evs

/-- The commits passed to `SaveCommit` among some events, in order. -/
def savedOf : List Event → List GithubCommit
  | [] => []
  | Event.SaveCommit c :: evs => c :: savedOf evs
  | _ :: evs => savedOf evs

/-- The writes of a high-water mark among some events, in order. -/
def markWritesOf : List Event → List (String × Time)
  | [] => []
  | Event.UpdateCommitLastSyncTime repoID t :: evs => (repoID, t) :: markWritesOf evs
  | _ :: evs => markWritesOf evs

/-- The stored high-water mark of the repository with that id. -/
def State.mark (s : State) (repoID : String) : Option Time :=
  (s.repository.find? fun r => r.ID == repoID).bind fun r => r.CommitLastPulledTime

/-! ## Describing a run

What a run without failure adds to the trace and does to the high-water marks,
written out as functions of the pages the source returned. -/

/-- The request for one page of a repository (watcher.go:304): `per_page` is 100. -/
def pageRequest (repoName : String) (since : Option Time) (page : Nat) : CommitsRequest :=
  { repoName := repoName, page := page, perPage := 100, since := since }

/-- The inserts of one page, the first taking identifier number `u`. -/
def saveEvents (env : Env) (repoID : String) : Nat → List GithubCommitResponse → List Event
  | _, [] => []
  | u, c :: cs =>
    Event.SaveCommit (toGithubCommit (env.uuid u) repoID c) :: saveEvents env repoID (u + 1) cs

/-- The table after `UPDATE repository SET commit_last_pulled_time = t WHERE id = repoID`. -/
def setMark (repoID : String) (t : Time) (rs : List GithubRepository) : List GithubRepository :=
  rs.map fun r => if r.ID = repoID then { r with CommitLastPulledTime := some t } else r

/-- The calls of one page handled without failure: the request, one insert a commit,
and for a page that is not empty the write of the mark. -/
def pageEvents (env : Env) (repoID : String) (req : CommitsRequest) (u : Nat)
    (cs : List GithubCommitResponse) : List Event :=
  Event.fetchCommits req :: saveEvents env repoID u cs ++
    (match cs.getLast? with
     | some l => [Event.UpdateCommitLastSyncTime repoID l.Commit.Author.Date]
     | none => [])

/-- The calls of consecutive pages handled without failure, the first numbered `page`. -/
def scriptEvents (env : Env) (repoID repoName : String) (since : Option Time) :
    Nat → Nat → List (List GithubCommitResponse) → List Event
  | _, _, [] => []
  | page, u, cs :: rest =>
    pageEvents env repoID (pageRequest repoName since page) u cs ++
      scriptEvents env repoID repoName since (page + 1) (u + cs.length) rest

/-- The repository table after the mark writes of consecutive pages. -/
def marksAfter (repoID : String) :
    List (List GithubCommitResponse) → List GithubRepository → List GithubRepository
  | [], rs => rs
  | cs :: rest, rs =>
    marksAfter repoID rest
      (match cs.getLast? with
       | some l => setMark repoID l.Commit.Author.Date rs
       | none => rs)

/-- The source answers the requests numbered `k`, `k + 1`, ... for the pages `page`,
`page + 1`, ... of a repository with status 200 and the given pages, in order. -/
def Scripted (env : Env) (repoName : String) (since : Option Time) (k page : Nat)
    (pages : List (List GithubCommitResponse)) : Prop :=
  ∀ i cs, pages[i]? = some cs →
    ∃ status, env.commitsReply (k + i) (pageRequest repoName since (page + i))
      = HttpReply.resp 200 status (.ok cs)

/-- A commit of a page is in the commits table of a state, for that repository. -/
def Persisted (s : State) (repoID : String) (x : GithubCommitResponse) : Prop :=
  ∃ g ∈ s.commits, g.CommitHash = x.SHA ∧ g.RepositoryID = repoID

/-- The store calls of one page: the inserts and the write of the mark. -/
def PageStoreCall (repoID : String) (e : Event) : Prop :=
  (∃ g, e = Event.SaveCommit g) ∨ ∃ t, e = Event.UpdateCommitLastSyncTime repoID t

/-- The requests a run may make: for the repository, with page size 100 and the
cursor of the run, from page `page` on. -/
def RunRequest (repoName : String) (since : Option Time) (page : Nat) (r : CommitsRequest) :
    Prop :=
  r.repoName = repoName ∧ r.perPage = 100 ∧ r.since = since ∧ page ≤ r.page

/-- The marks after a run: untouched, or overwritten with the authored-at timestamp
of a commit of a page the source returned and whose commits are all in the store. -/
def MarkEffect (env : Env) (repoID : String) (s s' : State) : Prop :=
  s'.repository = s.repository
  ∨ ∃ k req status cs c,
      env.commitsReply k req = HttpReply.resp 200 status (.ok cs)
      ∧ c ∈ cs ∧ (∀ x ∈ cs, Persisted s' repoID x)
      ∧ s'.repository = setMark repoID c.Commit.Author.Date s.repository

/-- The spec's `owner/name`: two segments without a slash, neither empty, joined by
one slash. -/
def WellFormedRepoName (repoName : String) : Prop :=
  ∃ owner name : List Char, owner ≠ [] ∧ name ≠ [] ∧ '/' ∉ owner ∧ '/' ∉ name
    ∧ repoName.data = owner ++ '/' :: name

/-- The calls of the metadata step before the store is written: fetches of the
metadata of one repository and backoff waits. -/
def FetchOrWait (repoName : String) (e : Event) : Prop :=
  e = Event.fetchRepoData repoName ∨ ∃ d, e = Event.backoff d

/-- Every run of a pass returns, with nil or with an error: no run panics and none
is still going when the fuel ends.  The runs are taken in list order, each from the
state the one before left. -/
def RunsReturn (env : Env) (fuel : Nat) : List GithubRepository → State → Prop
  | [], _ => True
  | repo :: rest, s =>
    (∃ r, (trackRepo env fuel s repo).1 = some r ∧ r ≠ Res.crash)
    ∧ RunsReturn env fuel rest (trackRepo env fuel s repo).2

/-- The state after one run of `trackRepo` for each repository of a list, in list
order, each run starting where the one before ended. -/
def afterRuns (env : Env) (fuel : Nat) (repos : List GithubRepository) (s : State) : State :=
  repos.foldl (fun st repo => (trackRepo env fuel st repo).2) s

/-- The repositories whose metadata was fetched, in order. -/
def metadataFetchesOf : List Event → List String
  | [] => []
  | Event.fetchRepoData name :: evs => name :: metadataFetchesOf evs
  | _ :: evs => metadataFetchesOf evs

/-- The decimal digits of a positive integer, as `limit=L` carries them. -/
def decimal (n : Nat) : String :=
  String.mk ((Nat.digits 10 n).reverse.map fun d => Char.ofNat (48 + d))

/-- A source that is newest first and honours the since filter: the page `req.page`
of the commits of a history that are not older than `req.since`. -/
def sourcePage (history : List GithubCommitResponse) (req : CommitsRequest) :
    List GithubCommitResponse :=
  ((match req.since with
    | some t => history.filter fun (c : GithubCommitResponse) => decide (t ≤ c.Commit.Author.Date)
    | none => history).drop ((req.page - 1) * req.perPage)).take req.perPage

/-- The fields of a stored commit that come from the fetched commit and the
repository: all but the fresh identifier. -/
def GithubCommit.fields (g : GithubCommit) :
    String × String × String × String × String × Time × String :=
  (g.RepositoryID, g.CommitHash, g.Message, g.AuthorName, g.AuthorEmail, g.Date, g.URL)

/-- The same fields, read off a fetched commit and a repository identifier. -/
def GithubCommitResponse.fields (repoID : String) (c : GithubCommitResponse) :
    String × String × String × String × String × Time × String :=
  (repoID, c.SHA, c.Commit.Message, c.Commit.Author.Name, c.Commit.Author.Email,
    c.Commit.Author.Date, c.URL)

/-! ## Concrete inputs -/

/-- A state with empty tables, an empty queue and no call made. -/
def emptyState : State :=
  { httpCalls := 0, storeCalls := 0, waits := 0, uuids := 0, repository := [], commits := [],
    newRepo := [], trace := [] }

/-- A metadata reply. -/
def sampleMetadata : GithubRepositoryResponse :=
  { Description := "stats", URL := "https://github.com/o/r", Language := "Go",
    ForksCount := 1, StarsCount := 2, OpenIssuesCount := 3, SubscribersCount := 4 }

/-- An outside world in which nothing fails: every request is answered 200 with
an empty commit page, no statement fails, no wait is cancelled. -/
def quietEnv : Env :=
  { commitSinceDate := 0
    newRequestErr := fun _ => none
    repoReply := fun _ _ => HttpReply.resp 200 "200 OK" (.ok sampleMetadata)
    commitsReply := fun _ _ => HttpReply.resp 200 "200 OK" (.ok [])
    storeErr := fun _ => none
    ctxDone := fun _ => false
    uuid := fun n => String.mk (List.replicate (n + 1) 'u')
    now := fun n => (n : Int) + 1
    leaderBoardRows := fun _ _ => []
    unicodeToLower := Char.toLower }

/-- The metadata fetch is answered 403 three times, then 200. -/
def rateLimitedThriceEnv : Env :=
  { quietEnv with
    repoReply := fun n _ =>
      if n < 3 then HttpReply.resp 403 "403 Forbidden" (.error (Err.other "no body"))
      else HttpReply.resp 200 "200 OK" (.ok sampleMetadata) }

/-- Commit number `i` of a history: the hashes differ, the dates fall with `i`. -/
def sampleCommit (i : Nat) : GithubCommitResponse :=
  { SHA := String.mk (List.replicate (i + 1) 'a')
    Commit := { Message := "m", Author := { Name := "n", Email := "e", Date := 1000 - (i : Int) } }
    URL := "u" }

/-- The commits `start`, ..., `start + len - 1` of the history, newest first. -/
def samplePage (start len : Nat) : List GithubCommitResponse :=
  (List.range' start len).map sampleCommit

/-- A tracked repository without metadata and without a high-water mark. -/
def sampleRepo : GithubRepository :=
  { ID := "id-1", RepositoryName := "o/r", Description := none, URL := none, Language := none,
    ForksCount := 0, StarsCount := 0, OpenIssuesCount := 0, WatchersCount := 0,
    CommitLastPulledTime := none, CreatedAt := 0, UpdatedAt := none }

/-- A store that holds `sampleRepo` and nothing else. -/
def trackedState : State := { emptyState with repository := [sampleRepo] }

/-- The source returns pages of 100, 100 and 37 commits, then empty pages. -/
def threePagesEnv : Env :=
  { quietEnv with
    commitsReply := fun _ req =>
      HttpReply.resp 200 "200 OK"
        (.ok ([samplePage 0 100, samplePage 100 100, samplePage 200 37].getD (req.page - 1) [])) }

/-- The source returns a page of 100 commits, then a page of one older commit. -/
def twoPagesEnv : Env :=
  { quietEnv with
    commitsReply := fun _ req =>
      HttpReply.resp 200 "200 OK"
        (.ok ([samplePage 0 100, samplePage 100 1].getD (req.page - 1) [])) }

/-- The source returns one page of two commits, dated 1000 and 999, newest first. -/
def onePageEnv : Env :=
  { quietEnv with
    commitsReply := fun _ req =>
      HttpReply.resp 200 "200 OK" (.ok ([samplePage 0 2].getD (req.page - 1) [])) }

/-- A configured default start date of 5; every commit page is empty. -/
def sinceEnv : Env := { quietEnv with commitSinceDate := 5 }

/-- The tracked repository with a high-water mark of 9. -/
def markedRepo : GithubRepository := { sampleRepo with CommitLastPulledTime := some 9 }

/-- No default start date is configured and every commit page request is answered 403. -/
def rateLimitedCommitsEnv : Env :=
  { quietEnv with
    commitsReply := fun _ _ => HttpReply.resp 403 "403 Forbidden" (.error (Err.other "no body")) }

/-- The first commit page request is answered 403, the later ones with an empty page. -/
def rateLimitedOnceEnv : Env :=
  { quietEnv with
    commitsReply := fun n _ =>
      if n = 0 then HttpReply.resp 403 "403 Forbidden" (.error (Err.other "no body"))
      else HttpReply.resp 200 "200 OK" (.ok []) }

/-- The second statement of the store (the INSERT of a first registration) fails. -/
def createFailsEnv : Env :=
  { quietEnv with
    storeErr := fun n => if n = 1 then some (Err.other "connection refused") else none }

/-- The first metadata request is answered 403, the later ones 404. -/
def metadataNotFoundEnv : Env :=
  { quietEnv with
    repoReply := fun n _ =>
      if n = 0 then HttpReply.resp 403 "403 Forbidden" (.error (Err.other "no body"))
      else HttpReply.resp 404 "404 Not Found" (.error (Err.other "no body")) }

/-- A second tracked repository. -/
def otherRepo : GithubRepository := { sampleRepo with ID := "id-2", RepositoryName := "o/a" }

/-- A store that holds `otherRepo` and `sampleRepo`, in that order. -/
def twoReposState : State := { emptyState with repository := [otherRepo, sampleRepo] }

/-- The metadata of `o/a` is answered 404; everything else succeeds. -/
def firstRepoFailsEnv : Env :=
  { quietEnv with
    repoReply := fun _ name =>
      if name = "o/a" then HttpReply.resp 404 "404 Not Found" (.error (Err.other "no body"))
      else HttpReply.resp 200 "200 OK" (.ok sampleMetadata) }

/-- Every request is answered 403 and every backoff wait is cut short by cancellation. -/
def cancelledEnv : Env :=
  { quietEnv with
    repoReply := fun _ _ => HttpReply.resp 403 "403 Forbidden" (.error (Err.other "no body"))
    commitsReply := fun _ _ => HttpReply.resp 403 "403 Forbidden" (.error (Err.other "no body"))
    ctxDone := fun _ => true }

/-- The store of the handler test: two authors, 5 and 3 commits. -/
def leaderBoardEnv : Env :=
  { quietEnv with
    leaderBoardRows := fun _ _ =>
      [{ AuthorName := "user1", CommitCount := 5 }, { AuthorName := "user2", CommitCount := 3 }] }

/-- A history of 101 commits, dated 1000 down to 900. -/
def sampleHistory : List GithubCommitResponse := samplePage 0 101

/-- The source serves `sampleHistory`; the second request of all is answered 500. -/
def abortedRunEnv : Env :=
  { quietEnv with
    commitsReply := fun n req =>
      if n = 1 then
        HttpReply.resp 500 "500 Internal Server Error" (.error (Err.other "no body"))
      else HttpReply.resp 200 "200 OK" (.ok (sourcePage sampleHistory req)) }

/-- The source returns a page of three commits; the second store statement fails. -/
def secondInsertFailsEnv : Env :=
  { quietEnv with
    commitsReply := fun _ _ => HttpReply.resp 200 "200 OK" (.ok (samplePage 0 3))
    storeErr := fun n => if n = 1 then some (Err.other "connection refused") else none }

/-- An empty store with a full buffer: 100 names wait on `newRepo`. -/
def fullQueueState : State :=
  { emptyState with newRepo := List.replicate 100 "x/y" }

/-- A default start date of 2024-03-10T10:00:00Z is configured: day 738954 after
0001-01-01, ten hours into the day, in nanoseconds. -/
def march10Env : Env := { quietEnv with commitSinceDate := 63845661600000000000 }

/-! ## Theorems -/

/-! ### C1: the waits of `fetchRepoWithRetry` -/

/-- C1, as stated, fails: in a world where the metadata fetch is answered 403 three
times and then 200, `fetchRepoWithRetry` returns the reply without error, but the
three waits are 2, 4 and 8 minutes, not 1, 2 and 4 minutes. -/
theorem fetchRepoWithRetry_waits_not_1_2_4 :
    (fetchRepoWithRetry rateLimitedThriceEnv 4 emptyState "o/r").1 = some (.ok sampleMetadata)
    ∧ backoffsOf (fetchRepoWithRetry rateLimitedThriceEnv 4 emptyState "o/r").2.trace
        = [2 * Minute, 4 * Minute, 8 * Minute]
    ∧ backoffsOf (fetchRepoWithRetry rateLimitedThriceEnv 4 emptyState "o/r").2.trace
        ≠ [1 * Minute, 2 * Minute, 4 * Minute] := by
  refine ⟨rfl, rfl, ?_⟩
  decide

/-- C1, amended: for every repository name, when the metadata fetch is answered 403
three times in a row and then 200, and no wait is cancelled, `fetchRepoWithRetry`
(given fuel for four rounds) returns the decoded reply without error, and what it
did is exactly: fetch, wait 2 minutes, fetch, wait 4 minutes, fetch, wait 8 minutes,
fetch.  The seed of 1 minute is doubled before each wait. -/
theorem fetchRepoWithRetry_waits_2_4_8 (env : Env) (s : State) (repoName : String)
    (ghRepo : GithubRepositoryResponse) (fuel : Nat)
    (hurl : env.newRequestErr repoName = none)
    (h403 : ∀ i, i < 3 → ∃ status body,
      env.repoReply (s.httpCalls + i) repoName = HttpReply.resp 403 status body)
    (h200 : ∃ status,
      env.repoReply (s.httpCalls + 3) repoName = HttpReply.resp 200 status (.ok ghRepo))
    (hctx : ∀ i, i < 3 → env.ctxDone (s.waits + i) = false)
    (hfuel : 4 ≤ fuel) :
    (fetchRepoWithRetry env fuel s repoName).1 = some (.ok ghRepo)
    ∧ (fetchRepoWithRetry env fuel s repoName).2.trace = s.trace ++
        [Event.fetchRepoData repoName, Event.backoff (2 * Minute),
         Event.fetchRepoData repoName, Event.backoff (4 * Minute),
         Event.fetchRepoData repoName, Event.backoff (8 * Minute),
         Event.fetchRepoData repoName] := by
  obtain ⟨n, rfl⟩ : ∃ n, fuel = n + 4 := ⟨fuel - 4, by omega⟩
  obtain ⟨st0, b0, h0⟩ := h403 0 (by decide)
  obtain ⟨st1, b1, h1⟩ := h403 1 (by decide)
  obtain ⟨st2, b2, h2⟩ := h403 2 (by decide)
  obtain ⟨st3, h3⟩ := h200
  have c0 := hctx 0 (by decide)
  have c1 := hctx 1 (by decide)
  have c2 := hctx 2 (by decide)
  simp only [Nat.add_zero] at h0 c0
  have w1 : wrapInt64 (defaultBackoffDuration * 2) = 2 * Minute := by decide
  have w2 : wrapInt64 (2 * Minute * 2) = 4 * Minute := by decide
  have w3 : wrapInt64 (4 * Minute * 2) = 8 * Minute := by decide
  simp [fetchRepoWithRetry, fetchRepoWithRetryLoop, fetchRepoData, hurl, h0, h1, h2, h3,
    c0, c1, c2, State.httpCall, State.backoffWait, Err.Is, w1, w2, w3, Nat.add_assoc]

/-- The amended C1 at a concrete input. -/
theorem fetchRepoWithRetry_waits_2_4_8_witness :
    (fetchRepoWithRetry rateLimitedThriceEnv 4 emptyState "o/r").1 = some (.ok sampleMetadata)
    ∧ (fetchRepoWithRetry rateLimitedThriceEnv 4 emptyState "o/r").2.trace = emptyState.trace ++
        [Event.fetchRepoData "o/r", Event.backoff (2 * Minute),
         Event.fetchRepoData "o/r", Event.backoff (4 * Minute),
         Event.fetchRepoData "o/r", Event.backoff (8 * Minute),
         Event.fetchRepoData "o/r"] :=
  fetchRepoWithRetry_waits_2_4_8 rateLimitedThriceEnv emptyState "o/r" sampleMetadata 4
    rfl
    (fun i hi => ⟨"403 Forbidden", .error (Err.other "no body"), by
      simp [rateLimitedThriceEnv, emptyState, hi]⟩)
    ⟨"200 OK", by simp [rateLimitedThriceEnv, emptyState]⟩
    (fun _ _ => rfl)
    (by decide)

/-! ### Runs without failure -/

theorem requestsOf_append (a b : List Event) :
    requestsOf (a ++ b) = requestsOf a ++ requestsOf b := by
  induction a with
  | nil => rfl
  | cons e a ih => cases e <;> simp [requestsOf, ih]

theorem savedOf_append (a b : List Event) : savedOf (a ++ b) = savedOf a ++ savedOf b := by
  induction a with
  | nil => rfl
  | cons e a ih => cases e <;> simp [savedOf, ih]

theorem markWritesOf_append (a b : List Event) :
    markWritesOf (a ++ b) = markWritesOf a ++ markWritesOf b := by
  induction a with
  | nil => rfl
  | cons e a ih => cases e <;> simp [markWritesOf, ih]

theorem backoffsOf_append (a b : List Event) :
    backoffsOf (a ++ b) = backoffsOf a ++ backoffsOf b := by
  induction a with
  | nil => rfl
  | cons e a ih => cases e <;> simp [backoffsOf, ih]

/-- The events a run added, read off a trace that grew by them. -/
theorem since_of_trace (s s' : State) (evs : List Event) (h : s'.trace = s.trace ++ evs) :
    s'.eventsAfter s = evs := by
  simp [State.eventsAfter, h]

theorem requestsOf_saveEvents (env : Env) (repoID : String) :
    ∀ (cs : List GithubCommitResponse) (u : Nat), requestsOf (saveEvents env repoID u cs) = [] := by
  intro cs
  induction cs with
  | nil => intro u; rfl
  | cons c cs ih => intro u; simp [saveEvents, requestsOf, ih]

theorem markWritesOf_saveEvents (env : Env) (repoID : String) :
    ∀ (cs : List GithubCommitResponse) (u : Nat),
      markWritesOf (saveEvents env repoID u cs) = [] := by
  intro cs
  induction cs with
  | nil => intro u; rfl
  | cons c cs ih => intro u; simp [saveEvents, markWritesOf, ih]

theorem savedOf_saveEvents (env : Env) (repoID : String) :
    ∀ (cs : List GithubCommitResponse) (u : Nat),
      (savedOf (saveEvents env repoID u cs)).map (fun g => g.CommitHash) = cs.map (fun c => c.SHA)
      ∧ ∀ g ∈ savedOf (saveEvents env repoID u cs), g.RepositoryID = repoID := by
  intro cs
  induction cs with
  | nil => intro u; simp [saveEvents, savedOf]
  | cons c cs ih =>
    intro u
    obtain ⟨h1, h2⟩ := ih (u + 1)
    refine ⟨by simp [saveEvents, savedOf, h1, toGithubCommit], ?_⟩
    intro g hg
    simp only [saveEvents, savedOf, List.mem_cons] at hg
    rcases hg with rfl | hg
    · rfl
    · exact h2 g hg

theorem requestsOf_pageEvents (env : Env) (repoID : String) (req : CommitsRequest) (u : Nat)
    (cs : List GithubCommitResponse) : requestsOf (pageEvents env repoID req u cs) = [req] := by
  cases h : cs.getLast? <;>
    simp [pageEvents, requestsOf, requestsOf_append, requestsOf_saveEvents, h]

theorem savedOf_pageEvents (env : Env) (repoID : String) (req : CommitsRequest) (u : Nat)
    (cs : List GithubCommitResponse) :
    savedOf (pageEvents env repoID req u cs) = savedOf (saveEvents env repoID u cs) := by
  cases h : cs.getLast? <;> simp [pageEvents, savedOf, savedOf_append, h]

theorem markWritesOf_pageEvents (env : Env) (repoID : String) (req : CommitsRequest) (u : Nat)
    (cs : List GithubCommitResponse) :
    markWritesOf (pageEvents env repoID req u cs) =
      match cs.getLast? with
      | some l => [(repoID, l.Commit.Author.Date)]
      | none => [] := by
  cases h : cs.getLast? <;>
    simp [pageEvents, markWritesOf, markWritesOf_append, markWritesOf_saveEvents, h]

theorem requestsOf_scriptEvents (env : Env) (repoID repoName : String) (since : Option Time) :
    ∀ (pages : List (List GithubCommitResponse)) (page u : Nat),
      requestsOf (scriptEvents env repoID repoName since page u pages) =
        (List.range pages.length).map fun i => pageRequest repoName since (page + i) := by
  intro pages
  induction pages with
  | nil => intro page u; rfl
  | cons cs rest ih =>
    intro page u
    simp [scriptEvents, requestsOf_append, requestsOf_pageEvents, ih, List.range_succ_eq_map,
      Function.comp_def, Nat.add_assoc, Nat.add_comm 1]

theorem savedOf_scriptEvents (env : Env) (repoID repoName : String) (since : Option Time) :
    ∀ (pages : List (List GithubCommitResponse)) (page u : Nat),
      (savedOf (scriptEvents env repoID repoName since page u pages)).map (fun g => g.CommitHash)
        = pages.flatten.map (fun c => c.SHA)
      ∧ ∀ g ∈ savedOf (scriptEvents env repoID repoName since page u pages),
          g.RepositoryID = repoID := by
  intro pages
  induction pages with
  | nil => intro page u; simp [scriptEvents, savedOf]
  | cons cs rest ih =>
    intro page u
    obtain ⟨h1, h2⟩ := ih (page + 1) (u + cs.length)
    obtain ⟨k1, k2⟩ := savedOf_saveEvents env repoID cs u
    refine ⟨by simp [scriptEvents, savedOf_append, savedOf_pageEvents, h1, k1], ?_⟩
    intro g hg
    simp only [scriptEvents, savedOf_append, savedOf_pageEvents, List.mem_append] at hg
    rcases hg with hg | hg
    · exact k2 g hg
    · exact h2 g hg

theorem markWritesOf_scriptEvents (env : Env) (repoID repoName : String) (since : Option Time) :
    ∀ (pages : List (List GithubCommitResponse)) (page u : Nat),
      markWritesOf (scriptEvents env repoID repoName since page u pages) =
        pages.filterMap fun cs => cs.getLast?.map fun l => (repoID, l.Commit.Author.Date) := by
  intro pages
  induction pages with
  | nil => intro page u; rfl
  | cons cs rest ih =>
    intro page u
    cases h : cs.getLast? <;>
      simp [scriptEvents, markWritesOf_append, markWritesOf_pageEvents, ih, h, List.filterMap_cons]

/-- When no statement fails, the insert loop goes through the whole page. -/
theorem saveCommitsLoop_ok (env : Env) (repoID : String) (hstore : ∀ n, env.storeErr n = none) :
    ∀ (cs : List GithubCommitResponse) (s : State),
      ∃ s', saveCommitsLoop env repoID cs s = (none, s')
        ∧ s'.trace = s.trace ++ saveEvents env repoID s.uuids cs
        ∧ s'.httpCalls = s.httpCalls ∧ s'.waits = s.waits
        ∧ s'.uuids = s.uuids + cs.length ∧ s'.repository = s.repository
        ∧ s'.newRepo = s.newRepo := by
  intro cs
  induction cs with
  | nil => intro s; exact ⟨s, rfl, by simp [saveEvents], rfl, rfl, rfl, rfl, rfl⟩
  | cons c cs ih =>
    intro s
    by_cases hdup : (s.newUUID.storeCall (Event.SaveCommit (toGithubCommit (env.uuid s.uuids) repoID c))).commits.any
        (fun x => x.CommitHash == (toGithubCommit (env.uuid s.uuids) repoID c).CommitHash
          && x.RepositoryID == (toGithubCommit (env.uuid s.uuids) repoID c).RepositoryID) = true
    · obtain ⟨s', h, ht, hh, hw, hu, hr, hn⟩ := ih
        (s.newUUID.storeCall (Event.SaveCommit (toGithubCommit (env.uuid s.uuids) repoID c)))
      refine ⟨s', ?_, ?_, ?_, ?_, ?_, ?_, ?_⟩
      · simp only [saveCommitsLoop, Repository.SaveCommit, hstore, hdup, if_true]
        exact h
      · simp [ht, saveEvents, State.storeCall, State.newUUID]
      · simp [hh, State.storeCall, State.newUUID]
      · simp [hw, State.storeCall, State.newUUID]
      · simp [hu, State.storeCall, State.newUUID]; omega
      · simp [hr, State.storeCall, State.newUUID]
      · simp [hn, State.storeCall, State.newUUID]
    · obtain ⟨s', h, ht, hh, hw, hu, hr, hn⟩ := ih
        { (s.newUUID.storeCall (Event.SaveCommit (toGithubCommit (env.uuid s.uuids) repoID c))) with
          commits := (s.newUUID.storeCall (Event.SaveCommit (toGithubCommit (env.uuid s.uuids) repoID c))).commits
            ++ [toGithubCommit (env.uuid s.uuids) repoID c] }
      refine ⟨s', ?_, ?_, ?_, ?_, ?_, ?_, ?_⟩
      · simp only [saveCommitsLoop, Repository.SaveCommit, hstore, hdup]
        exact h
      · simp [ht, saveEvents, State.storeCall, State.newUUID]
      · simp [hh, State.storeCall, State.newUUID]
      · simp [hw, State.storeCall, State.newUUID]
      · simp [hu, State.storeCall, State.newUUID]; omega
      · simp [hr, State.storeCall, State.newUUID]
      · simp [hn, State.storeCall, State.newUUID]

/-- One page answered 200, no statement failing: the number of commits is returned
and the calls made are `pageEvents`. -/
theorem processUntrackedCommits_ok (env : Env) (s : State) (repoID repoName : String)
    (page : Nat) (since : Option Time) (cs : List GithubCommitResponse) (status : String)
    (hurl : env.newRequestErr repoName = none) (hstore : ∀ n, env.storeErr n = none)
    (hreply : env.commitsReply s.httpCalls (pageRequest repoName since page)
      = HttpReply.resp 200 status (.ok cs)) :
    ∃ s', processUntrackedCommits env s repoID repoName page since = (.ok cs.length, s')
      ∧ s'.trace = s.trace ++ pageEvents env repoID (pageRequest repoName since page) s.uuids cs
      ∧ s'.httpCalls = s.httpCalls + 1 ∧ s'.waits = s.waits
      ∧ s'.uuids = s.uuids + cs.length
      ∧ s'.repository = marksAfter repoID [cs] s.repository
      ∧ s'.newRepo = s.newRepo := by
  obtain ⟨s2, h, ht, hh, hw, hu, hr, hn⟩ := saveCommitsLoop_ok env repoID hstore cs
    (s.httpCall (Event.fetchCommits (pageRequest repoName since page)))
  simp only [pageRequest, githubCommitsMaxRecordsPerPage] at hreply h
  cases hl : cs.getLast? with
  | none =>
    refine ⟨s2, ?_, ?_, ?_, ?_, ?_, ?_, ?_⟩
    · simp [processUntrackedCommits, hurl, githubCommitsMaxRecordsPerPage, hreply, h, hl]
    · simp [ht, pageEvents, hl, State.httpCall]
    · simp [hh, State.httpCall]
    · simp [hw, State.httpCall]
    · simp [hu, State.httpCall]
    · simp [hr, marksAfter, hl, State.httpCall]
    · simp [hn, State.httpCall]
  | some l =>
    refine ⟨(Repository.UpdateCommitLastSyncTime env s2 repoID l.Commit.Author.Date).2,
      ?_, ?_, ?_, ?_, ?_, ?_, ?_⟩
    · simp [processUntrackedCommits, hurl, githubCommitsMaxRecordsPerPage, hreply, h, hl,
        Repository.UpdateCommitLastSyncTime, hstore]
    · simp [Repository.UpdateCommitLastSyncTime, hstore, State.storeCall, ht, pageEvents, hl,
        State.httpCall]
    · simp [Repository.UpdateCommitLastSyncTime, hstore, State.storeCall, hh, State.httpCall]
    · simp [Repository.UpdateCommitLastSyncTime, hstore, State.storeCall, hw, State.httpCall]
    · simp [Repository.UpdateCommitLastSyncTime, hstore, State.storeCall, hu, State.httpCall]
    · simp [Repository.UpdateCommitLastSyncTime, hstore, State.storeCall, hr, marksAfter, hl,
        State.httpCall, setMark]
    · simp [Repository.UpdateCommitLastSyncTime, hstore, State.storeCall, hn, State.httpCall]

/-- The loop of `trackCommits` over pages of at least 100 commits followed by a
shorter one: it ends without error after the short page. -/
theorem trackCommitsLoop_scripted (env : Env) (repo : GithubRepository) (since : Option Time)
    (hurl : env.newRequestErr repo.RepositoryName = none)
    (hstore : ∀ n, env.storeErr n = none) :
    ∀ (full : List (List GithubCommitResponse)) (short : List GithubCommitResponse)
      (fuel : Nat) (s : State) (page : Nat) (b : Duration),
      (∀ cs ∈ full, 100 ≤ cs.length) → short.length < 100 →
      Scripted env repo.RepositoryName since s.httpCalls page (full ++ [short]) →
      full.length + 1 ≤ fuel →
      ∃ s', trackCommitsLoop env repo since fuel s page b = (some (.ok ()), s')
        ∧ s'.trace = s.trace ++
            scriptEvents env repo.ID repo.RepositoryName since page s.uuids (full ++ [short])
        ∧ s'.repository = marksAfter repo.ID (full ++ [short]) s.repository
        ∧ s'.waits = s.waits ∧ s'.newRepo = s.newRepo := by
  intro full
  induction full with
  | nil =>
    intro short fuel s page b _ hshort hscript hfuel
    obtain ⟨f, rfl⟩ : ∃ f, fuel = f + 1 := ⟨fuel - 1, by simp at hfuel; omega⟩
    obtain ⟨status, hreply⟩ := hscript 0 short (by simp)
    simp only [Nat.add_zero] at hreply
    obtain ⟨s1, h, ht, -, hw, -, hr, hn⟩ := processUntrackedCommits_ok env s repo.ID
      repo.RepositoryName page since short status hurl hstore hreply
    refine ⟨s1, ?_, ?_, ?_, hw, hn⟩
    · simp [trackCommitsLoop, h, githubCommitsMaxRecordsPerPage, hshort]
    · simp [ht, scriptEvents]
    · simp [hr]
  | cons cs rest ih =>
    intro short fuel s page b hfull hshort hscript hfuel
    obtain ⟨f, rfl⟩ : ∃ f, fuel = f + 1 := ⟨fuel - 1, by simp at hfuel; omega⟩
    obtain ⟨status, hreply⟩ := hscript 0 cs (by simp)
    simp only [Nat.add_zero] at hreply
    obtain ⟨s1, h, ht, hh, hw, hu, hr, hn⟩ := processUntrackedCommits_ok env s repo.ID
      repo.RepositoryName page since cs status hurl hstore hreply
    have hlen : ¬ cs.length < 100 := by
      have := hfull cs (by simp); omega
    have hscript' : Scripted env repo.RepositoryName since s1.httpCalls (page + 1)
        (rest ++ [short]) := by
      intro i c hi
      have := hscript (i + 1) c (by simpa using hi)
      rw [hh]
      simpa [Nat.add_assoc, Nat.add_comm 1 i] using this
    obtain ⟨s', h', ht', hr', hw', hn'⟩ := ih short f s1 (page + 1) b
      (fun c hc => hfull c (by simp [hc])) hshort hscript' (by simp at hfuel ⊢; omega)
    refine ⟨s', ?_, ?_, ?_, ?_, ?_⟩
    · simp [trackCommitsLoop, h, githubCommitsMaxRecordsPerPage, hlen, h']
    · simp [ht', ht, scriptEvents, hu]
    · simp [hr', hr, marksAfter]
    · simp [hw', hw]
    · simp [hn', hn]

theorem mem_setMark (repoID : String) (t : Time) (rs : List GithubRepository) :
    ∀ r ∈ setMark repoID t rs, r.ID = repoID → r.CommitLastPulledTime = some t := by
  intro r hr hid
  simp only [setMark, List.mem_map] at hr
  obtain ⟨r0, -, rfl⟩ := hr
  by_cases h : r0.ID = repoID
  · simp [h]
  · simp [h] at hid

theorem mark_setMark (repoID : String) (t : Time) (rs : List GithubRepository)
    (h : ∃ r ∈ rs, r.ID = repoID) :
    ((setMark repoID t rs).find? fun r => r.ID == repoID).bind
      (fun r => r.CommitLastPulledTime) = some t := by
  induction rs with
  | nil => simp at h
  | cons r rs ih =>
    by_cases hr : r.ID = repoID
    · simp [setMark, hr]
    · have : ∃ r ∈ rs, r.ID = repoID := by
        obtain ⟨x, hx, hxid⟩ := h
        rcases List.mem_cons.1 hx with rfl | hx
        · exact absurd hxid hr
        · exact ⟨x, hx, hxid⟩
      have ih' := ih this
      simp only [setMark] at ih' ⊢
      simpa [hr] using ih'

theorem setMark_exists (repoID : String) (t : Time) (rs : List GithubRepository)
    (h : ∃ r ∈ rs, r.ID = repoID) : ∃ r ∈ setMark repoID t rs, r.ID = repoID := by
  obtain ⟨x, hx, hxid⟩ := h
  refine ⟨{ x with CommitLastPulledTime := some t }, ?_, hxid⟩
  simp only [setMark, List.mem_map]
  exact ⟨x, hx, by simp [hxid]⟩

/-- In a page that is newest first the last commit is the oldest. -/
theorem getLast_oldest (cs : List GithubCommitResponse) (l : GithubCommitResponse)
    (hl : cs.getLast? = some l)
    (hnewest : cs.Pairwise fun a b => b.Commit.Author.Date ≤ a.Commit.Author.Date) :
    l ∈ cs ∧ ∀ c ∈ cs, l.Commit.Author.Date ≤ c.Commit.Author.Date := by
  have hmem : l ∈ cs := List.mem_of_getLast?_eq_some hl
  refine ⟨hmem, ?_⟩
  have hne : cs ≠ [] := List.ne_nil_of_mem hmem
  have hlast : cs.getLast hne = l := by
    have := List.getLast?_eq_getLast cs hne
    rw [this] at hl
    exact Option.some.inj hl
  have hsplit : cs = cs.dropLast ++ [l] := by
    rw [← hlast]; exact (List.dropLast_append_getLast hne).symm
  intro c hc
  rw [hsplit] at hc hnewest
  rcases List.mem_append.1 hc with hc | hc
  · exact (List.pairwise_append.1 hnewest).2.2 c hc l (by simp)
  · simp at hc; rw [hc]

/-- The run `trackCommits` over full pages followed by a short one. -/
theorem trackCommits_scripted (env : Env) (repo : GithubRepository) (s : State)
    (full : List (List GithubCommitResponse)) (short : List GithubCommitResponse) (fuel : Nat)
    (hurl : env.newRequestErr repo.RepositoryName = none)
    (hstore : ∀ n, env.storeErr n = none)
    (hfull : ∀ cs ∈ full, 100 ≤ cs.length) (hshort : short.length < 100)
    (hscript : Scripted env repo.RepositoryName (trackCommitsSince env repo) s.httpCalls 1
      (full ++ [short]))
    (hfuel : full.length + 1 ≤ fuel) :
    (trackCommits env fuel s repo).1 = some (.ok ())
    ∧ (trackCommits env fuel s repo).2.eventsAfter s =
        scriptEvents env repo.ID repo.RepositoryName (trackCommitsSince env repo) 1 s.uuids
          (full ++ [short])
    ∧ (trackCommits env fuel s repo).2.repository = marksAfter repo.ID (full ++ [short]) s.repository
    ∧ (trackCommits env fuel s repo).2.waits = s.waits
    ∧ (trackCommits env fuel s repo).2.newRepo = s.newRepo := by
  obtain ⟨s', h, ht, hr, hw, hn⟩ := trackCommitsLoop_scripted env repo (trackCommitsSince env repo)
    hurl hstore full short fuel s 1 defaultBackoffDuration hfull hshort hscript hfuel
  have e : trackCommits env fuel s repo = (some (.ok ()), s') := h
  rw [e]
  exact ⟨rfl, since_of_trace s s' _ ht, hr, hw, hn⟩

/-! ### The sample history -/

theorem samplePage_append (a n m : Nat) :
    samplePage a n ++ samplePage (a + n) m = samplePage a (n + m) := by
  simp [samplePage, ← List.map_append, List.range'_append_1, Nat.add_comm]

theorem sampleCommit_SHA_injective : Function.Injective fun i => (sampleCommit i).SHA := by
  intro i j h
  have := congrArg (fun x => x.data.length) h
  simpa [sampleCommit] using this

theorem samplePage_distinct (a n : Nat) : ((samplePage a n).map fun c => c.SHA).Nodup := by
  simp only [samplePage, List.map_map]
  exact (List.nodup_range' a n).map sampleCommit_SHA_injective

theorem samplePage_newest_first (a n : Nat) :
    (samplePage a n).Pairwise fun x y => y.Commit.Author.Date ≤ x.Commit.Author.Date := by
  simp only [samplePage, List.pairwise_map]
  refine (List.pairwise_lt_range' a n).imp ?_
  intro i j hij
  show (1000 : Int) - (j : Int) ≤ 1000 - (i : Int)
  omega

theorem threePagesEnv_scripted :
    Scripted threePagesEnv sampleRepo.RepositoryName (trackCommitsSince threePagesEnv sampleRepo)
      trackedState.httpCalls 1 [samplePage 0 100, samplePage 100 100, samplePage 200 37] := by
  intro i cs h
  refine ⟨"200 OK", ?_⟩
  simp only [threePagesEnv, pageRequest, Nat.add_sub_cancel_left, List.getD_eq_getElem?_getD, h,
    Option.getD_some]

/-! ### C2: a run over pages of 100, 100 and 37 commits -/

/-- C2: for a repository of the store whose source answers the first three page
requests of a run with 100, 100 and 37 commits, newest first and with pairwise
distinct hashes, and with no statement of the store failing, `trackCommits` (given
fuel for three rounds) ends without error; the high-water mark stored at the end,
which is also the last mark written, is the oldest authored-at timestamp of the
37-commit page; and the commits passed to `SaveCommit` by the run are 237 in
number, pairwise distinct in hash, all for that repository. -/
theorem trackCommits_three_pages (env : Env) (s : State) (repo : GithubRepository)
    (p1 p2 p3 : List GithubCommitResponse) (fuel : Nat)
    (hurl : env.newRequestErr repo.RepositoryName = none)
    (hstore : ∀ n, env.storeErr n = none)
    (hrow : ∃ r ∈ s.repository, r.ID = repo.ID)
    (hscript : Scripted env repo.RepositoryName (trackCommitsSince env repo) s.httpCalls 1
      [p1, p2, p3])
    (h1 : p1.length = 100) (h2 : p2.length = 100) (h3 : p3.length = 37)
    (hdistinct : ((p1 ++ p2 ++ p3).map fun c => c.SHA).Nodup)
    (hnewest : (p1 ++ p2 ++ p3).Pairwise fun a b => b.Commit.Author.Date ≤ a.Commit.Author.Date)
    (hfuel : 3 ≤ fuel) :
    (trackCommits env fuel s repo).1 = some (.ok ())
    ∧ (∃ t, (trackCommits env fuel s repo).2.mark repo.ID = some t
        ∧ (markWritesOf ((trackCommits env fuel s repo).2.eventsAfter s)).getLast? = some (repo.ID, t)
        ∧ (∃ c ∈ p3, c.Commit.Author.Date = t) ∧ ∀ c ∈ p3, t ≤ c.Commit.Author.Date)
    ∧ (savedOf ((trackCommits env fuel s repo).2.eventsAfter s)).length = 237
    ∧ ((savedOf ((trackCommits env fuel s repo).2.eventsAfter s)).map fun g => g.CommitHash).Nodup
    ∧ ∀ g ∈ savedOf ((trackCommits env fuel s repo).2.eventsAfter s), g.RepositoryID = repo.ID := by
  obtain ⟨hres, hev, hrep, -, -⟩ := trackCommits_scripted env repo s [p1, p2] p3 fuel hurl hstore
    (by intro cs hcs; simp at hcs; rcases hcs with rfl | rfl <;> omega) (by omega)
    (by simpa using hscript) (by simpa using hfuel)
  obtain ⟨hhash, hid⟩ := savedOf_scriptEvents env repo.ID repo.RepositoryName
    (trackCommitsSince env repo) ([p1, p2] ++ [p3]) 1 s.uuids
  have hne : p3 ≠ [] := by intro h; simp [h] at h3
  obtain ⟨l, hl⟩ : ∃ l, p3.getLast? = some l := ⟨p3.getLast hne, List.getLast?_eq_getLast p3 hne⟩
  have hnew3 : p3.Pairwise fun a b => b.Commit.Author.Date ≤ a.Commit.Author.Date :=
    (List.pairwise_append.1 hnewest).2.1
  obtain ⟨hlmem, hlold⟩ := getLast_oldest p3 l hl hnew3
  refine ⟨hres, ⟨l.Commit.Author.Date, ?_, ?_, ⟨l, hlmem, rfl⟩, hlold⟩, ?_, ?_, ?_⟩
  · rw [State.mark, hrep]
    simp only [List.cons_append, List.nil_append, marksAfter, hl]
    apply mark_setMark
    cases p2.getLast? <;> cases p1.getLast? <;> simp only <;>
      first
        | exact hrow
        | exact setMark_exists _ _ _ hrow
        | exact setMark_exists _ _ _ (setMark_exists _ _ _ hrow)
  · rw [hev, markWritesOf_scriptEvents]
    simp [List.filterMap_append, hl]
  · have := congrArg List.length hhash
    rw [hev]
    simpa [h1, h2, h3] using this
  · rw [hev, hhash]
    simpa using hdistinct
  · rw [hev]
    exact hid



/-- C2 at a concrete history of 237 commits. -/
theorem trackCommits_three_pages_witness :
    (trackCommits threePagesEnv 3 trackedState sampleRepo).1 = some (.ok ())
    ∧ (∃ t, (trackCommits threePagesEnv 3 trackedState sampleRepo).2.mark sampleRepo.ID = some t
        ∧ (markWritesOf ((trackCommits threePagesEnv 3 trackedState sampleRepo).2.eventsAfter
            trackedState)).getLast? = some (sampleRepo.ID, t)
        ∧ (∃ c ∈ samplePage 200 37, c.Commit.Author.Date = t)
        ∧ ∀ c ∈ samplePage 200 37, t ≤ c.Commit.Author.Date)
    ∧ (savedOf ((trackCommits threePagesEnv 3 trackedState sampleRepo).2.eventsAfter
        trackedState)).length = 237
    ∧ ((savedOf ((trackCommits threePagesEnv 3 trackedState sampleRepo).2.eventsAfter
        trackedState)).map fun g => g.CommitHash).Nodup
    ∧ ∀ g ∈ savedOf ((trackCommits threePagesEnv 3 trackedState sampleRepo).2.eventsAfter trackedState),
        g.RepositoryID = sampleRepo.ID :=
  trackCommits_three_pages threePagesEnv trackedState sampleRepo (samplePage 0 100)
    (samplePage 100 100) (samplePage 200 37) 3 rfl (fun _ => rfl)
    ⟨sampleRepo, by simp [trackedState], rfl⟩ threePagesEnv_scripted
    (by simp [samplePage]) (by simp [samplePage]) (by simp [samplePage])
    (by rw [samplePage_append 0 100 100, samplePage_append 0 200 37]
        exact samplePage_distinct 0 237)
    (by rw [samplePage_append 0 100 100, samplePage_append 0 200 37]
        exact samplePage_newest_first 0 237)
    (by decide)

/-! ### C3: pagination -/

/-- C3: in a run of `trackCommits` without rate limit and without failure, where
the source answers the successive requests with pages of 100 commits (or more) and
then with a page of fewer than 100 (possibly none), the run ends without error and
the page requests it made are exactly those for pages 1, 2, ..., k + 1 in that
order, k being the number of full pages, each with page size 100 and the cursor of
the run: every full page is followed by the request for the next page, no page is
skipped or repeated, and nothing is requested after the first short page. -/
theorem trackCommits_pagination (env : Env) (s : State) (repo : GithubRepository)
    (full : List (List GithubCommitResponse)) (short : List GithubCommitResponse) (fuel : Nat)
    (hurl : env.newRequestErr repo.RepositoryName = none)
    (hstore : ∀ n, env.storeErr n = none)
    (hfull : ∀ cs ∈ full, 100 ≤ cs.length) (hshort : short.length < 100)
    (hscript : Scripted env repo.RepositoryName (trackCommitsSince env repo) s.httpCalls 1
      (full ++ [short]))
    (hfuel : full.length + 1 ≤ fuel) :
    (trackCommits env fuel s repo).1 = some (.ok ())
    ∧ requestsOf ((trackCommits env fuel s repo).2.eventsAfter s) =
        (List.range (full.length + 1)).map fun i =>
          { repoName := repo.RepositoryName, page := i + 1, perPage := 100,
            since := trackCommitsSince env repo } := by
  obtain ⟨hres, hev, -, -, -⟩ := trackCommits_scripted env repo s full short fuel hurl hstore
    hfull hshort hscript hfuel
  refine ⟨hres, ?_⟩
  rw [hev, requestsOf_scriptEvents]
  simp [pageRequest, Nat.add_comm 1]

/-- C3 at a concrete history: two full pages, then 37 commits. -/
theorem trackCommits_pagination_witness :
    (trackCommits threePagesEnv 3 trackedState sampleRepo).1 = some (.ok ())
    ∧ requestsOf ((trackCommits threePagesEnv 3 trackedState sampleRepo).2.eventsAfter trackedState) =
        (List.range ([samplePage 0 100, samplePage 100 100].length + 1)).map fun i =>
          { repoName := sampleRepo.RepositoryName, page := i + 1, perPage := 100,
            since := trackCommitsSince threePagesEnv sampleRepo } :=
  trackCommits_pagination threePagesEnv trackedState sampleRepo
    [samplePage 0 100, samplePage 100 100] (samplePage 200 37) 3 rfl (fun _ => rfl)
    (by intro cs hcs; simp at hcs; rcases hcs with rfl | rfl <;> simp [samplePage])
    (by simp [samplePage]) threePagesEnv_scripted (by decide)

/-! ### Runs in any outside world -/

theorem SaveCommit_frame (env : Env) (s : State) (g : GithubCommit) :
    (Repository.SaveCommit env s g).2.trace = s.trace ++ [Event.SaveCommit g]
    ∧ (Repository.SaveCommit env s g).2.repository = s.repository
    ∧ (Repository.SaveCommit env s g).2.waits = s.waits
    ∧ (Repository.SaveCommit env s g).2.httpCalls = s.httpCalls
    ∧ (Repository.SaveCommit env s g).2.newRepo = s.newRepo
    ∧ (∀ x ∈ s.commits, x ∈ (Repository.SaveCommit env s g).2.commits)
    ∧ ((Repository.SaveCommit env s g).1 = none →
        ∃ x ∈ (Repository.SaveCommit env s g).2.commits,
          x.CommitHash = g.CommitHash ∧ x.RepositoryID = g.RepositoryID) := by
  cases hE : env.storeErr s.storeCalls with
  | some e =>
    have e1 : Repository.SaveCommit env s g = (some (Err.wrapped "could not insert repository" e),
        s.storeCall (Event.SaveCommit g)) := by
      simp [Repository.SaveCommit, hE]
    rw [e1]
    exact ⟨rfl, rfl, rfl, rfl, rfl, fun y hy => hy, fun h => by simp at h⟩
  | none =>
    by_cases hdup : s.commits.any (fun x => x.CommitHash == g.CommitHash
        && x.RepositoryID == g.RepositoryID) = true
    · have hdup' := hdup
      simp only [List.any_eq_true, Bool.and_eq_true, beq_iff_eq] at hdup'
      obtain ⟨x, hx, hxh, hxr⟩ := hdup'
      have e1 : Repository.SaveCommit env s g = (none, s.storeCall (Event.SaveCommit g)) := by
        simp only [Repository.SaveCommit, hE, State.storeCall, hdup, if_true]
      rw [e1]
      exact ⟨rfl, rfl, rfl, rfl, rfl, fun y hy => hy, fun _ => ⟨x, hx, hxh, hxr⟩⟩
    · have e1 : Repository.SaveCommit env s g = (none,
          { s.storeCall (Event.SaveCommit g) with
            commits := (s.storeCall (Event.SaveCommit g)).commits ++ [g] }) := by
        simp only [Repository.SaveCommit, hE, State.storeCall, hdup]
        rfl
      rw [e1]
      refine ⟨rfl, rfl, rfl, rfl, rfl, fun y hy => ?_, fun _ => ⟨g, ?_, rfl, rfl⟩⟩
      · simp [State.storeCall, hy]
      · simp [State.storeCall]

theorem saveCommitsLoop_frame (env : Env) (repoID : String) :
    ∀ (cs : List GithubCommitResponse) (s : State),
      (∃ evs, (saveCommitsLoop env repoID cs s).2.trace = s.trace ++ evs
        ∧ ∀ e ∈ evs, ∃ g, e = Event.SaveCommit g)
      ∧ (saveCommitsLoop env repoID cs s).2.repository = s.repository
      ∧ (saveCommitsLoop env repoID cs s).2.waits = s.waits
      ∧ (saveCommitsLoop env repoID cs s).2.httpCalls = s.httpCalls
      ∧ (saveCommitsLoop env repoID cs s).2.newRepo = s.newRepo
      ∧ (∀ g ∈ s.commits, g ∈ (saveCommitsLoop env repoID cs s).2.commits)
      ∧ ((saveCommitsLoop env repoID cs s).1 = none →
          ∀ x ∈ cs, Persisted (saveCommitsLoop env repoID cs s).2 repoID x) := by
  intro cs
  induction cs with
  | nil =>
    intro s
    exact ⟨⟨[], by simp [saveCommitsLoop], by simp⟩, rfl, rfl, rfl, rfl, fun g hg => hg,
      fun _ x hx => by simp at hx⟩
  | cons c cs ih =>
    intro s
    obtain ⟨ht, hr, hw, hh, hn, hc, hp⟩ :=
      SaveCommit_frame env s.newUUID (toGithubCommit (env.uuid s.uuids) repoID c)
    rcases hsv : Repository.SaveCommit env s.newUUID (toGithubCommit (env.uuid s.uuids) repoID c)
      with ⟨r, s1⟩
    rw [hsv] at ht hr hw hh hn hc hp
    simp only [State.newUUID] at ht hr hw hh hn hc hp
    cases r with
    | some err =>
      simp only [saveCommitsLoop, hsv]
      exact ⟨⟨_, ht, by simp⟩, hr, hw, hh, hn, hc, fun h => by simp at h⟩
    | none =>
      obtain ⟨⟨evs, ht', hev⟩, hr', hw', hh', hn', hc', hp'⟩ := ih s1
      simp only [saveCommitsLoop, hsv]
      refine ⟨⟨Event.SaveCommit (toGithubCommit (env.uuid s.uuids) repoID c) :: evs,
        by rw [ht', ht]; simp, ?_⟩, hr'.trans hr, hw'.trans hw, hh'.trans hh,
        hn'.trans hn, fun g hg => hc' g (hc g hg), ?_⟩
      · intro e he
        rcases List.mem_cons.1 he with rfl | he
        · exact ⟨_, rfl⟩
        · exact hev e he
      · intro hnone x hx
        rcases List.mem_cons.1 hx with rfl | hx
        · obtain ⟨g, hg, hgh, hgr⟩ := hp rfl
          exact ⟨g, hc' g hg, hgh, hgr⟩
        · exact hp' hnone x hx

theorem UpdateCommitLastSyncTime_frame (env : Env) (s : State) (repoID : String) (t : Time) :
    (Repository.UpdateCommitLastSyncTime env s repoID t).2.trace
        = s.trace ++ [Event.UpdateCommitLastSyncTime repoID t]
    ∧ (Repository.UpdateCommitLastSyncTime env s repoID t).2.waits = s.waits
    ∧ (Repository.UpdateCommitLastSyncTime env s repoID t).2.httpCalls = s.httpCalls
    ∧ (Repository.UpdateCommitLastSyncTime env s repoID t).2.newRepo = s.newRepo
    ∧ (Repository.UpdateCommitLastSyncTime env s repoID t).2.commits = s.commits
    ∧ ((Repository.UpdateCommitLastSyncTime env s repoID t).1 = none →
        (Repository.UpdateCommitLastSyncTime env s repoID t).2.repository
          = setMark repoID t s.repository)
    ∧ ((Repository.UpdateCommitLastSyncTime env s repoID t).1 ≠ none →
        (Repository.UpdateCommitLastSyncTime env s repoID t).2.repository = s.repository) := by
  cases hE : env.storeErr s.storeCalls with
  | some e =>
    have e1 : Repository.UpdateCommitLastSyncTime env s repoID t =
        (some (Err.wrapped "could not update repository" e),
          s.storeCall (Event.UpdateCommitLastSyncTime repoID t)) := by
      simp [Repository.UpdateCommitLastSyncTime, hE]
    rw [e1]
    exact ⟨rfl, rfl, rfl, rfl, rfl, fun h => by simp at h, fun _ => rfl⟩
  | none =>
    have e1 : Repository.UpdateCommitLastSyncTime env s repoID t =
        (none, { s.storeCall (Event.UpdateCommitLastSyncTime repoID t) with
                 repository := setMark repoID t s.repository }) := by
      simp [Repository.UpdateCommitLastSyncTime, hE, setMark, State.storeCall]
    rw [e1]
    exact ⟨rfl, rfl, rfl, rfl, rfl, fun _ => rfl, fun h => by simp at h⟩

theorem requestsOf_pageStoreCalls (repoID : String) :
    ∀ evs : List Event, (∀ e ∈ evs, PageStoreCall repoID e) → requestsOf evs = [] := by
  intro evs
  induction evs with
  | nil => intro _; rfl
  | cons e evs ih =>
    intro h
    have ih' := ih fun x hx => h x (by simp [hx])
    rcases h e (by simp) with ⟨g, rfl⟩ | ⟨t, rfl⟩ <;> simp [requestsOf, ih']

theorem backoffsOf_pageStoreCalls (repoID : String) :
    ∀ evs : List Event, (∀ e ∈ evs, PageStoreCall repoID e) → backoffsOf evs = [] := by
  intro evs
  induction evs with
  | nil => intro _; rfl
  | cons e evs ih =>
    intro h
    have ih' := ih fun x hx => h x (by simp [hx])
    rcases h e (by simp) with ⟨g, rfl⟩ | ⟨t, rfl⟩ <;> simp [backoffsOf, ih']

/-- What one call of `processUntrackedCommits` does, whatever the outside answers:
the calls it adds, and that it leaves the marks alone unless the whole page went in. -/
theorem processUntrackedCommits_frame (env : Env) (s : State) (repoID repoName : String)
    (page : Nat) (since : Option Time) :
    (∃ evs, (processUntrackedCommits env s repoID repoName page since).2.trace = s.trace ++ evs
      ∧ (evs = [] ∨ ∃ rest, evs = Event.fetchCommits (pageRequest repoName since page) :: rest
          ∧ ∀ e ∈ rest, PageStoreCall repoID e))
    ∧ (processUntrackedCommits env s repoID repoName page since).2.waits = s.waits
    ∧ (processUntrackedCommits env s repoID repoName page since).2.newRepo = s.newRepo
    ∧ (∀ g ∈ s.commits, g ∈ (processUntrackedCommits env s repoID repoName page since).2.commits)
    ∧ ((processUntrackedCommits env s repoID repoName page since).2.repository = s.repository
        ∨ ∃ status cs c,
            env.commitsReply s.httpCalls (pageRequest repoName since page)
              = HttpReply.resp 200 status (.ok cs)
            ∧ c ∈ cs
            ∧ (processUntrackedCommits env s repoID repoName page since).1 = .ok cs.length
            ∧ (∀ x ∈ cs, Persisted (processUntrackedCommits env s repoID repoName page since).2
                repoID x)
            ∧ (processUntrackedCommits env s repoID repoName page since).2.repository
                = setMark repoID c.Commit.Author.Date s.repository) := by
  cases hurl : env.newRequestErr repoName with
  | some e =>
    have e1 : processUntrackedCommits env s repoID repoName page since =
        (.error (Err.wrapped "error fetching from github" e), s) := by
      simp [processUntrackedCommits, hurl]
    rw [e1]
    exact ⟨⟨[], by simp, Or.inl rfl⟩, rfl, rfl, fun g hg => hg, Or.inl rfl⟩
  | none =>
    cases hreply : env.commitsReply s.httpCalls (pageRequest repoName since page) with
    | doErr e =>
      have e1 : processUntrackedCommits env s repoID repoName page since =
          (.error e, s.httpCall (Event.fetchCommits (pageRequest repoName since page))) := by
        simp only [pageRequest] at hreply
        simp [processUntrackedCommits, hurl, githubCommitsMaxRecordsPerPage, hreply, pageRequest]
      rw [e1]
      exact ⟨⟨_, rfl, Or.inr ⟨[], rfl, by simp⟩⟩, rfl, rfl, fun g hg => hg, Or.inl rfl⟩
    | resp statusCode status body =>
      by_cases h403 : statusCode = 403
      · have e1 : processUntrackedCommits env s repoID repoName page since =
            (.error Err.ErrRateLimitReached,
              s.httpCall (Event.fetchCommits (pageRequest repoName since page))) := by
          simp only [pageRequest] at hreply
          simp [processUntrackedCommits, hurl, githubCommitsMaxRecordsPerPage, hreply, pageRequest,
            h403]
        rw [e1]
        exact ⟨⟨_, rfl, Or.inr ⟨[], rfl, by simp⟩⟩, rfl, rfl, fun g hg => hg, Or.inl rfl⟩
      · by_cases h200 : statusCode = 200
        · subst h200
          cases body with
          | error e =>
            have e1 : processUntrackedCommits env s repoID repoName page since =
                (.error e, s.httpCall (Event.fetchCommits (pageRequest repoName since page))) := by
              simp only [pageRequest] at hreply
              simp [processUntrackedCommits, hurl, githubCommitsMaxRecordsPerPage, hreply,
                pageRequest]
            rw [e1]
            exact ⟨⟨_, rfl, Or.inr ⟨[], rfl, by simp⟩⟩, rfl, rfl, fun g hg => hg, Or.inl rfl⟩
          | ok cs =>
            obtain ⟨⟨evs, ht, hev⟩, hr, hw, -, hn, hc, hp⟩ := saveCommitsLoop_frame env repoID cs
              (s.httpCall (Event.fetchCommits (pageRequest repoName since page)))
            rcases hsv : saveCommitsLoop env repoID cs
              (s.httpCall (Event.fetchCommits (pageRequest repoName since page))) with ⟨r, s2⟩
            rw [hsv] at ht hr hw hn hc hp
            simp only [State.httpCall] at ht hr hw hn hc hp
            have hev' : ∀ e ∈ evs, PageStoreCall repoID e := fun e he => Or.inl (hev e he)
            cases r with
            | some err =>
              have e1 : processUntrackedCommits env s repoID repoName page since =
                  (.error err, s2) := by
                simp only [pageRequest] at hreply hsv
                simp [processUntrackedCommits, hurl, githubCommitsMaxRecordsPerPage, hreply,
                  hsv]
              rw [e1]
              exact ⟨⟨_ :: evs, by rw [ht]; simp, Or.inr ⟨evs, rfl, hev'⟩⟩, hw, hn, hc,
                Or.inl hr⟩
            | none =>
              cases hl : cs.getLast? with
              | none =>
                have e1 : processUntrackedCommits env s repoID repoName page since =
                    (.ok cs.length, s2) := by
                  simp only [pageRequest] at hreply hsv
                  simp [processUntrackedCommits, hurl, githubCommitsMaxRecordsPerPage, hreply,
                    hsv, hl]
                rw [e1]
                exact ⟨⟨_ :: evs, by rw [ht]; simp, Or.inr ⟨evs, rfl, hev'⟩⟩, hw, hn, hc,
                  Or.inl hr⟩
              | some l =>
                obtain ⟨ut, uw, -, un, uc, uok, uerr⟩ :=
                  UpdateCommitLastSyncTime_frame env s2 repoID l.Commit.Author.Date
                rcases hup : Repository.UpdateCommitLastSyncTime env s2 repoID
                  l.Commit.Author.Date with ⟨r3, s3⟩
                rw [hup] at ut uw un uc uok uerr
                simp only at ut uw un uc uok uerr
                have htr : s3.trace = s.trace ++
                    Event.fetchCommits (pageRequest repoName since page) ::
                      (evs ++ [Event.UpdateCommitLastSyncTime repoID l.Commit.Author.Date]) := by
                  rw [ut, ht]; simp
                have hrest : ∀ e ∈ evs ++ [Event.UpdateCommitLastSyncTime repoID
                    l.Commit.Author.Date], PageStoreCall repoID e := by
                  intro e he
                  rcases List.mem_append.1 he with he | he
                  · exact hev' e he
                  · simp at he; exact Or.inr ⟨_, he⟩
                cases r3 with
                | some err =>
                  have e1 : processUntrackedCommits env s repoID repoName page since =
                      (.error (Err.wrapped "failed to update last sync time" err), s3) := by
                    simp only [pageRequest] at hreply hsv
                    simp [processUntrackedCommits, hurl, githubCommitsMaxRecordsPerPage, hreply,
                      hsv, hl, hup]
                  rw [e1]
                  exact ⟨⟨_, htr, Or.inr ⟨_, rfl, hrest⟩⟩, uw.trans hw, un.trans hn,
                    fun g hg => uc ▸ hc g hg, Or.inl ((uerr (by simp)).trans hr)⟩
                | none =>
                  have e1 : processUntrackedCommits env s repoID repoName page since =
                      (.ok cs.length, s3) := by
                    simp only [pageRequest] at hreply hsv
                    simp [processUntrackedCommits, hurl, githubCommitsMaxRecordsPerPage, hreply,
                      hsv, hl, hup]
                  rw [e1]
                  refine ⟨⟨_, htr, Or.inr ⟨_, rfl, hrest⟩⟩, uw.trans hw, un.trans hn,
                    fun g hg => uc ▸ hc g hg, Or.inr ⟨status, cs, l, rfl,
                      List.mem_of_getLast?_eq_some hl, rfl, ?_, ?_⟩⟩
                  · intro x hx
                    obtain ⟨g, hg, hgh, hgr⟩ := hp rfl x hx
                    exact ⟨g, uc ▸ hg, hgh, hgr⟩
                  · rw [uok rfl, hr]
        · have e1 : processUntrackedCommits env s repoID repoName page since =
              (.error (Err.other ("failed to fetch commits: " ++ status)),
                s.httpCall (Event.fetchCommits (pageRequest repoName since page))) := by
            simp only [pageRequest] at hreply
            simp [processUntrackedCommits, hurl, githubCommitsMaxRecordsPerPage, hreply,
              pageRequest, h403, h200]
          rw [e1]
          exact ⟨⟨_, rfl, Or.inr ⟨[], rfl, by simp⟩⟩, rfl, rfl, fun g hg => hg, Or.inl rfl⟩

theorem setMark_setMark (repoID : String) (t t' : Time) (rs : List GithubRepository) :
    setMark repoID t (setMark repoID t' rs) = setMark repoID t rs := by
  simp only [setMark, List.map_map]
  apply List.map_congr_left
  intro r _
  by_cases h : r.ID = repoID <;> simp [h]

theorem Persisted.mono {s s' : State} {repoID : String} {x : GithubCommitResponse}
    (h : Persisted s repoID x) (hc : ∀ g ∈ s.commits, g ∈ s'.commits) : Persisted s' repoID x := by
  obtain ⟨g, hg, hgh, hgr⟩ := h
  exact ⟨g, hc g hg, hgh, hgr⟩

theorem MarkEffect.trans {env : Env} {repoID : String} {s s1 s2 : State}
    (h1 : MarkEffect env repoID s s1) (h2 : MarkEffect env repoID s1 s2)
    (hc : ∀ g ∈ s1.commits, g ∈ s2.commits) : MarkEffect env repoID s s2 := by
  rcases h2 with h2 | ⟨k, req, status, cs, c, hrep, hmem, hper, hset⟩
  · rcases h1 with h1 | ⟨k, req, status, cs, c, hrep, hmem, hper, hset⟩
    · exact Or.inl (h2.trans h1)
    · exact Or.inr ⟨k, req, status, cs, c, hrep, hmem, fun x hx => (hper x hx).mono hc,
        h2.trans hset⟩
  · rcases h1 with h1 | ⟨_, _, _, _, c', _, _, _, hset'⟩
    · exact Or.inr ⟨k, req, status, cs, c, hrep, hmem, hper, by rw [hset, h1]⟩
    · exact Or.inr ⟨k, req, status, cs, c, hrep, hmem, hper, by
        rw [hset, hset', setMark_setMark]⟩

theorem trackCommitsLoop_frame (env : Env) (repo : GithubRepository) (since : Option Time) :
    ∀ (fuel : Nat) (s : State) (page : Nat) (b : Duration),
      (∃ evs, (trackCommitsLoop env repo since fuel s page b).2.trace = s.trace ++ evs
        ∧ ∀ r ∈ requestsOf evs, RunRequest repo.RepositoryName since page r)
      ∧ (trackCommitsLoop env repo since fuel s page b).2.newRepo = s.newRepo
      ∧ (∀ g ∈ s.commits, g ∈ (trackCommitsLoop env repo since fuel s page b).2.commits)
      ∧ MarkEffect env repo.ID s (trackCommitsLoop env repo since fuel s page b).2 := by
  intro fuel
  induction fuel with
  | zero =>
    intro s page b
    exact ⟨⟨[], by simp [trackCommitsLoop], by simp [requestsOf]⟩, rfl, fun g hg => hg, Or.inl rfl⟩
  | succ fuel ih =>
    intro s page b
    obtain ⟨⟨evs, ht, hshape⟩, hw, hn, hc, hm⟩ :=
      processUntrackedCommits_frame env s repo.ID repo.RepositoryName page since
    rcases hp : processUntrackedCommits env s repo.ID repo.RepositoryName page since with ⟨r, s1⟩
    rw [hp] at ht hw hn hc hm
    simp only at ht hw hn hc hm
    have hreq : ∀ r ∈ requestsOf evs, RunRequest repo.RepositoryName since page r := by
      rcases hshape with rfl | ⟨rest, rfl, hrest⟩
      · simp [requestsOf]
      · intro r hr
        simp only [requestsOf, requestsOf_pageStoreCalls repo.ID rest hrest, List.mem_singleton]
          at hr
        subst hr
        exact ⟨rfl, rfl, rfl, Nat.le_refl _⟩
    have hm1 : MarkEffect env repo.ID s s1 := by
      rcases hm with hm | ⟨status, cs, c, hrep, hmem, -, hper, hset⟩
      · exact Or.inl hm
      · exact Or.inr ⟨_, _, status, cs, c, hrep, hmem, hper, hset⟩
    have hstop : ∀ res : Option (Res Unit),
        (∃ evs, ((res, s1) : Option (Res Unit) × State).2.trace = s.trace ++ evs
          ∧ ∀ r ∈ requestsOf evs, RunRequest repo.RepositoryName since page r)
        ∧ ((res, s1) : Option (Res Unit) × State).2.newRepo = s.newRepo
        ∧ (∀ g ∈ s.commits, g ∈ ((res, s1) : Option (Res Unit) × State).2.commits)
        ∧ MarkEffect env repo.ID s ((res, s1) : Option (Res Unit) × State).2 :=
      fun _ => ⟨⟨evs, ht, hreq⟩, hn, hc, hm1⟩
    cases r with
    | error err =>
      by_cases hrl : err.Is Err.ErrRateLimitReached = true
      · cases since with
        | none =>
          have e1 : trackCommitsLoop env repo none (fuel + 1) s page b = (some .crash, s1) := by
            simp [trackCommitsLoop, hp, hrl]
          rw [e1]; exact hstop _
        | some t =>
          by_cases hdone : env.ctxDone s1.waits = true
          · have e1 : trackCommitsLoop env repo (some t) (fuel + 1) s page b =
                (some (.err Err.ctxErr), s1.backoffWait (wrapInt64 (b * 2))) := by
              simp [trackCommitsLoop, hp, hrl, hdone]
            rw [e1]
            refine ⟨⟨evs ++ [Event.backoff (wrapInt64 (b * 2))], ?_, ?_⟩, hn, hc, ?_⟩
            · simp [State.backoffWait, ht]
            · intro r hr
              simp only [requestsOf_append, requestsOf, List.append_nil] at hr
              exact hreq r hr
            · exact hm1
          · obtain ⟨⟨evs2, ht2, hreq2⟩, hn2, hc2, hm2⟩ :=
              ih (s1.backoffWait (wrapInt64 (b * 2))) page (wrapInt64 (b * 2))
            have e1 : trackCommitsLoop env repo (some t) (fuel + 1) s page b =
                trackCommitsLoop env repo (some t) fuel (s1.backoffWait (wrapInt64 (b * 2)))
                  page (wrapInt64 (b * 2)) := by
              simp [trackCommitsLoop, hp, hrl, hdone]
            rw [e1]
            refine ⟨⟨evs ++ Event.backoff (wrapInt64 (b * 2)) :: evs2, ?_, ?_⟩, ?_, ?_, ?_⟩
            · rw [ht2]; simp [State.backoffWait, ht]
            · intro r hr
              simp only [requestsOf_append, requestsOf, List.mem_append] at hr
              rcases hr with hr | hr
              · exact hreq r hr
              · exact hreq2 r hr
            · rw [hn2]; exact hn
            · exact fun g hg => hc2 g (hc g hg)
            · exact MarkEffect.trans hm1 hm2 hc2
      · have e1 : trackCommitsLoop env repo since (fuel + 1) s page b =
            (some (.err (Err.wrapped "error fetching commits" err)), s1) := by
          simp [trackCommitsLoop, hp, hrl]
        rw [e1]; exact hstop _
    | ok n =>
      by_cases hlt : n < githubCommitsMaxRecordsPerPage
      · have e1 : trackCommitsLoop env repo since (fuel + 1) s page b = (some (.ok ()), s1) := by
          simp [trackCommitsLoop, hp, hlt]
        rw [e1]; exact hstop _
      · obtain ⟨⟨evs2, ht2, hreq2⟩, hn2, hc2, hm2⟩ := ih s1 (page + 1) b
        have e1 : trackCommitsLoop env repo since (fuel + 1) s page b =
            trackCommitsLoop env repo since fuel s1 (page + 1) b := by
          simp [trackCommitsLoop, hp, hlt]
        rw [e1]
        refine ⟨⟨evs ++ evs2, ?_, ?_⟩, ?_, ?_, ?_⟩
        · rw [ht2, ht]; simp
        · intro r hr
          simp only [requestsOf_append, List.mem_append] at hr
          rcases hr with hr | hr
          · exact hreq r hr
          · obtain ⟨a, b', c, d⟩ := hreq2 r hr
            exact ⟨a, b', c, by omega⟩
        · rw [hn2]; exact hn
        · exact fun g hg => hc2 g (hc g hg)
        · exact MarkEffect.trans hm1 hm2 hc2

/-! ### One page in any outside world -/

/-- An insert takes no identifier, and its error wraps the failure of the statement. -/
theorem SaveCommit_result (env : Env) (s : State) (g : GithubCommit) :
    (Repository.SaveCommit env s g).2.uuids = s.uuids
    ∧ ∀ err, (Repository.SaveCommit env s g).1 = some err →
        ∃ e m, env.storeErr m = some e ∧ err = Err.wrapped "could not insert repository" e := by
  cases hE : env.storeErr s.storeCalls with
  | some e =>
    have e1 : Repository.SaveCommit env s g = (some (Err.wrapped "could not insert repository" e),
        s.storeCall (Event.SaveCommit g)) := by
      simp [Repository.SaveCommit, hE]
    rw [e1]
    exact ⟨rfl, fun err h => ⟨e, s.storeCalls, hE, (Option.some.inj h).symm⟩⟩
  | none =>
    by_cases hdup : s.commits.any (fun x => x.CommitHash == g.CommitHash
        && x.RepositoryID == g.RepositoryID) = true
    · have e1 : Repository.SaveCommit env s g = (none, s.storeCall (Event.SaveCommit g)) := by
        simp only [Repository.SaveCommit, hE, State.storeCall, hdup, if_true]
      rw [e1]
      exact ⟨rfl, fun err h => by simp at h⟩
    · have e1 : Repository.SaveCommit env s g = (none,
          { s.storeCall (Event.SaveCommit g) with
            commits := (s.storeCall (Event.SaveCommit g)).commits ++ [g] }) := by
        simp only [Repository.SaveCommit, hE, State.storeCall, hdup]
        rfl
      rw [e1]
      exact ⟨rfl, fun err h => by simp at h⟩

/-- The insert loop in any outside world: it issues the inserts of a prefix of the
page, in order; of the whole page when it returns nil; and when it returns an error
the last insert issued is the one that failed. -/
theorem saveCommitsLoop_prefix (env : Env) (repoID : String) :
    ∀ (cs : List GithubCommitResponse) (s : State),
      ∃ n, n ≤ cs.length
        ∧ (saveCommitsLoop env repoID cs s).2.trace
            = s.trace ++ saveEvents env repoID s.uuids (cs.take n)
        ∧ ((saveCommitsLoop env repoID cs s).1 = none → n = cs.length)
        ∧ ∀ err, (saveCommitsLoop env repoID cs s).1 = some err →
            0 < n ∧ ∃ e m, env.storeErr m = some e
              ∧ err = Err.wrapped "failed to save new commit"
                  (Err.wrapped "could not insert repository" e) := by
  intro cs
  induction cs with
  | nil =>
    intro s
    exact ⟨0, Nat.le_refl _, by simp [saveCommitsLoop, saveEvents], fun _ => rfl,
      fun err h => by simp [saveCommitsLoop] at h⟩
  | cons c cs ih =>
    intro s
    obtain ⟨ht, -⟩ := SaveCommit_frame env s.newUUID (toGithubCommit (env.uuid s.uuids) repoID c)
    obtain ⟨hu, herr⟩ :=
      SaveCommit_result env s.newUUID (toGithubCommit (env.uuid s.uuids) repoID c)
    rcases hsv : Repository.SaveCommit env s.newUUID (toGithubCommit (env.uuid s.uuids) repoID c)
      with ⟨r, s1⟩
    rw [hsv] at ht hu herr
    simp only [State.newUUID] at ht hu herr
    cases r with
    | some err =>
      obtain ⟨e, m, hm, he⟩ := herr err rfl
      refine ⟨1, by simp, ?_, ?_, ?_⟩
      · simp [saveCommitsLoop, hsv, ht, saveEvents]
      · intro h; simp [saveCommitsLoop, hsv] at h
      · intro err' h
        simp only [saveCommitsLoop, hsv, Option.some.injEq] at h
        exact ⟨by decide, e, m, hm, by rw [← h, he]⟩
    | none =>
      obtain ⟨n, hn, ht', hnone, herr'⟩ := ih s1
      refine ⟨n + 1, by simpa using hn, ?_, ?_, ?_⟩
      · simp only [saveCommitsLoop, hsv, ht', ht, hu, List.take_succ_cons, saveEvents]
        simp
      · intro h
        simp only [saveCommitsLoop, hsv] at h
        simp [hnone h]
      · intro err h
        simp only [saveCommitsLoop, hsv] at h
        obtain ⟨-, e, m, hm, he⟩ := herr' err h
        exact ⟨by omega, e, m, hm, he⟩

/-- The records of the inserts carry the fields of the fetched commits. -/
theorem savedOf_saveEvents_fields (env : Env) (repoID : String) :
    ∀ (cs : List GithubCommitResponse) (u : Nat),
      (savedOf (saveEvents env repoID u cs)).map GithubCommit.fields
        = cs.map (GithubCommitResponse.fields repoID) := by
  intro cs
  induction cs with
  | nil => intro u; rfl
  | cons c cs ih =>
    intro u
    simp [saveEvents, savedOf, ih, toGithubCommit, GithubCommit.fields,
      GithubCommitResponse.fields]

/-- One page answered 200, not empty, whose inserts all succeed: the calls are the
request, the inserts of the whole page and then the write of the date of the last
commit as the mark.  When that statement does not fail the call returns the length
of the page and the repository table is the old one with the mark overwritten;
when it fails the call returns the error and the table is as before. -/
theorem processUntrackedCommits_mark_write (env : Env) (s : State) (repoID repoName : String)
    (page : Nat) (since : Option Time) (cs : List GithubCommitResponse) (status : String)
    (l : GithubCommitResponse)
    (hurl : env.newRequestErr repoName = none)
    (hreply : env.commitsReply s.httpCalls (pageRequest repoName since page)
      = HttpReply.resp 200 status (.ok cs))
    (hsave : (saveCommitsLoop env repoID cs (s.httpCall
      (Event.fetchCommits (pageRequest repoName since page)))).1 = none)
    (hl : cs.getLast? = some l) :
    (processUntrackedCommits env s repoID repoName page since).2.eventsAfter s
        = Event.fetchCommits (pageRequest repoName since page)
            :: saveEvents env repoID s.uuids cs
              ++ [Event.UpdateCommitLastSyncTime repoID l.Commit.Author.Date]
    ∧ (env.storeErr (saveCommitsLoop env repoID cs (s.httpCall
          (Event.fetchCommits (pageRequest repoName since page)))).2.storeCalls = none →
        (processUntrackedCommits env s repoID repoName page since).1 = .ok cs.length
        ∧ (processUntrackedCommits env s repoID repoName page since).2.repository
            = setMark repoID l.Commit.Author.Date s.repository)
    ∧ (∀ e, env.storeErr (saveCommitsLoop env repoID cs (s.httpCall
          (Event.fetchCommits (pageRequest repoName since page)))).2.storeCalls = some e →
        (processUntrackedCommits env s repoID repoName page since).1
          = .error (Err.wrapped "failed to update last sync time"
              (Err.wrapped "could not update repository" e))
        ∧ (processUntrackedCommits env s repoID repoName page since).2.repository
            = s.repository) := by
  obtain ⟨n, -, ht, hnone, -⟩ := saveCommitsLoop_prefix env repoID cs
    (s.httpCall (Event.fetchCommits (pageRequest repoName since page)))
  obtain ⟨-, hrepo, -⟩ := saveCommitsLoop_frame env repoID cs
    (s.httpCall (Event.fetchCommits (pageRequest repoName since page)))
  rcases hsv : saveCommitsLoop env repoID cs
    (s.httpCall (Event.fetchCommits (pageRequest repoName since page))) with ⟨r, s2⟩
  rw [hsv] at ht hnone hrepo hsave
  simp only at hsave
  subst hsave
  have hn : n = cs.length := hnone rfl
  subst hn
  simp only [State.httpCall, List.take_length] at ht hrepo
  have hreply' := hreply
  simp only [pageRequest] at hreply' hsv
  obtain ⟨ut, -, -, -, -, hset, hkeep⟩ :=
    UpdateCommitLastSyncTime_frame env s2 repoID l.Commit.Author.Date
  rcases hup : Repository.UpdateCommitLastSyncTime env s2 repoID l.Commit.Author.Date
    with ⟨r3, s3⟩
  have hr3 : r3 = (env.storeErr s2.storeCalls).map (Err.wrapped "could not update repository") := by
    have := congrArg Prod.fst hup
    simp only [Repository.UpdateCommitLastSyncTime] at this
    rw [← this]
    cases env.storeErr s2.storeCalls <;> rfl
  rw [hup] at ut hset hkeep
  simp only at ut hset hkeep
  have hout : processUntrackedCommits env s repoID repoName page since =
      ((match r3 with
        | some err => .error (Err.wrapped "failed to update last sync time" err)
        | none => .ok cs.length), s3) := by
    cases r3 <;>
      simp [processUntrackedCommits, hurl, githubCommitsMaxRecordsPerPage, hreply', hsv, hl, hup]
  rw [hout]
  refine ⟨since_of_trace s s3 _ (by rw [ut, ht]; simp), ?_, ?_⟩
  · intro hE
    simp only
    rw [hE] at hr3
    subst hr3
    exact ⟨rfl, by rw [hset rfl, hrepo]⟩
  · intro e hE
    simp only
    rw [hE] at hr3
    subst hr3
    exact ⟨rfl, by rw [hkeep (by simp), hrepo]⟩

/-! ### C4: the since filter of a run -/

/-- The cursor of a run: every commit page request a run of `trackCommits` makes,
whatever the outside answers and however long the run goes on, is built from the
same pointer `since`: the high-water mark of the repository when it has one
(whatever date is configured), otherwise the configured default start date when
that is not the zero instant, otherwise nil. -/
theorem trackCommits_since_filter (env : Env) (fuel : Nat) (s : State) (repo : GithubRepository)
    (r : CommitsRequest) (hr : r ∈ requestsOf ((trackCommits env fuel s repo).2.eventsAfter s)) :
    r.since =
      match repo.CommitLastPulledTime with
      | some mark => some mark
      | none => if env.commitSinceDate = 0 then none else some env.commitSinceDate := by
  obtain ⟨⟨evs, ht, hreq⟩, -, -, -⟩ := trackCommitsLoop_frame env repo (trackCommitsSince env repo)
    fuel s 1 defaultBackoffDuration
  have hev : (trackCommits env fuel s repo).2.eventsAfter s = evs := since_of_trace _ _ _ ht
  rw [hev] at hr
  obtain ⟨-, -, hsince, -⟩ := hreq r hr
  rw [hsince, trackCommitsSince]
  cases repo.CommitLastPulledTime with
  | some mark => rfl
  | none => by_cases h : env.commitSinceDate = 0 <;> simp [h]

/-- The cursor at a concrete input: with a default start date of 5 configured and a
mark of 9 stored, the request for page 1 is built from the mark. -/
theorem trackCommits_since_filter_witness :
    (pageRequest "o/r" (some 9) 1).since =
      match markedRepo.CommitLastPulledTime with
      | some mark => some mark
      | none => if sinceEnv.commitSinceDate = 0 then none else some sinceEnv.commitSinceDate :=
  trackCommits_since_filter sinceEnv 1 trackedState markedRepo (pageRequest "o/r" (some 9) 1)
    (by decide)

/-- C4 fails on the code: the since filter that is sent is not the instant of the
cursor.  A default start date of 2024-03-10T10:00:00Z is configured and the
repository has no mark, so the cursor of the run is that instant, whose text in
the documented format is `2024-03-10T10:00:00Z`.  When the value carries a Location
two hours east of UTC (12:00:00+02:00), the URL of page 1 ends in
`since=2024-03-10T12:00:00Z`, which names an instant two hours later: the wall clock
is printed with a `Z` after it and nothing converts to UTC.  In general the URL for
a cursor in a Location `offset` seconds east of UTC is the URL for the UTC cursor
`offset` seconds later.  And for the name `o/r#x`, which `ValidateRepoName` accepts,
the text after the `#` is a fragment: the request goes to `/repos/o/r` without any
query, so no since filter is sent at all. -/
theorem since_sent_as_wall_clock :
    trackCommitsSince march10Env sampleRepo = some 63845661600000000000
    ∧ requestsOf ((trackCommits march10Env 5 trackedState sampleRepo).2.eventsAfter trackedState)
        = [pageRequest "o/r" (some 63845661600000000000) 1]
    ∧ Time.Format 63845661600000000000 0 = "2024-03-10T10:00:00Z"
    ∧ (pageRequest "o/r" (some 63845661600000000000) 1).url 7200
        = "https://api.github.com/repos/o/r/commits?page=1&per_page=100&since=2024-03-10T12:00:00Z"
    ∧ rawQuery ((pageRequest "o/r" (some 63845661600000000000) 1).url 7200)
        = "page=1&per_page=100&since=2024-03-10T12:00:00Z"
    ∧ (∀ (req : CommitsRequest) (t : Time) (offset : Int), req.since = some t →
        req.url offset = ({ req with since := some (t + offset * 1000000000) }).url 0)
    ∧ ValidateRepoName "o/r#x" = none
    ∧ (pageRequest "o/r#x" (some 63845661600000000000) 1).url 0
        = "https://api.github.com/repos/o/r#x/commits?page=1&per_page=100&since=2024-03-10T10:00:00Z"
    ∧ sentURL ((pageRequest "o/r#x" (some 63845661600000000000) 1).url 0)
        = "https://api.github.com/repos/o/r"
    ∧ rawQuery ((pageRequest "o/r#x" (some 63845661600000000000) 1).url 0) = "" := by
  refine ⟨rfl, ?_, ?_, ?_, ?_, ?_, ?_, ?_, ?_, ?_⟩
  · decide
  · decide
  · decide
  · decide
  · intro req t offset h
    have hdiv : (t + offset * 1000000000) / 1000000000 + 0 = t / 1000000000 + offset := by
      rw [Int.add_mul_ediv_right t offset (by decide), Int.add_zero]
    simp only [CommitsRequest.url, h, Time.Format, hdiv]
  · decide
  · decide
  · decide
  · decide

/-! ### C5: writes of the high-water mark -/

/-- C5, as stated, fails: the source holds 101 commits, newest first, and returns
them as a page of 100 and a page of 1.  The run ends without error; after page 1
the stored mark is 901, and the write after page 2 stores 900, which is earlier. -/
theorem mark_write_earlier_than_stored :
    (trackCommits twoPagesEnv 2 trackedState sampleRepo).1 = some (.ok ())
    ∧ (processUntrackedCommits twoPagesEnv trackedState "id-1" "o/r" 1 none).2.mark "id-1"
        = some 901
    ∧ markWritesOf ((trackCommits twoPagesEnv 2 trackedState sampleRepo).2.eventsAfter trackedState)
        = [("id-1", 901), ("id-1", 900)]
    ∧ (trackCommits twoPagesEnv 2 trackedState sampleRepo).2.mark "id-1" = some 900
    ∧ (900 : Time) < 901 := by
  set_option maxRecDepth 100000 in
  refine ⟨rfl, ?_, ?_, ?_, ?_⟩ <;> decide

/-- C5, amended: a write of the mark is an unconditional overwrite made after a
whole page went in.  (1) One call of `processUntrackedCommits` either leaves the
repository table as it was, or the source answered this request 200 with a page
`cs`, the call returns its length without error, every commit of `cs` is in the
commits table, and the table is the old one with the mark of the repository
overwritten by the authored-at timestamp of a commit of `cs`.  (2) The overwrite
is made whatever the mark was before: when the source answers the request 200 with
a page that is not empty, no insert of the page fails and the update statement
does not fail, then after the call every record of the repository carries as mark
the timestamp of a commit of the page, also when the mark before was later; the
stored mark is not compared with the new one.  (3) What (1) says of one call holds
for a whole run of `trackCommits`, whatever the outside answers.  (4) So a mark
that is unset before a run and set after it was written after a page that is not
empty had been persisted. -/
theorem mark_overwritten_after_persisted_page (env : Env) :
    (∀ (s : State) (repoID repoName : String) (page : Nat) (since : Option Time),
      (processUntrackedCommits env s repoID repoName page since).2.repository = s.repository
      ∨ ∃ status cs c,
          env.commitsReply s.httpCalls (pageRequest repoName since page)
            = HttpReply.resp 200 status (.ok cs)
          ∧ c ∈ cs
          ∧ (processUntrackedCommits env s repoID repoName page since).1 = .ok cs.length
          ∧ (∀ x ∈ cs, Persisted (processUntrackedCommits env s repoID repoName page since).2
              repoID x)
          ∧ (processUntrackedCommits env s repoID repoName page since).2.repository
              = setMark repoID c.Commit.Author.Date s.repository)
    ∧ (∀ (s : State) (repoID repoName : String) (page : Nat) (since : Option Time)
        (status : String) (cs : List GithubCommitResponse),
        env.newRequestErr repoName = none →
        env.commitsReply s.httpCalls (pageRequest repoName since page)
          = HttpReply.resp 200 status (.ok cs) →
        cs ≠ [] →
        (saveCommitsLoop env repoID cs (s.httpCall
          (Event.fetchCommits (pageRequest repoName since page)))).1 = none →
        env.storeErr (saveCommitsLoop env repoID cs (s.httpCall
          (Event.fetchCommits (pageRequest repoName since page)))).2.storeCalls = none →
        ∃ c ∈ cs,
          (processUntrackedCommits env s repoID repoName page since).2.repository
            = setMark repoID c.Commit.Author.Date s.repository
          ∧ (∀ r ∈ (processUntrackedCommits env s repoID repoName page since).2.repository,
              r.ID = repoID → r.CommitLastPulledTime = some c.Commit.Author.Date)
          ∧ ((∃ r ∈ s.repository, r.ID = repoID) →
              (processUntrackedCommits env s repoID repoName page since).2.mark repoID
                = some c.Commit.Author.Date))
    ∧ (∀ (fuel : Nat) (s : State) (repo : GithubRepository),
        MarkEffect env repo.ID s (trackCommits env fuel s repo).2)
    ∧ (∀ (fuel : Nat) (s : State) (repo : GithubRepository),
        s.mark repo.ID = none → (trackCommits env fuel s repo).2.mark repo.ID ≠ none →
        ∃ k req status cs,
          env.commitsReply k req = HttpReply.resp 200 status (.ok cs) ∧ cs ≠ []
          ∧ ∀ x ∈ cs, Persisted (trackCommits env fuel s repo).2 repo.ID x) := by
  have hrun : ∀ (fuel : Nat) (s : State) (repo : GithubRepository),
      MarkEffect env repo.ID s (trackCommits env fuel s repo).2 := fun fuel s repo =>
    (trackCommitsLoop_frame env repo (trackCommitsSince env repo) fuel s 1
      defaultBackoffDuration).2.2.2
  refine ⟨fun s repoID repoName page since =>
    (processUntrackedCommits_frame env s repoID repoName page since).2.2.2.2, ?_, hrun, ?_⟩
  · intro s repoID repoName page since status cs hurl hreply hne hsave hupd
    obtain ⟨l, hl⟩ : ∃ l, cs.getLast? = some l := by
      cases h : cs.getLast? with
      | none => exact absurd (List.getLast?_eq_none_iff.1 h) hne
      | some l => exact ⟨l, rfl⟩
    obtain ⟨-, hok, -⟩ := processUntrackedCommits_mark_write env s repoID repoName page since cs
      status l hurl hreply hsave hl
    obtain ⟨-, hset⟩ := hok hupd
    refine ⟨l, List.mem_of_getLast?_eq_some hl, hset, ?_, ?_⟩
    · rw [hset]
      exact mem_setMark repoID _ s.repository
    · intro hex
      rw [State.mark, hset]
      exact mark_setMark repoID _ s.repository hex
  intro fuel s repo hunset hset
  rcases hrun fuel s repo with h | ⟨k, req, status, cs, c, hrep, hmem, hper, -⟩
  · exact absurd (by rw [State.mark, h]; exact hunset) hset
  · exact ⟨k, req, status, cs, hrep, List.ne_nil_of_mem hmem, hper⟩

/-! ### C6: which commit the mark is taken from -/

/-- C6 fails on the code: the source returns one page of two commits, newest first,
dated 1000 and 999.  The run ends without error, both commits are passed to the
store, and the mark stored is 999, the date of the older one, not 1000, the date of
the most recent commit ingested; the next run asks for the commits since 999. -/
theorem mark_is_oldest_of_last_page :
    (trackCommits onePageEnv 1 trackedState sampleRepo).1 = some (.ok ())
    ∧ (savedOf ((trackCommits onePageEnv 1 trackedState sampleRepo).2.eventsAfter trackedState)).map
        (fun g => g.Date) = [1000, 999]
    ∧ (trackCommits onePageEnv 1 trackedState sampleRepo).2.mark "id-1" = some 999
    ∧ requestsOf ((trackCommits onePageEnv 1
          (trackCommits onePageEnv 1 trackedState sampleRepo).2
          { sampleRepo with CommitLastPulledTime :=
              (trackCommits onePageEnv 1 trackedState sampleRepo).2.mark "id-1" }).2.eventsAfter
          (trackCommits onePageEnv 1 trackedState sampleRepo).2)
        = [pageRequest "o/r" (some 999) 1] := by
  refine ⟨rfl, ?_, ?_, ?_⟩ <;> decide

/-! ### C7: a rate-limited commit page -/

/-- With a cursor set, a 403 on page `page` that is not cancelled leads to a wait of
the doubled backoff and then to the same page again, with the same cursor. -/
theorem trackCommitsLoop_rate_limited_retry (env : Env) (repo : GithubRepository) (t : Time)
    (fuel : Nat) (s : State) (page : Nat) (b : Duration) (status : String)
    (body : Except Err (List GithubCommitResponse))
    (hurl : env.newRequestErr repo.RepositoryName = none)
    (h403 : env.commitsReply s.httpCalls (pageRequest repo.RepositoryName (some t) page)
      = HttpReply.resp 403 status body)
    (hctx : env.ctxDone s.waits = false) :
    trackCommitsLoop env repo (some t) (fuel + 1) s page b =
      trackCommitsLoop env repo (some t) fuel
        ((s.httpCall (Event.fetchCommits (pageRequest repo.RepositoryName (some t) page))).backoffWait
          (wrapInt64 (b * 2))) page (wrapInt64 (b * 2)) := by
  simp only [pageRequest] at h403
  simp [trackCommitsLoop, processUntrackedCommits, hurl, githubCommitsMaxRecordsPerPage, h403,
    Err.Is, State.httpCall, hctx, pageRequest]

/-- C7 fails on the code when no since filter is set: with no default start date
configured and no mark stored, a 403 on the first page request makes `trackCommits`
panic (nil dereference in the log call of the rate-limit branch) after that one
request, without any wait and without a retry.  With a mark stored the same answer
is handled: wait 2 minutes, then page 1 again with the same cursor. -/
theorem trackCommits_rate_limit_without_cursor_panics :
    trackCommitsSince rateLimitedCommitsEnv sampleRepo = none
    ∧ (trackCommits rateLimitedCommitsEnv 5 trackedState sampleRepo).1 = some .crash
    ∧ (trackCommits rateLimitedCommitsEnv 5 trackedState sampleRepo).2.eventsAfter trackedState
        = [Event.fetchCommits (pageRequest "o/r" none 1)]
    ∧ (trackCommits rateLimitedOnceEnv 5 trackedState markedRepo).1 = some (.ok ())
    ∧ (trackCommits rateLimitedOnceEnv 5 trackedState markedRepo).2.eventsAfter trackedState
        = [Event.fetchCommits (pageRequest "o/r" (some 9) 1), Event.backoff (2 * Minute),
           Event.fetchCommits (pageRequest "o/r" (some 9) 1)] := by
  refine ⟨rfl, rfl, ?_, rfl, ?_⟩ <;> decide

/-! ### C8: `getRepositoryID` twice -/

/-- C8 fails on the code when the buffer of `newRepo` is full.  The store is empty,
no statement fails, the name `o/r` is valid and 100 names wait on the channel: the
call creates the record and then blocks in the send.  It returns no identifier, and
the record is in the store without a signal for it. -/
theorem getRepositoryID_blocks_on_full_queue :
    ValidateRepoName "o/r" = none
    ∧ fullQueueState.repository = []
    ∧ fullQueueState.newRepo.length = newRepoCapacity
    ∧ (getRepositoryID quietEnv fullQueueState "o/r").1 = none
    ∧ (getRepositoryID quietEnv fullQueueState "o/r").2.eventsAfter fullQueueState
        = [Event.GetRepositoryByName "o/r", Event.CreateRepository "u" "o/r"]
    ∧ (getRepositoryID quietEnv fullQueueState "o/r").2.repository.map
        (fun r => (r.ID, r.RepositoryName)) = [("u", "o/r")]
    ∧ (getRepositoryID quietEnv fullQueueState "o/r").2.newRepo = fullQueueState.newRepo := by
  refine ⟨?_, rfl, rfl, rfl, ?_, rfl, rfl⟩ <;> decide

/-- C8, amended: over a store in which no statement fails and which holds at most one
record for the name, and with room in the buffer of `newRepo` when the name is not
in the store yet, two calls of `getRepositoryID` in sequence both return without
error and return the same identifier, which is the identifier of the record of that
name; afterwards the store holds exactly one record for the name; the second call
does a lookup and nothing else (no write, no signal).  The first call, when the name
is already there, does a lookup and nothing else; when it is not there, it does the
lookup, one `CreateRepository` and one send on `newRepo`, in that order.  So
`CreateRepository` is called at most once and the signal is sent exactly once, by
the call that created the record.  This holds for every name, the valid ones
included. -/
theorem getRepositoryID_idempotent (env : Env) (s : State) (repoName : String)
    (hstore : ∀ n, env.storeErr n = none)
    (hkey : (s.repository.filter fun r => r.RepositoryName == repoName).length ≤ 1)
    (hroom : (¬ ∃ r ∈ s.repository, r.RepositoryName = repoName) →
      s.newRepo.length < newRepoCapacity) :
    ∃ id : String,
      (getRepositoryID env s repoName).1 = some (id, none)
      ∧ (getRepositoryID env (getRepositoryID env s repoName).2 repoName).1 = some (id, none)
      ∧ (∃ r ∈ (getRepositoryID env (getRepositoryID env s repoName).2 repoName).2.repository,
          r.RepositoryName = repoName ∧ r.ID = id)
      ∧ ((getRepositoryID env (getRepositoryID env s repoName).2 repoName).2.repository.filter
          fun r => r.RepositoryName == repoName).length = 1
      ∧ (getRepositoryID env (getRepositoryID env s repoName).2 repoName).2.eventsAfter
          (getRepositoryID env s repoName).2 = [Event.GetRepositoryByName repoName]
      ∧ (getRepositoryID env (getRepositoryID env s repoName).2 repoName).2.repository
          = (getRepositoryID env s repoName).2.repository
      ∧ (getRepositoryID env (getRepositoryID env s repoName).2 repoName).2.newRepo
          = (getRepositoryID env s repoName).2.newRepo
      ∧ ((∃ r ∈ s.repository, r.RepositoryName = repoName) →
          (getRepositoryID env s repoName).2.eventsAfter s = [Event.GetRepositoryByName repoName]
          ∧ (getRepositoryID env s repoName).2.repository = s.repository
          ∧ (getRepositoryID env s repoName).2.newRepo = s.newRepo)
      ∧ ((¬ ∃ r ∈ s.repository, r.RepositoryName = repoName) →
          (getRepositoryID env s repoName).2.eventsAfter s =
            [Event.GetRepositoryByName repoName, Event.CreateRepository id repoName,
             Event.newRepoSend repoName]
          ∧ (getRepositoryID env s repoName).2.newRepo = s.newRepo ++ [repoName]) := by
  cases hfind : s.repository.find? (fun r => r.RepositoryName == repoName) with
  | some row =>
    have hmem : row ∈ s.repository := List.mem_of_find?_eq_some hfind
    have hname : row.RepositoryName = repoName := by
      have := List.find?_some hfind
      simpa using this
    have e1 : getRepositoryID env s repoName =
        (some (row.ID, none), s.storeCall (Event.GetRepositoryByName repoName)) := by
      simp [getRepositoryID, Repository.GetRepositoryByName, hstore, hfind]
    have e2 : getRepositoryID env (getRepositoryID env s repoName).2 repoName =
        (some (row.ID, none), (s.storeCall (Event.GetRepositoryByName repoName)).storeCall
          (Event.GetRepositoryByName repoName)) := by
      rw [e1]
      simp [getRepositoryID, Repository.GetRepositoryByName, hstore, hfind, State.storeCall]
    rw [e2, e1]
    refine ⟨row.ID, rfl, rfl, ⟨row, hmem, hname, rfl⟩, ?_, ?_, rfl, rfl,
      fun _ => ⟨?_, rfl, rfl⟩, fun h => absurd ⟨row, hmem, hname⟩ h⟩
    · have hpos : 0 < (s.repository.filter fun r => r.RepositoryName == repoName).length :=
        List.length_pos_of_mem (List.mem_filter.2 ⟨hmem, by simp [hname]⟩)
      simp only [State.storeCall]
      omega
    · simp [State.eventsAfter, State.storeCall]
    · simp [State.eventsAfter, State.storeCall]
  | none =>
    have hnone : ∀ r ∈ s.repository, ¬ r.RepositoryName = repoName := by
      intro r hr
      have := List.find?_eq_none.1 hfind r hr
      simpa using this
    have hfilter : (s.repository.filter fun r => r.RepositoryName == repoName) = [] := by
      rw [List.filter_eq_nil_iff]
      intro r hr
      simpa using hnone r hr
    have hlen : s.newRepo.length < newRepoCapacity :=
      hroom fun ⟨r, hr, hrn⟩ => hnone r hr hrn
    obtain ⟨s3, hs3, hrepo3, hq3, htr3, hsc3⟩ : ∃ s3 : State,
        ((Repository.CreateRepository env (s.storeCall (Event.GetRepositoryByName repoName))
          repoName).2).sendNewRepo repoName = some s3
        ∧ s3.repository = s.repository ++
            [{ ID := env.uuid s.uuids, RepositoryName := repoName, Description := none,
               URL := none, Language := none, ForksCount := 0, StarsCount := 0,
               OpenIssuesCount := 0, WatchersCount := 0, CommitLastPulledTime := none,
               CreatedAt := env.now (s.storeCalls + 1), UpdatedAt := none }]
        ∧ s3.newRepo = s.newRepo ++ [repoName]
        ∧ s3.trace = s.trace ++ [Event.GetRepositoryByName repoName,
            Event.CreateRepository (env.uuid s.uuids) repoName, Event.newRepoSend repoName]
        ∧ s3.storeCalls = s.storeCalls + 2 := by
      simp [Repository.CreateRepository, hstore, State.storeCall, State.newUUID,
        State.sendNewRepo, hlen]
    have hcreate : Repository.CreateRepository env
        (s.storeCall (Event.GetRepositoryByName repoName)) repoName =
        ((env.uuid s.uuids, none), (Repository.CreateRepository env
          (s.storeCall (Event.GetRepositoryByName repoName)) repoName).2) := by
      simp [Repository.CreateRepository, hstore, State.storeCall, State.newUUID]
    have e1 : getRepositoryID env s repoName = (some (env.uuid s.uuids, none), s3) := by
      simp only [getRepositoryID, Repository.GetRepositoryByName, hstore, hfind]
      rw [hcreate]
      simp [Err.Is, hs3]
    have hfind2 : s3.repository.find? (fun r => r.RepositoryName == repoName) =
        some { ID := env.uuid s.uuids, RepositoryName := repoName, Description := none,
               URL := none, Language := none, ForksCount := 0, StarsCount := 0,
               OpenIssuesCount := 0, WatchersCount := 0, CommitLastPulledTime := none,
               CreatedAt := env.now (s.storeCalls + 1), UpdatedAt := none } := by
      rw [hrepo3]
      simp [List.find?_append, hfind]
    have e2 : getRepositoryID env (getRepositoryID env s repoName).2 repoName =
        (some (env.uuid s.uuids, none), s3.storeCall (Event.GetRepositoryByName repoName)) := by
      rw [e1]
      simp only [getRepositoryID, Repository.GetRepositoryByName, hstore, hfind2]
    rw [e2, e1]
    refine ⟨env.uuid s.uuids, rfl, rfl, ⟨_, List.mem_of_find?_eq_some hfind2, rfl, rfl⟩, ?_, ?_,
      rfl, rfl, fun h => ?_, fun _ => ⟨?_, hq3⟩⟩
    · show (s3.repository.filter fun r => r.RepositoryName == repoName).length = 1
      rw [hrepo3]
      simp [List.filter_append, hfilter]
    · simp [State.eventsAfter, State.storeCall]
    · obtain ⟨r, hr, hrn⟩ := h
      exact absurd hrn (hnone r hr)
    · simp [State.eventsAfter, htr3]

/-- C8 at a concrete input: a first registration in an empty store with an empty
buffer. -/
theorem getRepositoryID_idempotent_witness :
    ∃ id : String,
      (getRepositoryID quietEnv emptyState "o/r").1 = some (id, none)
      ∧ (getRepositoryID quietEnv (getRepositoryID quietEnv emptyState "o/r").2 "o/r").1
          = some (id, none)
      ∧ (∃ r ∈ (getRepositoryID quietEnv (getRepositoryID quietEnv emptyState "o/r").2
            "o/r").2.repository, r.RepositoryName = "o/r" ∧ r.ID = id)
      ∧ ((getRepositoryID quietEnv (getRepositoryID quietEnv emptyState "o/r").2
          "o/r").2.repository.filter fun r => r.RepositoryName == "o/r").length = 1
      ∧ (getRepositoryID quietEnv (getRepositoryID quietEnv emptyState "o/r").2
          "o/r").2.eventsAfter
          (getRepositoryID quietEnv emptyState "o/r").2 = [Event.GetRepositoryByName "o/r"]
      ∧ (getRepositoryID quietEnv (getRepositoryID quietEnv emptyState "o/r").2
          "o/r").2.repository = (getRepositoryID quietEnv emptyState "o/r").2.repository
      ∧ (getRepositoryID quietEnv (getRepositoryID quietEnv emptyState "o/r").2 "o/r").2.newRepo
          = (getRepositoryID quietEnv emptyState "o/r").2.newRepo
      ∧ ((∃ r ∈ emptyState.repository, r.RepositoryName = "o/r") →
          (getRepositoryID quietEnv emptyState "o/r").2.eventsAfter emptyState
            = [Event.GetRepositoryByName "o/r"]
          ∧ (getRepositoryID quietEnv emptyState "o/r").2.repository = emptyState.repository
          ∧ (getRepositoryID quietEnv emptyState "o/r").2.newRepo = emptyState.newRepo)
      ∧ ((¬ ∃ r ∈ emptyState.repository, r.RepositoryName = "o/r") →
          (getRepositoryID quietEnv emptyState "o/r").2.eventsAfter emptyState =
            [Event.GetRepositoryByName "o/r", Event.CreateRepository id "o/r",
             Event.newRepoSend "o/r"]
          ∧ (getRepositoryID quietEnv emptyState "o/r").2.newRepo
              = emptyState.newRepo ++ ["o/r"]) :=
  getRepositoryID_idempotent quietEnv emptyState "o/r" (fun _ => rfl) (by decide)
    (fun _ => by decide)

/-! ### C9: malformed names -/

theorem splitSlash_ne_nil (l : List Char) : splitSlash l ≠ [] := by
  cases l with
  | nil => simp [splitSlash]
  | cons c cs =>
    by_cases h : c = '/'
    · simp [splitSlash, h]
    · cases hs : splitSlash cs <;> simp [splitSlash, h, hs]

theorem splitSlash_no_slash : ∀ l : List Char, '/' ∉ l → splitSlash l = [l] := by
  intro l
  induction l with
  | nil => intro _; rfl
  | cons c cs ih =>
    intro h
    have hc : c ≠ '/' := fun e => h (by simp [e])
    have hcs : '/' ∉ cs := fun e => h (by simp [e])
    simp [splitSlash, hc, ih hcs]

theorem splitSlash_append : ∀ (a b : List Char), '/' ∉ a →
    splitSlash (a ++ '/' :: b) = a :: splitSlash b := by
  intro a
  induction a with
  | nil => intro b _; simp [splitSlash]
  | cons c cs ih =>
    intro b h
    have hc : c ≠ '/' := fun e => h (by simp [e])
    have hcs : '/' ∉ cs := fun e => h (by simp [e])
    simp [splitSlash, hc, ih b hcs]

/-- A first piece of the split comes with the rest of the string it was cut from. -/
theorem splitSlash_cons : ∀ (l p : List Char) (ps : List (List Char)),
    splitSlash l = p :: ps →
    '/' ∉ p ∧ ((ps = [] ∧ l = p) ∨ ∃ rest, l = p ++ '/' :: rest ∧ splitSlash rest = ps) := by
  intro l
  induction l with
  | nil =>
    intro p ps h
    simp only [splitSlash, List.cons.injEq] at h
    obtain ⟨rfl, rfl⟩ := h
    exact ⟨by simp, Or.inl ⟨rfl, rfl⟩⟩
  | cons c cs ih =>
    intro p ps h
    by_cases hc : c = '/'
    · simp only [splitSlash, hc, if_true, List.cons.injEq] at h
      obtain ⟨rfl, rfl⟩ := h
      exact ⟨by simp, Or.inr ⟨cs, by simp [hc], rfl⟩⟩
    · cases hs : splitSlash cs with
      | nil => exact absurd hs (splitSlash_ne_nil cs)
      | cons q qs =>
        simp only [splitSlash, hc, if_false, hs, List.cons.injEq] at h
        obtain ⟨rfl, rfl⟩ := h
        obtain ⟨hq, hrest⟩ := ih q qs hs
        refine ⟨?_, ?_⟩
        · intro hmem
          rcases List.mem_cons.1 hmem with e | e
          · exact hc e.symm
          · exact hq e
        · rcases hrest with ⟨rfl, rfl⟩ | ⟨rest, rfl, hr⟩
          · exact Or.inl ⟨rfl, rfl⟩
          · exact Or.inr ⟨rest, by simp, hr⟩

/-- `ValidateRepoName` accepts exactly the well-formed names. -/
theorem ValidateRepoName_eq_none_iff (repoName : String) :
    ValidateRepoName repoName = none ↔ WellFormedRepoName repoName := by
  constructor
  · intro h
    unfold ValidateRepoName at h
    split at h
    · rename_i owner name hsplit
      by_cases hempty : owner = [] ∨ name = []
      · simp [hempty] at h
      · obtain ⟨ho, hrest⟩ := splitSlash_cons _ _ _ hsplit
        rcases hrest with ⟨hnil, -⟩ | ⟨rest, hl, hr⟩
        · simp at hnil
        · obtain ⟨hn, hrest2⟩ := splitSlash_cons _ _ _ hr
          rcases hrest2 with ⟨-, rfl⟩ | ⟨rest2, -, hr2⟩
          · exact ⟨owner, rest, fun e => hempty (Or.inl e), fun e => hempty (Or.inr e), ho, hn,
              hl⟩
          · exact absurd hr2 (splitSlash_ne_nil rest2)
    · simp at h
  · rintro ⟨owner, name, ho, hn, hso, hsn, hdata⟩
    have hsplit : splitSlash repoName.data = [owner, name] := by
      rw [hdata, splitSlash_append owner name hso, splitSlash_no_slash name hsn]
    simp [ValidateRepoName, hsplit, ho, hn]

/-- The runes `strings.TrimSpace` leaves: the input is leading spaces, the trimmed
text, trailing spaces. -/
theorem trim_decomposition (l : List Char) :
    ∃ a b, l = a ++ ((l.dropWhile isSpace).reverse.dropWhile isSpace).reverse ++ b
      ∧ (∀ c ∈ a, isSpace c = true) ∧ (∀ c ∈ b, isSpace c = true) := by
  refine ⟨l.takeWhile isSpace, ((l.dropWhile isSpace).reverse.takeWhile isSpace).reverse, ?_,
    fun c hc => List.mem_takeWhile_imp hc,
    fun c hc => List.mem_takeWhile_imp (List.mem_reverse.1 hc)⟩
  have h1 : l = l.takeWhile isSpace ++ l.dropWhile isSpace :=
    (List.takeWhile_append_dropWhile isSpace l).symm
  have h3 : l.dropWhile isSpace =
      ((l.dropWhile isSpace).reverse.dropWhile isSpace).reverse ++
        ((l.dropWhile isSpace).reverse.takeWhile isSpace).reverse := by
    calc l.dropWhile isSpace
        = ((l.dropWhile isSpace).reverse).reverse := (List.reverse_reverse _).symm
      _ = ((l.dropWhile isSpace).reverse.takeWhile isSpace ++
            (l.dropWhile isSpace).reverse.dropWhile isSpace).reverse := by
          rw [List.takeWhile_append_dropWhile]
      _ = _ := List.reverse_append _ _
  rw [List.append_assoc, ← h3, ← h1]

/-- Trimming and lower-casing do not turn a malformed name into a well-formed one,
as long as lower-casing leaves the slash alone and maps nothing else to it. -/
theorem wellFormed_of_normalized (env : Env) (p : String)
    (hlower : ∀ c, env.unicodeToLower c = '/' ↔ c = '/')
    (h : WellFormedRepoName (ToLower env (TrimSpace p))) : WellFormedRepoName p := by
  obtain ⟨owner, name, ho, hn, hso, hsn, hdata⟩ := h
  simp only [ToLower, TrimSpace] at hdata
  obtain ⟨a, b, hp, ha, hb⟩ := trim_decomposition p.data
  obtain ⟨o', rest, hcore, hmo, hmrest⟩ := List.map_eq_append_iff.1 hdata
  obtain ⟨c, n', hrest, hc, hmn⟩ := List.map_eq_cons_iff.1 hmrest
  have hc' : c = '/' := (hlower c).1 hc
  have hnoslash : ∀ (l : List Char), '/' ∉ l.map env.unicodeToLower → '/' ∉ l := by
    intro l hl hmem
    exact hl (List.mem_map.2 ⟨'/', hmem, (hlower '/').2 rfl⟩)
  have hspace : ∀ l : List Char, (∀ c ∈ l, isSpace c = true) → '/' ∉ l := by
    intro l hl hmem
    have := hl '/' hmem
    revert this
    decide
  refine ⟨a ++ o', n' ++ b, ?_, ?_, ?_, ?_, ?_⟩
  · intro e
    have : o' = [] := (List.append_eq_nil.1 e).2
    exact ho (by rw [← hmo, this]; rfl)
  · intro e
    have : n' = [] := (List.append_eq_nil.1 e).1
    exact hn (by rw [← hmn, this]; rfl)
  · intro hmem
    rcases List.mem_append.1 hmem with hmem | hmem
    · exact hspace a ha hmem
    · exact hnoslash o' (hmo ▸ hso) hmem
  · intro hmem
    rcases List.mem_append.1 hmem with hmem | hmem
    · exact hnoslash n' (hmn ▸ hsn) hmem
    · exact hspace b hb hmem
  · rw [hp, hcore, hrest, hc']
    simp

/-- C9: `ValidateRepoName` returns an error exactly when the name does not split on
the slash into two segments that are both non-empty (no slash, more than one slash,
an empty owner or an empty name are all refused); and when the name the handler
`GetCommits` validates (the query parameter, trimmed and lower-cased) is malformed,
the handler answers with an invalid-request response and the state is the one it
started from: no call to the service or the store was made.  The same holds when
the query parameter itself is malformed, lower-casing leaving the slash alone. -/
theorem ValidateRepoName_and_GetCommits :
    (∀ repoName : String, ValidateRepoName repoName = none ↔ WellFormedRepoName repoName)
    ∧ (ValidateRepoName "owner/name" = none ∧ ValidateRepoName "name" ≠ none
        ∧ ValidateRepoName "a/b/c" ≠ none ∧ ValidateRepoName "/name" ≠ none
        ∧ ValidateRepoName "owner/" ≠ none ∧ ValidateRepoName "" ≠ none)
    ∧ (∀ (env : Env) (s : State) (repoNameParam limitStr offsetStr : String),
        ¬ WellFormedRepoName (ToLower env (TrimSpace repoNameParam)) →
        (∃ msg, (Server.GetCommits env s repoNameParam limitStr offsetStr).1
            = some (Response.InvalidRequest msg))
        ∧ (Server.GetCommits env s repoNameParam limitStr offsetStr).2 = s)
    ∧ (∀ (env : Env) (s : State) (repoNameParam limitStr offsetStr : String),
        (∀ c, env.unicodeToLower c = '/' ↔ c = '/') →
        ¬ WellFormedRepoName repoNameParam →
        (∃ msg, (Server.GetCommits env s repoNameParam limitStr offsetStr).1
            = some (Response.InvalidRequest msg))
        ∧ (Server.GetCommits env s repoNameParam limitStr offsetStr).2 = s) := by
  have hnorm : ∀ (env : Env) (s : State) (p l o : String),
      ¬ WellFormedRepoName (ToLower env (TrimSpace p)) →
      (∃ msg, (Server.GetCommits env s p l o).1 = some (Response.InvalidRequest msg))
      ∧ (Server.GetCommits env s p l o).2 = s := by
    intro env s p l o hbad
    have hv : ValidateRepoName (ToLower env (TrimSpace p)) ≠ none := fun h =>
      hbad ((ValidateRepoName_eq_none_iff _).1 h)
    by_cases hempty : ToLower env (TrimSpace p) = ""
    · simp [Server.GetCommits, hempty]
    · cases hval : ValidateRepoName (ToLower env (TrimSpace p)) with
      | none => exact absurd hval hv
      | some err => simp [Server.GetCommits, hempty, hval]
  refine ⟨ValidateRepoName_eq_none_iff, by decide, hnorm, ?_⟩
  intro env s p l o hlower hbad
  exact hnorm env s p l o fun h => hbad (wellFormed_of_normalized env p hlower h)

/-! ### C10: a failing `CreateRepository` -/

/-- C10 fails on the code: the name is not in the store and the INSERT of
`CreateRepository` fails with "connection refused".  `getRepositoryID` returns the
empty identifier and sends no signal, as claimed, but the error it returns wraps
`ErrRecordNotFound`, the outcome of the lookup, and not the failure of the creation
(github_repo.go:48 wraps `err` where `rpErr` is meant). -/
theorem getRepositoryID_wraps_lookup_error :
    (getRepositoryID createFailsEnv emptyState "o/r").1
      = some ("", some (Err.wrapped "error creating repository" Err.ErrRecordNotFound))
    ∧ (Repository.CreateRepository createFailsEnv
        (Repository.GetRepositoryByName createFailsEnv emptyState "o/r").2 "o/r").1.2
      = some (Err.wrapped "could not insert repository" (Err.other "connection refused"))
    ∧ (getRepositoryID createFailsEnv emptyState "o/r").2.eventsAfter emptyState
      = [Event.GetRepositoryByName "o/r", Event.CreateRepository "u" "o/r"]
    ∧ (getRepositoryID createFailsEnv emptyState "o/r").2.newRepo = []
    ∧ (getRepositoryID createFailsEnv emptyState "o/r").2.repository = [] := by
  refine ⟨?_, ?_, ?_, ?_, ?_⟩ <;> decide

/-! ### The metadata step in any outside world -/

/-- One metadata fetch adds at most its own request to the trace and nothing else. -/
theorem fetchRepoData_frame (env : Env) (s : State) (repoName : String) :
    (fetchRepoData env s repoName).2 = s
    ∨ (fetchRepoData env s repoName).2 = s.httpCall (Event.fetchRepoData repoName) := by
  unfold fetchRepoData
  cases env.newRequestErr repoName with
  | some e => exact Or.inl rfl
  | none =>
    right
    cases env.repoReply s.httpCalls repoName with
    | doErr e => rfl
    | resp statusCode status body =>
      by_cases h403 : statusCode = 403
      · simp [h403]
      · by_cases h200 : statusCode = 200
        · cases body <;> simp [h200]
        · simp [h403, h200]

/-- What `fetchRepoWithRetry` does in any outside world: fetches and waits only, the
store untouched; an error it returns is the cancellation of a wait, after which
nothing else was done, or wraps a failure of the fetch that is no rate limit. -/
theorem fetchRepoWithRetryLoop_frame (env : Env) (repoName : String) :
    ∀ (fuel : Nat) (s : State) (b : Duration),
      (∃ evs, (fetchRepoWithRetryLoop env repoName fuel s b).2.trace = s.trace ++ evs
        ∧ ∀ e ∈ evs, FetchOrWait repoName e)
      ∧ (fetchRepoWithRetryLoop env repoName fuel s b).2.repository = s.repository
      ∧ (fetchRepoWithRetryLoop env repoName fuel s b).2.commits = s.commits
      ∧ (fetchRepoWithRetryLoop env repoName fuel s b).2.newRepo = s.newRepo
      ∧ (fetchRepoWithRetryLoop env repoName fuel s b).2.storeCalls = s.storeCalls
      ∧ (∀ e, (fetchRepoWithRetryLoop env repoName fuel s b).1 = some (.error e) →
          (e = Err.ctxErr ∧ ∃ (s1 : State) (d : Duration), (fetchRepoWithRetryLoop env repoName fuel s b).2
              = s1.backoffWait d ∧ env.ctxDone s1.waits = true)
          ∨ ∃ err, e = Err.wrapped "error fetching repo metadata" err
              ∧ err.Is Err.ErrRateLimitReached = false) := by
  intro fuel
  induction fuel with
  | zero =>
    intro s b
    exact ⟨⟨[], by simp [fetchRepoWithRetryLoop], by simp⟩, rfl, rfl, rfl, rfl,
      fun e h => by simp [fetchRepoWithRetryLoop] at h⟩
  | succ fuel ih =>
    intro s b
    have hf := fetchRepoData_frame env s repoName
    rcases hp : fetchRepoData env s repoName with ⟨r, s1⟩
    rw [hp] at hf
    simp only at hf
    have hs1 : (∃ evs, s1.trace = s.trace ++ evs ∧ ∀ e ∈ evs, FetchOrWait repoName e)
        ∧ s1.repository = s.repository ∧ s1.commits = s.commits ∧ s1.newRepo = s.newRepo
        ∧ s1.storeCalls = s.storeCalls := by
      rcases hf with rfl | rfl
      · exact ⟨⟨[], by simp, by simp⟩, rfl, rfl, rfl, rfl⟩
      · exact ⟨⟨[Event.fetchRepoData repoName], rfl, by simp [FetchOrWait]⟩, rfl, rfl, rfl, rfl⟩
    obtain ⟨⟨evs, ht, hev⟩, hr, hc, hn, hsc⟩ := hs1
    cases r with
    | ok ghRepo =>
      have e1 : fetchRepoWithRetryLoop env repoName (fuel + 1) s b = (some (.ok ghRepo), s1) := by
        simp [fetchRepoWithRetryLoop, hp]
      rw [e1]
      exact ⟨⟨evs, ht, hev⟩, hr, hc, hn, hsc, fun e h => by simp at h⟩
    | error err =>
      by_cases hrl : err.Is Err.ErrRateLimitReached = true
      · by_cases hdone : env.ctxDone s1.waits = true
        · have e1 : fetchRepoWithRetryLoop env repoName (fuel + 1) s b =
              (some (.error Err.ctxErr), s1.backoffWait (wrapInt64 (b * 2))) := by
            simp [fetchRepoWithRetryLoop, hp, hrl, hdone]
          rw [e1]
          refine ⟨⟨evs ++ [Event.backoff (wrapInt64 (b * 2))], by simp [State.backoffWait, ht],
            ?_⟩, hr, hc, hn, hsc, ?_⟩
          · intro e he
            rcases List.mem_append.1 he with he | he
            · exact hev e he
            · simp at he; exact Or.inr ⟨_, he⟩
          · intro e h
            simp only [Option.some.injEq, Except.error.injEq] at h
            exact Or.inl ⟨h.symm, s1, _, rfl, hdone⟩
        · obtain ⟨⟨evs2, ht2, hev2⟩, hr2, hc2, hn2, hsc2, herr2⟩ :=
            ih (s1.backoffWait (wrapInt64 (b * 2))) (wrapInt64 (b * 2))
          have e1 : fetchRepoWithRetryLoop env repoName (fuel + 1) s b =
              fetchRepoWithRetryLoop env repoName fuel (s1.backoffWait (wrapInt64 (b * 2)))
                (wrapInt64 (b * 2)) := by
            simp [fetchRepoWithRetryLoop, hp, hrl, hdone]
          rw [e1]
          refine ⟨⟨evs ++ Event.backoff (wrapInt64 (b * 2)) :: evs2, ?_, ?_⟩, hr2.trans hr,
            hc2.trans hc, hn2.trans hn, hsc2.trans hsc, herr2⟩
          · rw [ht2]; simp [State.backoffWait, ht]
          · intro e he
            rcases List.mem_append.1 he with he | he
            · exact hev e he
            · rcases List.mem_cons.1 he with he | he
              · exact Or.inr ⟨_, he⟩
              · exact hev2 e he
      · have e1 : fetchRepoWithRetryLoop env repoName (fuel + 1) s b =
            (some (.error (Err.wrapped "error fetching repo metadata" err)), s1) := by
          simp [fetchRepoWithRetryLoop, hp, hrl]
        rw [e1]
        refine ⟨⟨evs, ht, hev⟩, hr, hc, hn, hsc, ?_⟩
        intro e h
        simp only [Option.some.injEq, Except.error.injEq] at h
        exact Or.inr ⟨err, h.symm, by simpa using hrl⟩

/-- When the metadata step ends in an error, `trackRepo` returns it wrapped and stops
in the state the fetch left. -/
theorem trackRepo_of_fetch_error (env : Env) (fuel : Nat) (s : State) (repo : GithubRepository)
    (e : Err) (h : (fetchRepoWithRetry env fuel s repo.RepositoryName).1 = some (.error e)) :
    trackRepo env fuel s repo =
      (some (.err (Err.wrapped "failed tracking repo metadata"
        (Err.wrapped "error fetching commits with retry mechanism" e))),
       (fetchRepoWithRetry env fuel s repo.RepositoryName).2) := by
  rcases hp : fetchRepoWithRetry env fuel s repo.RepositoryName with ⟨r, s1⟩
  rw [hp] at h
  simp only at h
  subst h
  simp [trackRepo, updateRepoInformation, hp]

/-- A first fetch that fails otherwise than by the rate limit ends the retry loop. -/
theorem fetchRepoWithRetry_of_fetch_failure (env : Env) (fuel : Nat) (s : State)
    (repoName : String) (err : Err) (hfuel : 0 < fuel)
    (hfail : (fetchRepoData env s repoName).1 = .error err)
    (hnot : err.Is Err.ErrRateLimitReached = false) :
    fetchRepoWithRetry env fuel s repoName =
      (some (.error (Err.wrapped "error fetching repo metadata" err)),
       (fetchRepoData env s repoName).2) := by
  obtain ⟨f, rfl⟩ : ∃ f, fuel = f + 1 := ⟨fuel - 1, by omega⟩
  rcases hp : fetchRepoData env s repoName with ⟨r, s1⟩
  rw [hp] at hfail
  simp only at hfail
  subst hfail
  simp [fetchRepoWithRetry, fetchRepoWithRetryLoop, hp, hnot]

/-- After `k` rounds answered 403 and not cancelled, a fetch that fails otherwise
ends `fetchRepoWithRetry` with that failure wrapped. -/
theorem fetchRepoWithRetryLoop_fails_after (env : Env) (repoName : String) (err : Err)
    (hnot : err.Is Err.ErrRateLimitReached = false) :
    ∀ (k fuel : Nat) (s : State) (b : Duration),
      (∀ i, i < k → ∃ status body,
        env.repoReply (s.httpCalls + i) repoName = HttpReply.resp 403 status body) →
      (0 < k → env.newRequestErr repoName = none) →
      (∀ i, i < k → env.ctxDone (s.waits + i) = false) →
      (∀ s' : State, s'.httpCalls = s.httpCalls + k →
        (fetchRepoData env s' repoName).1 = .error err) →
      k < fuel →
      (fetchRepoWithRetryLoop env repoName fuel s b).1
        = some (.error (Err.wrapped "error fetching repo metadata" err)) := by
  intro k
  induction k with
  | zero =>
    intro fuel s b _ _ _ hfail hfuel
    obtain ⟨f, rfl⟩ : ∃ f, fuel = f + 1 := ⟨fuel - 1, by omega⟩
    rcases hp : fetchRepoData env s repoName with ⟨r, s1⟩
    have hr := hfail s rfl
    rw [hp] at hr
    simp only at hr
    subst hr
    simp [fetchRepoWithRetryLoop, hp, hnot]
  | succ k ih =>
    intro fuel s b h403 hurl hctx hfail hfuel
    obtain ⟨f, rfl⟩ : ∃ f, fuel = f + 1 := ⟨fuel - 1, by omega⟩
    obtain ⟨status, body, h0⟩ := h403 0 (by omega)
    simp only [Nat.add_zero] at h0
    have hurl' := hurl (by omega)
    have hc0 := hctx 0 (by omega)
    simp only [Nat.add_zero] at hc0
    have e1 : fetchRepoWithRetryLoop env repoName (f + 1) s b =
        fetchRepoWithRetryLoop env repoName f
          ((s.httpCall (Event.fetchRepoData repoName)).backoffWait (wrapInt64 (b * 2)))
          (wrapInt64 (b * 2)) := by
      simp [fetchRepoWithRetryLoop, fetchRepoData, hurl', h0, Err.Is, State.httpCall, hc0]
    rw [e1]
    apply ih
    · intro i hi
      obtain ⟨st, bd, h⟩ := h403 (i + 1) (by omega)
      exact ⟨st, bd, by simpa [State.httpCall, State.backoffWait, Nat.add_assoc, Nat.add_comm 1]
        using h⟩
    · exact fun _ => hurl'
    · intro i hi
      have := hctx (i + 1) (by omega)
      simpa [State.httpCall, State.backoffWait, Nat.add_assoc, Nat.add_comm 1] using this
    · intro s' hs'
      apply hfail
      simp only [State.httpCall, State.backoffWait] at hs'
      omega
    · omega

/-! ### C11: a metadata fetch that fails -/

/-- C11: when a metadata fetch of a run of `trackRepo` fails with an error that is not
the rate limit (the first fetch, or a later one after `k` rounds that were answered
403 and waited out), `trackRepo` returns an error that wraps that failure, and the
run has made no call but metadata fetches and backoff waits: `UpdateRepository` is
not called, no commit page is requested, no commit is saved and no mark is written;
the two tables are as before and no store statement was issued. -/
theorem trackRepo_metadata_failure (env : Env) (fuel : Nat) (s : State)
    (repo : GithubRepository) (err : Err) (k : Nat)
    (h403 : ∀ i, i < k → ∃ status body,
      env.repoReply (s.httpCalls + i) repo.RepositoryName = HttpReply.resp 403 status body)
    (hurl : 0 < k → env.newRequestErr repo.RepositoryName = none)
    (hctx : ∀ i, i < k → env.ctxDone (s.waits + i) = false)
    (hfail : ∀ s' : State, s'.httpCalls = s.httpCalls + k →
      (fetchRepoData env s' repo.RepositoryName).1 = .error err)
    (hnot : err.Is Err.ErrRateLimitReached = false)
    (hfuel : k < fuel) :
    (trackRepo env fuel s repo).1 = some (.err (Err.wrapped "failed tracking repo metadata"
      (Err.wrapped "error fetching commits with retry mechanism"
        (Err.wrapped "error fetching repo metadata" err))))
    ∧ (∀ e ∈ (trackRepo env fuel s repo).2.eventsAfter s, FetchOrWait repo.RepositoryName e)
    ∧ (trackRepo env fuel s repo).2.repository = s.repository
    ∧ (trackRepo env fuel s repo).2.commits = s.commits
    ∧ (trackRepo env fuel s repo).2.storeCalls = s.storeCalls := by
  have h1 : (fetchRepoWithRetry env fuel s repo.RepositoryName).1
      = some (.error (Err.wrapped "error fetching repo metadata" err)) :=
    fetchRepoWithRetryLoop_fails_after env repo.RepositoryName err hnot k fuel s
      defaultBackoffDuration h403 hurl hctx hfail hfuel
  obtain ⟨⟨evs, ht, hev⟩, hr, hc, -, hsc, -⟩ := fetchRepoWithRetryLoop_frame env
    repo.RepositoryName fuel s defaultBackoffDuration
  rw [trackRepo_of_fetch_error env fuel s repo _ h1]
  refine ⟨rfl, ?_, hr, hc, hsc⟩
  have : (fetchRepoWithRetry env fuel s repo.RepositoryName).2.eventsAfter s = evs :=
    since_of_trace _ _ _ ht
  simp only
  rw [this]
  exact hev

/-- C11 at a concrete input: a 403, a wait, then a 404. -/
theorem trackRepo_metadata_failure_witness :
    (trackRepo metadataNotFoundEnv 2 trackedState sampleRepo).1
      = some (.err (Err.wrapped "failed tracking repo metadata"
          (Err.wrapped "error fetching commits with retry mechanism"
            (Err.wrapped "error fetching repo metadata"
              (Err.other "failed to fetch commits: 404 Not Found")))))
    ∧ (∀ e ∈ (trackRepo metadataNotFoundEnv 2 trackedState sampleRepo).2.eventsAfter trackedState,
        FetchOrWait sampleRepo.RepositoryName e)
    ∧ (trackRepo metadataNotFoundEnv 2 trackedState sampleRepo).2.repository
        = trackedState.repository
    ∧ (trackRepo metadataNotFoundEnv 2 trackedState sampleRepo).2.commits = trackedState.commits
    ∧ (trackRepo metadataNotFoundEnv 2 trackedState sampleRepo).2.storeCalls
        = trackedState.storeCalls :=
  trackRepo_metadata_failure metadataNotFoundEnv 2 trackedState sampleRepo
    (Err.other "failed to fetch commits: 404 Not Found") 1
    (fun i hi => ⟨"403 Forbidden", .error (Err.other "no body"), by
      simp [metadataNotFoundEnv, trackedState, emptyState, Nat.lt_one_iff.1 hi]⟩)
    (fun _ => rfl) (fun _ _ => rfl)
    (fun s' hs' => by
      simp [fetchRepoData, metadataNotFoundEnv, quietEnv, State.httpCall, hs', trackedState,
        emptyState])
    rfl (by decide)

/-! ### C12: the periodic pass -/

/-- The loop over the repositories has no way to return an error. -/
theorem trackAllReposLoop_never_errors (env : Env) (fuel : Nat) :
    ∀ (repos : List GithubRepository) (s : State) (e : Err),
      (trackAllReposLoop env fuel repos s).1 ≠ some (.err e) := by
  intro repos
  induction repos with
  | nil => intro s e; simp [trackAllReposLoop]
  | cons repo rest ih =>
    intro s e
    rcases hp : trackRepo env fuel s repo with ⟨r, s1⟩
    cases r with
    | none => simp [trackAllReposLoop, hp]
    | some r =>
      cases r with
      | crash => simp [trackAllReposLoop, hp]
      | ok u => simpa [trackAllReposLoop, hp] using ih s1 e
      | err e' => simpa [trackAllReposLoop, hp] using ih s1 e

/-- When every run returns, the loop does one run for each repository, in order. -/
theorem trackAllReposLoop_runs_all (env : Env) (fuel : Nat) :
    ∀ (repos : List GithubRepository) (s : State), RunsReturn env fuel repos s →
      trackAllReposLoop env fuel repos s = (some (.ok ()), afterRuns env fuel repos s) := by
  intro repos
  induction repos with
  | nil => intro s _; rfl
  | cons repo rest ih =>
    intro s h
    obtain ⟨⟨r, hr, hnc⟩, hrest⟩ := h
    rcases hp : trackRepo env fuel s repo with ⟨r', s1⟩
    rw [hp] at hr hrest
    simp only at hr hrest
    subst hr
    have hs1 : afterRuns env fuel (repo :: rest) s = afterRuns env fuel rest s1 := by
      simp [afterRuns, hp]
    rw [hs1, ← ih s1 hrest]
    cases r with
    | crash => exact absurd rfl hnc
    | ok u => simp [trackAllReposLoop, hp]
    | err e => simp [trackAllReposLoop, hp]

/-- The pass over runs that return.  (1) `trackAllRepos` never returns an error.
(2) When the store lists the repositories and every run returns, with nil or with an
error of any kind, the pass returns nil and its final state is the one reached by
running `trackRepo` once for each repository of the list, in list order, each run
starting where the one before ended, whichever of them failed.  (3) When the listing
fails (the not-found signal included) the pass returns nil having made the listing
call and nothing else; (4) the same for an empty list.  (5) At a concrete input: the
run of the first of two repositories fails on its metadata, and the second is still
fetched and synced. -/
theorem trackAllRepos_of_returning_runs :
    (∀ (env : Env) (fuel : Nat) (s : State) (e : Err),
      (trackAllRepos env fuel s).1 ≠ some (.err e))
    ∧ (∀ (env : Env) (fuel : Nat) (s : State) (repos : List GithubRepository),
        (Repository.GetRepositories env s).1 = .ok repos →
        RunsReturn env fuel repos (Repository.GetRepositories env s).2 →
        trackAllRepos env fuel s =
          (some (.ok ()), afterRuns env fuel repos (Repository.GetRepositories env s).2))
    ∧ (∀ (env : Env) (fuel : Nat) (s : State) (e : Err),
        (Repository.GetRepositories env s).1 = .error e →
        trackAllRepos env fuel s = (some (.ok ()), s.storeCall Event.GetRepositories))
    ∧ (∀ (env : Env) (fuel : Nat) (s : State),
        (Repository.GetRepositories env s).1 = .ok [] →
        trackAllRepos env fuel s = (some (.ok ()), s.storeCall Event.GetRepositories))
    ∧ ((trackAllRepos firstRepoFailsEnv 1 twoReposState).1 = some (.ok ())
        ∧ (trackRepo firstRepoFailsEnv 1 (twoReposState.storeCall Event.GetRepositories)
            otherRepo).1
          = some (.err (Err.wrapped "failed tracking repo metadata"
              (Err.wrapped "error fetching commits with retry mechanism"
                (Err.wrapped "error fetching repo metadata"
                  (Err.other "failed to fetch commits: 404 Not Found")))))
        ∧ metadataFetchesOf ((trackAllRepos firstRepoFailsEnv 1 twoReposState).2.eventsAfter
            twoReposState) = ["o/a", "o/r"]
        ∧ requestsOf ((trackAllRepos firstRepoFailsEnv 1 twoReposState).2.eventsAfter
            twoReposState) = [pageRequest "o/r" none 1]) := by
  have hstate : ∀ (env : Env) (s : State),
      (Repository.GetRepositories env s).2 = s.storeCall Event.GetRepositories := by
    intro env s
    unfold Repository.GetRepositories
    cases env.storeErr s.storeCalls <;> rfl
  refine ⟨?_, ?_, ?_, ?_, ?_⟩
  · intro env fuel s e
    rcases hp : Repository.GetRepositories env s with ⟨r, s1⟩
    cases r with
    | error e' => simp [trackAllRepos, hp]
    | ok repos =>
      simpa [trackAllRepos, hp] using trackAllReposLoop_never_errors env fuel repos s1 e
  · intro env fuel s repos hok hruns
    rcases hp : Repository.GetRepositories env s with ⟨r, s1⟩
    rw [hp] at hok hruns
    simp only at hok hruns
    subst hok
    simpa [trackAllRepos, hp] using trackAllReposLoop_runs_all env fuel repos s1 hruns
  · intro env fuel s e herr
    have hs := hstate env s
    rcases hp : Repository.GetRepositories env s with ⟨r, s1⟩
    rw [hp] at herr hs
    simp only at herr hs
    subst herr hs
    simp [trackAllRepos, hp]
  · intro env fuel s hok
    have hs := hstate env s
    rcases hp : Repository.GetRepositories env s with ⟨r, s1⟩
    rw [hp] at hok hs
    simp only at hok hs
    subst hok hs
    simp [trackAllRepos, hp, trackAllReposLoop]
  · refine ⟨rfl, rfl, ?_, ?_⟩ <;> decide

/-- C12 fails on the code: the store lists `o/a` and `o/r`, neither has a high-water
mark, no default start date is configured, the metadata requests succeed and the
commit page requests are answered 403.  The run of `o/a` is rate limited on its
first commit page and panics (nil dereference in the log call of the rate-limit
branch, watcher.go:279); the panic ends the pass, which returns nothing, and `o/r`,
later in the list, is never attempted: the pass made the listing call, the metadata
request and update of `o/a`, one commit page request for `o/a` and nothing else. -/
theorem trackAllRepos_panic_ends_pass :
    (Repository.GetRepositories rateLimitedCommitsEnv twoReposState).1.toOption.map
        (fun repos => repos.map fun r => (r.RepositoryName, r.CommitLastPulledTime))
      = some [("o/a", none), ("o/r", none)]
    ∧ rateLimitedCommitsEnv.commitSinceDate = 0
    ∧ (trackAllRepos rateLimitedCommitsEnv 5 twoReposState).1 = some .crash
    ∧ metadataFetchesOf ((trackAllRepos rateLimitedCommitsEnv 5 twoReposState).2.eventsAfter
        twoReposState) = ["o/a"]
    ∧ requestsOf ((trackAllRepos rateLimitedCommitsEnv 5 twoReposState).2.eventsAfter
        twoReposState) = [pageRequest "o/a" none 1]
    ∧ ((trackAllRepos rateLimitedCommitsEnv 5 twoReposState).2.eventsAfter
        twoReposState).length = 4
    ∧ backoffsOf ((trackAllRepos rateLimitedCommitsEnv 5 twoReposState).2.eventsAfter
        twoReposState) = [] := by
  refine ⟨?_, rfl, rfl, ?_, ?_, ?_, ?_⟩ <;> decide

/-! ### C13: cancellation during a backoff wait -/

/-- A run of `trackCommits` that returns the cancellation error ended in a cancelled
wait: its final state is the state at the start of that wait plus the wait. -/
theorem trackCommitsLoop_cancelled (env : Env) (repo : GithubRepository) (since : Option Time) :
    ∀ (fuel : Nat) (s : State) (page : Nat) (b : Duration),
      (trackCommitsLoop env repo since fuel s page b).1 = some (.err Err.ctxErr) →
      ∃ (s1 : State) (d : Duration),
        (trackCommitsLoop env repo since fuel s page b).2 = s1.backoffWait d
        ∧ env.ctxDone s1.waits = true := by
  intro fuel
  induction fuel with
  | zero => intro s page b h; simp [trackCommitsLoop] at h
  | succ fuel ih =>
    intro s page b
    rcases hp : processUntrackedCommits env s repo.ID repo.RepositoryName page since with ⟨r, s1⟩
    cases r with
    | error err =>
      by_cases hrl : err.Is Err.ErrRateLimitReached = true
      · cases since with
        | none =>
          intro h
          simp [trackCommitsLoop, hp, hrl] at h
        | some t =>
          by_cases hdone : env.ctxDone s1.waits = true
          · have e1 : trackCommitsLoop env repo (some t) (fuel + 1) s page b =
                (some (.err Err.ctxErr), s1.backoffWait (wrapInt64 (b * 2))) := by
              simp [trackCommitsLoop, hp, hrl, hdone]
            rw [e1]
            exact fun _ => ⟨s1, _, rfl, hdone⟩
          · have e1 : trackCommitsLoop env repo (some t) (fuel + 1) s page b =
                trackCommitsLoop env repo (some t) fuel (s1.backoffWait (wrapInt64 (b * 2)))
                  page (wrapInt64 (b * 2)) := by
              simp [trackCommitsLoop, hp, hrl, hdone]
            rw [e1]
            exact ih _ _ _
      · intro h
        simp [trackCommitsLoop, hp, hrl] at h
    | ok n =>
      by_cases hlt : n < githubCommitsMaxRecordsPerPage
      · intro h
        simp [trackCommitsLoop, hp, hlt] at h
      · have e1 : trackCommitsLoop env repo since (fuel + 1) s page b =
            trackCommitsLoop env repo since fuel s1 (page + 1) b := by
          simp [trackCommitsLoop, hp, hlt]
        rw [e1]
        exact ih _ _ _

/-- C13: (1) in `fetchRepoWithRetry` and (2) in `trackCommits`, at any round of the
loop, when the fetch was rate-limited and the cancellation branch of the wait is
taken, the function returns the cancellation error of the context, and its final
state is the state in which the wait began plus the wait itself: (3) same tables,
same queue, no further request and no store statement.  (4, 5) Conversely a run of
either function that returns the cancellation error ended in such a cancelled wait,
so nothing was done after it.  (6, 7) `trackRepo` then returns that error wrapped and
does nothing more: after a cancelled metadata wait neither `UpdateRepository` nor
`trackCommits` runs.  (8) The cancellation error is not the rate-limit error; two
concrete runs. -/
theorem cancellation_aborts_run :
    (∀ (env : Env) (repoName : String) (fuel : Nat) (s : State) (b : Duration) (err : Err),
      (fetchRepoData env s repoName).1 = .error err →
      err.Is Err.ErrRateLimitReached = true →
      env.ctxDone (fetchRepoData env s repoName).2.waits = true →
      fetchRepoWithRetryLoop env repoName (fuel + 1) s b =
        (some (.error Err.ctxErr),
          (fetchRepoData env s repoName).2.backoffWait (wrapInt64 (b * 2))))
    ∧ (∀ (env : Env) (repo : GithubRepository) (t : Time) (fuel : Nat) (s : State) (page : Nat)
        (b : Duration) (err : Err),
      (processUntrackedCommits env s repo.ID repo.RepositoryName page (some t)).1 = .error err →
      err.Is Err.ErrRateLimitReached = true →
      env.ctxDone (processUntrackedCommits env s repo.ID repo.RepositoryName page
        (some t)).2.waits = true →
      trackCommitsLoop env repo (some t) (fuel + 1) s page b =
        (some (.err Err.ctxErr),
          (processUntrackedCommits env s repo.ID repo.RepositoryName page
            (some t)).2.backoffWait (wrapInt64 (b * 2))))
    ∧ (∀ (s1 : State) (d : Duration),
        (s1.backoffWait d).trace = s1.trace ++ [Event.backoff d]
        ∧ (s1.backoffWait d).repository = s1.repository
        ∧ (s1.backoffWait d).commits = s1.commits
        ∧ (s1.backoffWait d).newRepo = s1.newRepo
        ∧ (s1.backoffWait d).httpCalls = s1.httpCalls
        ∧ (s1.backoffWait d).storeCalls = s1.storeCalls)
    ∧ (∀ (env : Env) (fuel : Nat) (s : State) (repoName : String),
        (fetchRepoWithRetry env fuel s repoName).1 = some (.error Err.ctxErr) →
        ∃ (s1 : State) (d : Duration),
          (fetchRepoWithRetry env fuel s repoName).2 = s1.backoffWait d
          ∧ env.ctxDone s1.waits = true)
    ∧ (∀ (env : Env) (fuel : Nat) (s : State) (repo : GithubRepository),
        (trackCommits env fuel s repo).1 = some (.err Err.ctxErr) →
        ∃ (s1 : State) (d : Duration),
          (trackCommits env fuel s repo).2 = s1.backoffWait d ∧ env.ctxDone s1.waits = true)
    ∧ (∀ (env : Env) (fuel : Nat) (s : State) (repo : GithubRepository),
        (fetchRepoWithRetry env fuel s repo.RepositoryName).1 = some (.error Err.ctxErr) →
        trackRepo env fuel s repo =
          (some (.err (Err.wrapped "failed tracking repo metadata"
            (Err.wrapped "error fetching commits with retry mechanism" Err.ctxErr))),
           (fetchRepoWithRetry env fuel s repo.RepositoryName).2))
    ∧ (∀ (env : Env) (fuel : Nat) (s s1 : State) (repo repo1 : GithubRepository),
        updateRepoInformation env fuel s repo = (some (.ok ()), repo1, s1) →
        (trackCommits env fuel s1 repo1).1 = some (.err Err.ctxErr) →
        trackRepo env fuel s repo =
          (some (.err (Err.wrapped "failed tracking commits" Err.ctxErr)),
           (trackCommits env fuel s1 repo1).2))
    ∧ (Err.ctxErr.Is Err.ErrRateLimitReached = false
        ∧ (fetchRepoWithRetry cancelledEnv 5 trackedState "o/r").1 = some (.error Err.ctxErr)
        ∧ (fetchRepoWithRetry cancelledEnv 5 trackedState "o/r").2.eventsAfter trackedState
            = [Event.fetchRepoData "o/r", Event.backoff (2 * Minute)]
        ∧ (trackCommits cancelledEnv 5 trackedState markedRepo).1 = some (.err Err.ctxErr)
        ∧ (trackCommits cancelledEnv 5 trackedState markedRepo).2.eventsAfter trackedState
            = [Event.fetchCommits (pageRequest "o/r" (some 9) 1), Event.backoff (2 * Minute)]
        ∧ (trackCommits cancelledEnv 5 trackedState markedRepo).2.repository
            = trackedState.repository) := by
  refine ⟨?_, ?_, ?_, ?_, ?_, ?_, ?_, ?_⟩
  · intro env repoName fuel s b err herr hrl hdone
    rcases hp : fetchRepoData env s repoName with ⟨r, s1⟩
    rw [hp] at herr hdone
    simp only at herr hdone
    subst herr
    simp [fetchRepoWithRetryLoop, hp, hrl, hdone]
  · intro env repo t fuel s page b err herr hrl hdone
    rcases hp : processUntrackedCommits env s repo.ID repo.RepositoryName page (some t)
      with ⟨r, s1⟩
    rw [hp] at herr hdone
    simp only at herr hdone
    subst herr
    simp [trackCommitsLoop, hp, hrl, hdone]
  · intro s1 d
    exact ⟨rfl, rfl, rfl, rfl, rfl, rfl⟩
  · intro env fuel s repoName h
    obtain ⟨-, -, -, -, -, herr⟩ := fetchRepoWithRetryLoop_frame env repoName fuel s
      defaultBackoffDuration
    rcases herr Err.ctxErr h with ⟨-, s1, d, hs, hd⟩ | ⟨err, he, -⟩
    · exact ⟨s1, d, hs, hd⟩
    · simp at he
  · intro env fuel s repo h
    exact trackCommitsLoop_cancelled env repo (trackCommitsSince env repo) fuel s 1
      defaultBackoffDuration h
  · intro env fuel s repo h
    exact trackRepo_of_fetch_error env fuel s repo Err.ctxErr h
  · intro env fuel s s1 repo repo1 hup hc
    rcases hp : trackCommits env fuel s1 repo1 with ⟨r, s2⟩
    rw [hp] at hc
    simp only at hc
    subst hc
    simp [trackRepo, hup, hp]
  · refine ⟨rfl, rfl, ?_, rfl, ?_, ?_⟩ <;> decide

/-! ### C14: the leaderboard request -/

/-- The rune of a decimal digit. -/
theorem digitChar_toNat (d : Nat) (h : d < 10) : (Char.ofNat (48 + d)).toNat = 48 + d := by
  interval_cases d <;> rfl

/-- Reading one more digit at the end. -/
theorem digitsValue_append (c : Char) :
    ∀ (xs : List Char) (acc : Nat),
      digitsValue acc (xs ++ [c]) =
        (digitsValue acc xs).bind fun v =>
          if 48 ≤ c.toNat ∧ c.toNat ≤ 57 then some (v * 10 + (c.toNat - 48)) else none := by
  intro xs
  induction xs with
  | nil =>
    intro acc
    by_cases h : 48 ≤ c.toNat ∧ c.toNat ≤ 57 <;> simp [digitsValue, h]
  | cons x xs ih =>
    intro acc
    by_cases h : 48 ≤ x.toNat ∧ x.toNat ≤ 57
    · simp only [List.cons_append, digitsValue, h, and_self, if_true]
      exact ih _
    · simp [digitsValue, h]

/-- Reading the digits of a number, most significant first, gives the number. -/
theorem digitsValue_digits :
    ∀ ds : List Nat, (∀ d ∈ ds, d < 10) →
      digitsValue 0 (ds.reverse.map fun d => Char.ofNat (48 + d)) = some (Nat.ofDigits 10 ds) := by
  intro ds
  induction ds with
  | nil => intro _; rfl
  | cons d ds ih =>
    intro h
    have hd : d < 10 := h d (by simp)
    have ih' := ih fun x hx => h x (by simp [hx])
    have ht := digitChar_toNat d hd
    simp only [List.reverse_cons, List.map_append, List.map_cons, List.map_nil,
      digitsValue_append, ih', Option.some_bind, ht]
    have : 48 ≤ 48 + d ∧ 48 + d ≤ 57 := ⟨by omega, by omega⟩
    simp only [this, and_self, if_true, Nat.ofDigits_cons, Option.some.injEq]
    omega

/-- `strconv.Atoi` reads the decimal digits of a positive int back. -/
theorem Atoi_decimal (n : Nat) (hpos : 0 < n) (hmax : n < 2 ^ 63) :
    Atoi (decimal n) = some (n : Int) := by
  have hlt : ∀ d ∈ Nat.digits 10 n, d < 10 := fun d hd => Nat.digits_lt_base (by decide) hd
  have hval := digitsValue_digits (Nat.digits 10 n) hlt
  rw [Nat.ofDigits_digits] at hval
  have hne : Nat.digits 10 n ≠ [] := Nat.digits_ne_nil_iff_ne_zero.2 (by omega)
  obtain ⟨c, rest, hdata⟩ : ∃ c rest,
      ((Nat.digits 10 n).reverse.map fun d => Char.ofNat (48 + d)) = c :: rest := by
    cases hrev : (Nat.digits 10 n).reverse with
    | nil => exact absurd (List.reverse_eq_nil_iff.1 hrev) hne
    | cons d ds => exact ⟨_, _, rfl⟩
  have hc : 48 ≤ c.toNat := by
    have hmem : c ∈ ((Nat.digits 10 n).reverse.map fun d => Char.ofNat (48 + d)) := by
      rw [hdata]; simp
    obtain ⟨d, hd, rfl⟩ := List.mem_map.1 hmem
    rw [digitChar_toNat d (hlt d (List.mem_reverse.1 hd))]
    omega
  rw [hdata] at hval
  have hminus : c ≠ '-' := by
    intro e; rw [e] at hc; revert hc; decide
  have hplus : c ≠ '+' := by
    intro e; rw [e] at hc; revert hc; decide
  unfold Atoi decimal
  simp only [hdata]
  split
  · rename_i ds heq
    exact absurd (List.cons.inj heq).1 hminus
  · rename_i ds heq
    exact absurd (List.cons.inj heq).1 hplus
  · have hmax' : n < 9223372036854775808 := by simpa using hmax
    simp [hval, hmax']

/-- C14: for every positive limit `n` (an int) and every non-empty list of rows the
store yields for the leaderboard query with that limit, the parameter `limit=n`
reads back as `n`, and the handler, given those digits or any other spelling that
`strconv.Atoi` reads as `n`, makes one store call, `GetLeaderBoard` with exactly
`n`, and answers 200 with exactly the rows of the store: the same list, nothing
reordered, dropped or altered. -/
theorem GetLeaderBoard_passes_rows (env : Env) (s : State) (n : Nat)
    (hpos : 0 < n) (hmax : n < 2 ^ 63)
    (hstore : env.storeErr s.storeCalls = none)
    (hne : env.leaderBoardRows s.storeCalls (n : Int) ≠ []) :
    Atoi (decimal n) = some (n : Int)
    ∧ Server.GetLeaderBoard env s (decimal n) =
        (Response.JSONLeaderBoard 200 (env.leaderBoardRows s.storeCalls (n : Int)),
         s.storeCall (Event.GetLeaderBoard (n : Int)))
    ∧ ∀ countStr : String, Atoi countStr = some (n : Int) →
        Server.GetLeaderBoard env s countStr =
          (Response.JSONLeaderBoard 200 (env.leaderBoardRows s.storeCalls (n : Int)),
           s.storeCall (Event.GetLeaderBoard (n : Int))) := by
  have hall : ∀ countStr : String, Atoi countStr = some (n : Int) →
      Server.GetLeaderBoard env s countStr =
        (Response.JSONLeaderBoard 200 (env.leaderBoardRows s.storeCalls (n : Int)),
         s.storeCall (Event.GetLeaderBoard (n : Int))) := ?_
  · exact ⟨Atoi_decimal n hpos hmax, hall _ (Atoi_decimal n hpos hmax), hall⟩
  intro countStr hparse
  have hn : ¬ ((n : Int) ≤ 0) := by omega
  have hlen : (env.leaderBoardRows s.storeCalls (n : Int)).length ≠ 0 := by
    intro h; exact hne (List.length_eq_zero.1 h)
  simp [Server.GetLeaderBoard, hparse, hn, Service.GetLeaderBoard, Repository.GetLeaderBoard,
    hstore, hlen, hne]

/-- C14 at the input of the handler test: limit 2, rows user1 with 5 and user2 with 3. -/
theorem GetLeaderBoard_passes_rows_witness :
    Atoi (decimal 2) = some ((2 : Nat) : Int)
    ∧ Server.GetLeaderBoard leaderBoardEnv emptyState (decimal 2) =
        (Response.JSONLeaderBoard 200
          (leaderBoardEnv.leaderBoardRows emptyState.storeCalls ((2 : Nat) : Int)),
         emptyState.storeCall (Event.GetLeaderBoard ((2 : Nat) : Int)))
    ∧ ∀ countStr : String, Atoi countStr = some ((2 : Nat) : Int) →
        Server.GetLeaderBoard leaderBoardEnv emptyState countStr =
          (Response.JSONLeaderBoard 200
            (leaderBoardEnv.leaderBoardRows emptyState.storeCalls ((2 : Nat) : Int)),
           emptyState.storeCall (Event.GetLeaderBoard ((2 : Nat) : Int))) :=
  GetLeaderBoard_passes_rows leaderBoardEnv emptyState 2 (by decide) (by decide) rfl
    (by simp [leaderBoardEnv])

/-! ### C15: the run after an aborted run -/

/-- C15 fails on the code: the source holds 101 commits, newest first, and honours
the since filter.  The first run, started without a cursor, stores the page of the
100 newest commits, writes the mark 901 (the oldest of them) and aborts on the
request for page 2, answered 500.  The next run starts from the mark 901, is served
the same 100 commits and an empty page, and ends without error.  The commit dated
900, which the source holds, was never passed to `SaveCommit` and is not in the
commits table. -/
theorem aborted_run_loses_commits :
    (sampleHistory.Pairwise fun a b => b.Commit.Author.Date ≤ a.Commit.Author.Date)
    ∧ (trackCommits abortedRunEnv 5 trackedState sampleRepo).1
        = some (.err (Err.wrapped "error fetching commits"
            (Err.other "failed to fetch commits: 500 Internal Server Error")))
    ∧ (trackCommits abortedRunEnv 5 trackedState sampleRepo).2.commits.length = 100
    ∧ (trackCommits abortedRunEnv 5 trackedState sampleRepo).2.mark "id-1" = some 901
    ∧ (trackCommits abortedRunEnv 5 (trackCommits abortedRunEnv 5 trackedState sampleRepo).2
        { sampleRepo with CommitLastPulledTime := some 901 }).1 = some (.ok ())
    ∧ requestsOf ((trackCommits abortedRunEnv 5
        (trackCommits abortedRunEnv 5 trackedState sampleRepo).2
        { sampleRepo with CommitLastPulledTime := some 901 }).2.eventsAfter
          (trackCommits abortedRunEnv 5 trackedState sampleRepo).2)
        = [pageRequest "o/r" (some 901) 1, pageRequest "o/r" (some 901) 2]
    ∧ sampleCommit 100 ∈ sampleHistory
    ∧ (sampleCommit 100).SHA ∉ (savedOf (trackCommits abortedRunEnv 5
        (trackCommits abortedRunEnv 5 trackedState sampleRepo).2
        { sampleRepo with CommitLastPulledTime := some 901 }).2.trace).map (fun g => g.CommitHash)
    ∧ (sampleCommit 100).SHA ∉ (trackCommits abortedRunEnv 5
        (trackCommits abortedRunEnv 5 trackedState sampleRepo).2
        { sampleRepo with CommitLastPulledTime := some 901 }).2.commits.map
          (fun g => g.CommitHash) := by
  set_option maxRecDepth 1000000 in
  refine ⟨samplePage_newest_first 0 101, rfl, ?_, ?_, rfl, ?_, ?_, ?_, ?_⟩ <;> decide

/-! ### C16: the mark follows the whole page -/

/-- C16: for a page `cs` the source returned with status 200, (1) the calls of
`processUntrackedCommits` are the request, then the inserts of the first `n`
commits of the page in response order, each carrying the repository identifier and
the hash, message, author name, author email, authored-at and URL of its commit,
then possibly the write of the mark; the mark is written only when all inserts were
issued (`n` is the length of the page) and none failed, and then as the last call;
a call that returns without error issued all the inserts.  (2) When an insert
fails, the call returns that error, no mark is written, the repository table is as
before, and `trackCommits` returns the error wrapped without requesting another
page.  (3) When no insert fails and the page is not empty, the mark is written: the
calls are the request, the inserts of the whole page and then one write of the
date of the last commit of the page; when that statement does not fail the call
returns the length of the page and the repository table is the old one with the
mark of the repository set to that date; when it fails the call returns the error
and the table is as before.  (4) For an empty page the call returns 0 after the
request alone.  The statements of the store are taken never to fail with the
rate-limit sentinel of the watcher. -/
theorem mark_written_after_whole_page (env : Env) (s : State) (repo : GithubRepository)
    (page : Nat) (since : Option Time) (cs : List GithubCommitResponse) (status : String)
    (fuel : Nat) (b : Duration)
    (hurl : env.newRequestErr repo.RepositoryName = none)
    (hreply : env.commitsReply s.httpCalls (pageRequest repo.RepositoryName since page)
      = HttpReply.resp 200 status (.ok cs))
    (hdb : ∀ m e, env.storeErr m = some e → e.Is Err.ErrRateLimitReached = false) :
    (∃ n w, n ≤ cs.length
      ∧ (processUntrackedCommits env s repo.ID repo.RepositoryName page since).2.eventsAfter s
          = Event.fetchCommits (pageRequest repo.RepositoryName since page)
              :: saveEvents env repo.ID s.uuids (cs.take n) ++ w
      ∧ (savedOf ((processUntrackedCommits env s repo.ID repo.RepositoryName page
            since).2.eventsAfter s)).map GithubCommit.fields
          = (cs.take n).map (GithubCommitResponse.fields repo.ID)
      ∧ (w = []
          ∨ (n = cs.length
              ∧ (saveCommitsLoop env repo.ID cs (s.httpCall
                  (Event.fetchCommits (pageRequest repo.RepositoryName since page)))).1 = none
              ∧ ∃ l, cs.getLast? = some l
                  ∧ w = [Event.UpdateCommitLastSyncTime repo.ID l.Commit.Author.Date]))
      ∧ ((processUntrackedCommits env s repo.ID repo.RepositoryName page since).1
            = .ok cs.length → n = cs.length))
    ∧ (∀ err, (saveCommitsLoop env repo.ID cs (s.httpCall
          (Event.fetchCommits (pageRequest repo.RepositoryName since page)))).1 = some err →
        (processUntrackedCommits env s repo.ID repo.RepositoryName page since).1 = .error err
        ∧ markWritesOf ((processUntrackedCommits env s repo.ID repo.RepositoryName page
            since).2.eventsAfter s) = []
        ∧ (processUntrackedCommits env s repo.ID repo.RepositoryName page since).2.repository
            = s.repository
        ∧ trackCommitsLoop env repo since (fuel + 1) s page b =
            (some (.err (Err.wrapped "error fetching commits" err)),
             (processUntrackedCommits env s repo.ID repo.RepositoryName page since).2))
    ∧ (∀ l, (saveCommitsLoop env repo.ID cs (s.httpCall
          (Event.fetchCommits (pageRequest repo.RepositoryName since page)))).1 = none →
        cs.getLast? = some l →
        (processUntrackedCommits env s repo.ID repo.RepositoryName page since).2.eventsAfter s
          = Event.fetchCommits (pageRequest repo.RepositoryName since page)
              :: saveEvents env repo.ID s.uuids cs
                ++ [Event.UpdateCommitLastSyncTime repo.ID l.Commit.Author.Date]
        ∧ markWritesOf ((processUntrackedCommits env s repo.ID repo.RepositoryName page
            since).2.eventsAfter s) = [(repo.ID, l.Commit.Author.Date)]
        ∧ (env.storeErr (saveCommitsLoop env repo.ID cs (s.httpCall
              (Event.fetchCommits (pageRequest repo.RepositoryName since page)))).2.storeCalls
              = none →
            (processUntrackedCommits env s repo.ID repo.RepositoryName page since).1
              = .ok cs.length
            ∧ (processUntrackedCommits env s repo.ID repo.RepositoryName page
                since).2.repository = setMark repo.ID l.Commit.Author.Date s.repository)
        ∧ (∀ e, env.storeErr (saveCommitsLoop env repo.ID cs (s.httpCall
              (Event.fetchCommits (pageRequest repo.RepositoryName since page)))).2.storeCalls
              = some e →
            (processUntrackedCommits env s repo.ID repo.RepositoryName page since).1
              = .error (Err.wrapped "failed to update last sync time"
                  (Err.wrapped "could not update repository" e))
            ∧ (processUntrackedCommits env s repo.ID repo.RepositoryName page
                since).2.repository = s.repository))
    ∧ (cs = [] →
        (processUntrackedCommits env s repo.ID repo.RepositoryName page since).1 = .ok 0
        ∧ (processUntrackedCommits env s repo.ID repo.RepositoryName page since).2.eventsAfter s
            = [Event.fetchCommits (pageRequest repo.RepositoryName since page)]) := by
  refine and_assoc.1 ⟨?_, ?_, ?_⟩
  · obtain ⟨n, hn, ht, hnone, herr⟩ := saveCommitsLoop_prefix env repo.ID cs
      (s.httpCall (Event.fetchCommits (pageRequest repo.RepositoryName since page)))
    obtain ⟨-, hrepo, -⟩ := saveCommitsLoop_frame env repo.ID cs
      (s.httpCall (Event.fetchCommits (pageRequest repo.RepositoryName since page)))
    rcases hsv : saveCommitsLoop env repo.ID cs
      (s.httpCall (Event.fetchCommits (pageRequest repo.RepositoryName since page))) with ⟨r, s2⟩
    rw [hsv] at ht hnone herr hrepo
    simp only [State.httpCall] at ht hnone herr hrepo
    have hreply' := hreply
    simp only [pageRequest] at hreply' hsv
    have hfields : ∀ w, savedOf w = [] →
        (savedOf (Event.fetchCommits (pageRequest repo.RepositoryName since page)
          :: saveEvents env repo.ID s.uuids (cs.take n) ++ w)).map GithubCommit.fields
          = (cs.take n).map (GithubCommitResponse.fields repo.ID) := by
      intro w hw
      have hcons : savedOf (Event.fetchCommits (pageRequest repo.RepositoryName since page)
          :: saveEvents env repo.ID s.uuids (cs.take n) ++ w)
          = savedOf (saveEvents env repo.ID s.uuids (cs.take n) ++ w) := rfl
      rw [hcons, savedOf_append, hw, List.append_nil]
      exact savedOf_saveEvents_fields env repo.ID _ _
    cases r with
    | some err =>
      have e1 : processUntrackedCommits env s repo.ID repo.RepositoryName page since =
          (.error err, s2) := by
        simp [processUntrackedCommits, hurl, githubCommitsMaxRecordsPerPage, hreply', hsv]
      have hev : s2.eventsAfter s = Event.fetchCommits (pageRequest repo.RepositoryName since page)
          :: saveEvents env repo.ID s.uuids (cs.take n) ++ [] := by
        rw [List.append_nil]
        exact since_of_trace s s2 _ (by rw [ht]; simp)
      rw [e1]
      refine ⟨⟨n, [], hn, hev, ?_, Or.inl rfl, fun h => by simp at h⟩, ?_⟩
      · rw [hev]; exact hfields [] rfl
      · intro err' herr'
        have he : err' = err := (Option.some.inj herr').symm
        subst he
        obtain ⟨-, e, m, hm, hform⟩ := herr err' rfl
        have hnrl : err'.Is Err.ErrRateLimitReached = false := by
          rw [hform]; simpa [Err.Is] using hdb m e hm
        refine ⟨rfl, ?_, hrepo, ?_⟩
        · simp only
          rw [hev]
          simp [markWritesOf, markWritesOf_append, markWritesOf_saveEvents]
        · simp [trackCommitsLoop, e1, hnrl]
    | none =>
      have hnl := hnone rfl
      cases hl : cs.getLast? with
      | none =>
        have e1 : processUntrackedCommits env s repo.ID repo.RepositoryName page since =
            (.ok cs.length, s2) := by
          simp [processUntrackedCommits, hurl, githubCommitsMaxRecordsPerPage, hreply', hsv, hl]
        have hev : s2.eventsAfter s = Event.fetchCommits (pageRequest repo.RepositoryName since page)
            :: saveEvents env repo.ID s.uuids (cs.take n) ++ [] := by
          rw [List.append_nil]
          exact since_of_trace s s2 _ (by rw [ht]; simp)
        rw [e1]
        refine ⟨⟨n, [], hn, hev, ?_, Or.inl rfl, fun _ => hnl⟩, fun err h => by simp at h⟩
        rw [hev]; exact hfields [] rfl
      | some l =>
        obtain ⟨ut, -⟩ := UpdateCommitLastSyncTime_frame env s2 repo.ID l.Commit.Author.Date
        rcases hup : Repository.UpdateCommitLastSyncTime env s2 repo.ID l.Commit.Author.Date
          with ⟨r3, s3⟩
        rw [hup] at ut
        simp only at ut
        have hev : s3.eventsAfter s = Event.fetchCommits (pageRequest repo.RepositoryName since page)
            :: saveEvents env repo.ID s.uuids (cs.take n)
              ++ [Event.UpdateCommitLastSyncTime repo.ID l.Commit.Author.Date] :=
          since_of_trace s s3 _ (by rw [ut, ht]; simp)
        have hout : (processUntrackedCommits env s repo.ID repo.RepositoryName page since).2
            = s3 := by
          cases r3 <;>
            simp [processUntrackedCommits, hurl, githubCommitsMaxRecordsPerPage, hreply', hsv, hl,
              hup]
        rw [hout]
        refine ⟨⟨n, _, hn, hev, ?_, Or.inr ⟨hnl, rfl, l, rfl, rfl⟩, fun _ => hnl⟩,
          fun err h => by simp at h⟩
        rw [hev]; exact hfields _ rfl
  · intro l hsave hl
    obtain ⟨hev, hok, hfail⟩ := processUntrackedCommits_mark_write env s repo.ID
      repo.RepositoryName page since cs status l hurl hreply hsave hl
    refine ⟨hev, ?_, hok, hfail⟩
    rw [hev]
    have hcons : markWritesOf (Event.fetchCommits (pageRequest repo.RepositoryName since page)
        :: saveEvents env repo.ID s.uuids cs
          ++ [Event.UpdateCommitLastSyncTime repo.ID l.Commit.Author.Date])
        = markWritesOf (saveEvents env repo.ID s.uuids cs
          ++ [Event.UpdateCommitLastSyncTime repo.ID l.Commit.Author.Date]) := rfl
    rw [hcons, markWritesOf_append, markWritesOf_saveEvents]
    rfl
  · intro hnil
    subst hnil
    have hreply2 := hreply
    simp only [pageRequest] at hreply2
    have e1 : processUntrackedCommits env s repo.ID repo.RepositoryName page since =
        (.ok 0, s.httpCall (Event.fetchCommits (pageRequest repo.RepositoryName since page))) := by
      simp [processUntrackedCommits, hurl, githubCommitsMaxRecordsPerPage, hreply2,
        saveCommitsLoop, pageRequest]
    rw [e1]
    exact ⟨rfl, since_of_trace _ _ _ rfl⟩

/-- C16 at a concrete input: a page of two commits, dated 1000 and 999, is inserted
whole and the mark 999 is written after it. -/
theorem mark_written_after_whole_page_witness :
    (∃ n w, n ≤ (samplePage 0 2).length
      ∧ (processUntrackedCommits onePageEnv trackedState sampleRepo.ID sampleRepo.RepositoryName 1 none).2.eventsAfter trackedState
          = Event.fetchCommits (pageRequest sampleRepo.RepositoryName none 1)
              :: saveEvents onePageEnv sampleRepo.ID trackedState.uuids ((samplePage 0 2).take n) ++ w
      ∧ (savedOf ((processUntrackedCommits onePageEnv trackedState sampleRepo.ID sampleRepo.RepositoryName 1
            none).2.eventsAfter trackedState)).map GithubCommit.fields
          = ((samplePage 0 2).take n).map (GithubCommitResponse.fields sampleRepo.ID)
      ∧ (w = []
          ∨ (n = (samplePage 0 2).length
              ∧ (saveCommitsLoop onePageEnv sampleRepo.ID (samplePage 0 2) (trackedState.httpCall
                  (Event.fetchCommits (pageRequest sampleRepo.RepositoryName none 1)))).1 = none
              ∧ ∃ l, (samplePage 0 2).getLast? = some l
                  ∧ w = [Event.UpdateCommitLastSyncTime sampleRepo.ID l.Commit.Author.Date]))
      ∧ ((processUntrackedCommits onePageEnv trackedState sampleRepo.ID sampleRepo.RepositoryName 1 none).1
            = .ok (samplePage 0 2).length → n = (samplePage 0 2).length))
    ∧ (∀ err, (saveCommitsLoop onePageEnv sampleRepo.ID (samplePage 0 2) (trackedState.httpCall
          (Event.fetchCommits (pageRequest sampleRepo.RepositoryName none 1)))).1 = some err →
        (processUntrackedCommits onePageEnv trackedState sampleRepo.ID sampleRepo.RepositoryName 1 none).1 = .error err
        ∧ markWritesOf ((processUntrackedCommits onePageEnv trackedState sampleRepo.ID sampleRepo.RepositoryName 1
            none).2.eventsAfter trackedState) = []
        ∧ (processUntrackedCommits onePageEnv trackedState sampleRepo.ID sampleRepo.RepositoryName 1 none).2.repository
            = trackedState.repository
        ∧ trackCommitsLoop onePageEnv sampleRepo none (0 + 1) trackedState 1 defaultBackoffDuration =
            (some (.err (Err.wrapped "error fetching commits" err)),
             (processUntrackedCommits onePageEnv trackedState sampleRepo.ID sampleRepo.RepositoryName 1 none).2))
    ∧ (∀ l, (saveCommitsLoop onePageEnv sampleRepo.ID (samplePage 0 2) (trackedState.httpCall
          (Event.fetchCommits (pageRequest sampleRepo.RepositoryName none 1)))).1 = none →
        (samplePage 0 2).getLast? = some l →
        (processUntrackedCommits onePageEnv trackedState sampleRepo.ID sampleRepo.RepositoryName 1 none).2.eventsAfter trackedState
          = Event.fetchCommits (pageRequest sampleRepo.RepositoryName none 1)
              :: saveEvents onePageEnv sampleRepo.ID trackedState.uuids (samplePage 0 2)
                ++ [Event.UpdateCommitLastSyncTime sampleRepo.ID l.Commit.Author.Date]
        ∧ markWritesOf ((processUntrackedCommits onePageEnv trackedState sampleRepo.ID sampleRepo.RepositoryName 1
            none).2.eventsAfter trackedState) = [(sampleRepo.ID, l.Commit.Author.Date)]
        ∧ (onePageEnv.storeErr (saveCommitsLoop onePageEnv sampleRepo.ID (samplePage 0 2) (trackedState.httpCall
              (Event.fetchCommits (pageRequest sampleRepo.RepositoryName none 1)))).2.storeCalls
              = none →
            (processUntrackedCommits onePageEnv trackedState sampleRepo.ID sampleRepo.RepositoryName 1 none).1
              = .ok (samplePage 0 2).length
            ∧ (processUntrackedCommits onePageEnv trackedState sampleRepo.ID sampleRepo.RepositoryName 1
                none).2.repository = setMark sampleRepo.ID l.Commit.Author.Date trackedState.repository)
        ∧ (∀ e, onePageEnv.storeErr (saveCommitsLoop onePageEnv sampleRepo.ID (samplePage 0 2) (trackedState.httpCall
              (Event.fetchCommits (pageRequest sampleRepo.RepositoryName none 1)))).2.storeCalls
              = some e →
            (processUntrackedCommits onePageEnv trackedState sampleRepo.ID sampleRepo.RepositoryName 1 none).1
              = .error (Err.wrapped "failed to update last sync time"
                  (Err.wrapped "could not update repository" e))
            ∧ (processUntrackedCommits onePageEnv trackedState sampleRepo.ID sampleRepo.RepositoryName 1
                none).2.repository = trackedState.repository))
    ∧ ((samplePage 0 2) = [] →
        (processUntrackedCommits onePageEnv trackedState sampleRepo.ID sampleRepo.RepositoryName 1 none).1 = .ok 0
        ∧ (processUntrackedCommits onePageEnv trackedState sampleRepo.ID sampleRepo.RepositoryName 1 none).2.eventsAfter trackedState
            = [Event.fetchCommits (pageRequest sampleRepo.RepositoryName none 1)]) :=
  mark_written_after_whole_page onePageEnv trackedState sampleRepo 1 none
    (samplePage 0 2) "200 OK" 0 defaultBackoffDuration rfl rfl
    (fun m e h => by simp [onePageEnv, quietEnv] at h)

/-- An insert that fails, at a concrete input: of a page of three commits the second
insert fails; the call returns the error after two inserts, no mark is written and
the run ends with the error wrapped. -/
theorem insert_failure_leaves_mark :
    (processUntrackedCommits secondInsertFailsEnv trackedState "id-1" "o/r" 1 none).1
      = .error (Err.wrapped "failed to save new commit"
          (Err.wrapped "could not insert repository" (Err.other "connection refused")))
    ∧ (savedOf ((processUntrackedCommits secondInsertFailsEnv trackedState "id-1" "o/r" 1
        none).2.eventsAfter trackedState)).map (fun g => g.Date) = [1000, 999]
    ∧ markWritesOf ((processUntrackedCommits secondInsertFailsEnv trackedState "id-1" "o/r" 1
        none).2.eventsAfter trackedState) = []
    ∧ (processUntrackedCommits secondInsertFailsEnv trackedState "id-1" "o/r" 1 none).2.mark "id-1"
      = none
    ∧ (trackCommits secondInsertFailsEnv 5 trackedState sampleRepo).1
      = some (.err (Err.wrapped "error fetching commits" (Err.wrapped "failed to save new commit"
          (Err.wrapped "could not insert repository" (Err.other "connection refused")))))
    ∧ requestsOf ((trackCommits secondInsertFailsEnv 5 trackedState sampleRepo).2.eventsAfter
        trackedState) = [pageRequest "o/r" none 1] := by
  refine ⟨rfl, ?_, ?_, ?_, rfl, ?_⟩ <;> decide

end GithubRepoStats
